import Mathlib

/-!
# mm.c: explicit free list allocator with boundary tags

A shallow embedding of `src/mm.c` and theorems about it.

Machine model (LP64, little-endian, as on the x86-64 targets of the lab this
allocator was written for):

* memory is a total map from byte addresses to bytes; `GET`/`PUT` move four
  bytes (`unsigned int`), the free-list link macros move eight (`void *`);
* `unsigned int` and `int` are 32 bits wide, `size_t`, `long` and pointers 64;
  values are natural numbers and every truncation the C code performs is an
  explicit `%`;
* addresses are natural numbers; pointer arithmetic does not wrap
  (`bp - WSIZE` below address 4 is truncated at 0, which no theorem relies on).
-/

namespace MM

/-! ## Memory -/

/-- Byte-addressed memory. A cell is read modulo 256. -/
abbrev Mem := Nat → Nat

/-- `WSIZE`: word and header/footer size in bytes. -/
def WSIZE : Nat := 4

/-- `DSIZE`: double word size in bytes. -/
def DSIZE : Nat := 8

/-- `GET(p)`: read the `unsigned int` stored at address `p`. -/
def GET (m : Mem) (p : Nat) : Nat :=
  m p % 256 + 256 * (m (p + 1) % 256) + 65536 * (m (p + 2) % 256)
    + 16777216 * (m (p + 3) % 256)

/-- `PUT(p, val)`: store `val`, converted to `unsigned int`, at address `p`. -/
def PUT (m : Mem) (p val : Nat) : Mem := fun x =>
  if x = p then val % 256
  else if x = p + 1 then val / 256 % 256
  else if x = p + 2 then val / 65536 % 256
  else if x = p + 3 then val / 16777216 % 256
  else m x

/-- Read the `void *` stored at address `p` (eight bytes). -/
def GET_PTR (m : Mem) (p : Nat) : Nat :=
  GET m p + 4294967296 * GET m (p + 4)

/-- Store the `void *` value `v` at address `p` (eight bytes). -/
def SET_PTR (m : Mem) (p v : Nat) : Mem :=
  PUT (PUT m p v) (p + 4) (v / 4294967296)

/-! ## Basic macros -/

/-- `ALIGN(p)`: `((size_t)(p) + 7) & ~0x7`, computed in `size_t`. -/
def ALIGN (p : Nat) : Nat :=
  ((p + 7) % 18446744073709551616) &&& 18446744073709551608

/-- `PACK(size, alloc)`: `size | alloc`. -/
def PACK (size alloc : Nat) : Nat := size ||| alloc

/-- `GET_SIZE(p)`: `GET(p) & ~0x7` on `unsigned int`. -/
def GET_SIZE (m : Mem) (p : Nat) : Nat := GET m p &&& 4294967288

/-- `GET_ALLOC(p)`: `GET(p) & 0x1`. -/
def GET_ALLOC (m : Mem) (p : Nat) : Nat := GET m p &&& 1

/-- `HDRP(bp)`: address of the header of the block whose payload starts at `bp`. -/
def HDRP (bp : Nat) : Nat := bp - 4

/-- `FTRP(bp)`: `(char *)(bp) + GET_SIZE(HDRP(bp))`. -/
def FTRP (m : Mem) (bp : Nat) : Nat := bp + GET_SIZE m (HDRP bp)

/-- `NEXT_BLKP(bp)`: `(char *)(bp) + GET_SIZE(HDRP(bp)) + 2*WSIZE`. -/
def NEXT_BLKP (m : Mem) (bp : Nat) : Nat := bp + GET_SIZE m (HDRP bp) + 8

/-- `PREV_BLKP(bp)`: `(char *)(bp) - GET_SIZE((char *)(bp) - DSIZE) - 2*WSIZE`. -/
def PREV_BLKP (m : Mem) (bp : Nat) : Nat := bp - GET_SIZE m (bp - 8) - 8

/-- `GET_NEXT_FREE(bp)`: the pointer stored at `bp + DSIZE`. -/
def GET_NEXT_FREE (m : Mem) (bp : Nat) : Nat := GET_PTR m (bp + 8)

/-- `GET_PREV_FREE(bp)`: the pointer stored at `bp`. -/
def GET_PREV_FREE (m : Mem) (bp : Nat) : Nat := GET_PTR m bp

/-- `SET_NEXT_FREE(bp, ptr)`. -/
def SET_NEXT_FREE (m : Mem) (bp ptr : Nat) : Mem := SET_PTR m (bp + 8) ptr

/-- `SET_PREV_FREE(bp, ptr)`. -/
def SET_PREV_FREE (m : Mem) (bp ptr : Nat) : Mem := SET_PTR m bp ptr

/-! ## Allocator state and the arena provider -/

/-- The state the allocator works on: memory, the global `free_list` root, and
the arena provider's bounds (`heap_lo` is the first byte of the arena, `brk`
the first byte after it, `max_addr` the first byte the arena can never reach). -/
structure Heap where
  /-- Memory contents. -/
  mem : Mem
  /-- The global `free_list`; `0` is `NULL`. -/
  free_list : Nat
  /-- First byte of the arena (`lowerBound()`). -/
  heap_lo : Nat
  /-- First byte after the arena; `upperBound()` is `brk - 1`. -/
  brk : Nat
  /-- Limit of the arena. -/
  max_addr : Nat

/-- Modelled from the spec: the arena provider's `grow(nBytes)` (`mem_sbrk` in
the code, whose definition is not part of `mm.c`). It extends the managed
region by `incr` bytes and returns the start of the new span, which
immediately follows all previously granted space; it fails (`none`, the
`(void *)-1` sentinel) when the region cannot grow that far. -/
def mem_sbrk (s : Heap) (incr : Nat) : Option (Nat × Heap) :=
  if s.brk + incr ≤ s.max_addr then
    some (s.brk, { s with brk := s.brk + incr })
  else none

/-- Modelled from the spec: `lowerBound()` (`mem_heap_lo`), the least addressed
byte of the region. -/
def mem_heap_lo (s : Heap) : Nat := s.heap_lo

/-- Modelled from the spec: `upperBound()` (`mem_heap_hi`), the greatest
addressed byte of the region. -/
def mem_heap_hi (s : Heap) : Nat := s.brk - 1

/-! ## Free list manager -/

/-- `add(bp)`: make `bp` the first element of the free list. -/
def add (s : Heap) (bp : Nat) : Heap :=
  let head := s.free_list
  let m1 := SET_NEXT_FREE s.mem bp head
  let m2 := SET_PREV_FREE m1 bp 0
  let m3 := if head ≠ 0 then SET_PREV_FREE m2 head bp else m2
  { s with mem := m3, free_list := bp }

/-- `delete(bp)`: unlink `bp` from the free list. -/
def delete (s : Heap) (bp : Nat) : Heap :=
  let next := GET_NEXT_FREE s.mem bp
  let prev := GET_PREV_FREE s.mem bp
  if prev = 0 then
    if next ≠ 0 then
      { s with mem := SET_PREV_FREE s.mem next 0, free_list := next }
    else { s with free_list := next }
  else
    let m1 := SET_NEXT_FREE s.mem prev next
    if next ≠ 0 then { s with mem := SET_PREV_FREE m1 next prev }
    else { s with mem := m1 }

/-! ## Allocator core -/

/-- `mm_init`: reset the free list, grow the arena by `2*WSIZE` and write the
two terminating boundary markers. Returns `0`, or `-1` when growing fails. -/
def mm_init (s : Heap) : Int × Heap :=
  let s0 := { s with free_list := 0 }
  match mem_sbrk s0 8 with
  | none => (-1, s0)
  | some (heap_bottom, s1) =>
    let m1 := PUT s1.mem heap_bottom (PACK 0 1)
    let m2 := PUT m1 (heap_bottom + 4) (PACK 0 1)
    (0, { s1 with mem := m2 })

/-- The loop of `find_fit`: `fuel` is the number of iterations still allowed
(`500 - i`). -/
def find_fit_loop (m : Mem) (asize : Nat) : Nat → Nat → Nat
  | 0, _ => 0
  | fuel + 1, bp =>
    if bp = 0 then 0
    else if GET_SIZE m (HDRP bp) > asize then bp
    else find_fit_loop m asize fuel (GET_NEXT_FREE m bp)

/-- `find_fit(asize)`: first-fit search of the free list, at most 500 probes.
Returns `0` (`NULL`) when no probe succeeds. -/
def find_fit (s : Heap) (asize : Nat) : Nat :=
  find_fit_loop s.mem asize 500 s.free_list

/-- Conversion of an `int`, given by its 32-bit pattern, to `size_t`
(sign extension). -/
def int_to_size_t (u : Nat) : Nat :=
  if u < 2147483648 then u else u + 18446744069414584320

/-- `place(bp, asize)`: allocate from the free block `bp`, splitting it when
`bsize >= asize + 32`. `bsize` and `csize` are `int` in the code and are kept
here as their 32-bit patterns; the comparison and the subtraction are done in
`size_t`, as C's usual arithmetic conversions prescribe. -/
def place (s : Heap) (bp asize : Nat) : Nat × Heap :=
  let bsize := GET_SIZE s.mem (HDRP bp)
  if (asize + 32) % 18446744073709551616 ≤ int_to_size_t bsize then
    let csize := (int_to_size_t bsize + 2 * 18446744073709551616
      - asize % 18446744073709551616 - 8) % 18446744073709551616 % 4294967296
    let m1 := PUT s.mem (HDRP bp) (PACK csize 0)
    let m2 := PUT m1 (FTRP m1 bp) (PACK csize 0)
    let p := NEXT_BLKP m2 bp
    let m3 := PUT m2 (HDRP p) (PACK asize 1)
    let m4 := PUT m3 (FTRP m3 p) (PACK asize 1)
    (p, { s with mem := m4 })
  else
    let s1 := delete s bp
    let m1 := PUT s1.mem (HDRP bp) (PACK bsize 1)
    let m2 := PUT m1 (FTRP m1 bp) (PACK bsize 1)
    (bp, { s1 with mem := m2 })

/-- The adjusted size `asize` that `mm_malloc` computes for a request of
`size` bytes; `asize` is an `unsigned int`, so `ALIGN(size)` is truncated. -/
def adjusted_size (size : Nat) : Nat :=
  if size ≤ 32 then 32 else ALIGN size % 4294967296

/-- `mm_malloc(size)`: returns the payload pointer (`0` for `NULL`) and the new
state. -/
def mm_malloc (s : Heap) (size : Nat) : Nat × Heap :=
  if size = 0 then (0, s)
  else
    let asize := adjusted_size size
    let list := find_fit s asize
    if list ≠ 0 then place s list asize
    else
      match mem_sbrk s ((asize + 8) % 4294967296) with
      | none => (0, s)
      | some (list, s1) =>
        let m1 := PUT s1.mem (HDRP list) (PACK asize 1)
        let m2 := PUT m1 (FTRP m1 list) (PACK asize 1)
        let m3 := PUT m2 (FTRP m2 list + 4) (PACK 0 1)
        (list, { s1 with mem := m3 })

/-- `coalesce(ptr)`: merge the freed block with free neighbours. The sums
`GET_SIZE(..) + 2*WSIZE` are `unsigned int` sums; `size` is a `size_t`. -/
def coalesce (s : Heap) (ptr : Nat) : Heap :=
  let next_alloc := GET_ALLOC s.mem (FTRP s.mem ptr + 4)
  let prev_alloc := GET_ALLOC s.mem (ptr - 8)
  let size := GET_SIZE s.mem (HDRP ptr)
  if prev_alloc ≠ 0 ∧ next_alloc ≠ 0 then
    add s ptr
  else if prev_alloc ≠ 0 ∧ next_alloc = 0 then
    let size := (size + (GET_SIZE s.mem (HDRP (NEXT_BLKP s.mem ptr)) + 8) % 4294967296)
      % 18446744073709551616
    let s1 := delete s (NEXT_BLKP s.mem ptr)
    let m1 := PUT s1.mem (HDRP ptr) (PACK size 0)
    let m2 := PUT m1 (FTRP m1 ptr) (PACK size 0)
    add { s1 with mem := m2 } ptr
  else if prev_alloc = 0 ∧ next_alloc ≠ 0 then
    let ptr := PREV_BLKP s.mem ptr
    let size := (size + (GET_SIZE s.mem (HDRP ptr) + 8) % 4294967296)
      % 18446744073709551616
    let m1 := PUT s.mem (HDRP ptr) (PACK size 0)
    let m2 := PUT m1 (FTRP m1 ptr) (PACK size 0)
    { s with mem := m2 }
  else
    let prev := PREV_BLKP s.mem ptr
    let next := NEXT_BLKP s.mem ptr
    let size := (size + (GET_SIZE s.mem (HDRP prev) + GET_SIZE s.mem (HDRP next) + 16)
      % 4294967296) % 18446744073709551616
    let m1 := PUT s.mem (HDRP prev) (PACK size 0)
    let m2 := PUT m1 (FTRP m1 prev) (PACK size 0)
    delete { s with mem := m2 } next

/-- `mm_free(bp)`: mark the block free, then coalesce when the free list is
non-empty and insert directly otherwise. -/
def mm_free (s : Heap) (bp : Nat) : Heap :=
  if bp = 0 then s
  else
    let size := GET_SIZE s.mem (HDRP bp)
    let m1 := PUT s.mem (HDRP bp) (PACK size 0)
    let m2 := PUT m1 (FTRP m1 bp) (PACK size 0)
    let s1 := { s with mem := m2 }
    if s1.free_list ≠ 0 then coalesce s1 bp else add s1 bp

/-- A fresh arena: nothing granted yet, memory all zero, `free_list` still
`NULL`, room for `cap` bytes starting at `lo`. -/
def fresh (lo cap : Nat) : Heap :=
  { mem := fun _ => 0, free_list := 0, heap_lo := lo, brk := lo, max_addr := lo + cap }

/-! ## The free list as a sequence -/

/-- The first `fuel` nodes of the free list that starts at `bp`, in order,
found by following next references until `NULL`. -/
def free_nodes (m : Mem) : Nat → Nat → List Nat
  | 0, _ => []
  | fuel + 1, bp =>
    if bp = 0 then [] else bp :: free_nodes m fuel (GET_NEXT_FREE m bp)

/-! ## Scenario runs

Closed runs of the allocator used by the theorems below. Every run starts from
a fresh arena whose lower bound is 8-byte aligned. -/

/-- The heap right after `mm_init` on a fresh arena at address 4096 with room
for 1 MiB. -/
def heap0 : Heap := (mm_init (fresh 4096 1048576)).2

/-- The heap right after `mm_init` on a fresh arena at address 4096 with room
for 8 GiB. -/
def heap0_big : Heap := (mm_init (fresh 4096 8589934592)).2

/-- The run `mm_init(); mm_malloc(4294967288)` on the 8 GiB arena. -/
def oversize_run : Nat × Heap := mm_malloc heap0_big 4294967288

/-- Scenario A up to `release(p1)`: `p1 = allocate(16); p2 = allocate(16);
release(p1)`. The components are `p1`, `p2` and the state after the release. -/
def scenarioA_released : Nat × Nat × Heap :=
  let r1 := mm_malloc heap0 16
  let r2 := mm_malloc r1.2 16
  (r1.1, r2.1, mm_free r2.2 r1.1)

/-- Scenario A, last step: `p3 = allocate(16)`. -/
def scenarioA_p3 : Nat × Heap := mm_malloc scenarioA_released.2.2 16

/-- Scenario B up to `release(p1)`: `p1 = allocate(100); release(p1)`. The
components are `p1` and the state after the release. -/
def scenarioB_released : Nat × Heap :=
  let r1 := mm_malloc heap0 100
  (r1.1, mm_free r1.2 r1.1)

/-- Scenario B, last step: `p2 = allocate(40)`. -/
def scenarioB_p2 : Nat × Heap := mm_malloc scenarioB_released.2 40

/-- The run `mm_init(); a = mm_malloc(4294967296); b = mm_malloc(4294967296);
mm_free(b); c = mm_malloc(4294967296)` on a fresh 20 MiB arena whose lower
bound is 4294967272 (a multiple of 8). The components are `a`, `b`, `c` and
the state reached. -/
def zero_size_run : Nat × Nat × Nat × Heap :=
  let r1 := mm_malloc (mm_init (fresh 4294967272 20971520)).2 4294967296
  let r2 := mm_malloc r1.2 4294967296
  let r3 := mm_malloc (mm_free r2.2 r2.1) 4294967296
  (r1.1, r2.1, r3.1, r3.2)

/-- The run `mm_init(); p = mm_malloc(1073741824); q = mm_malloc(1073741824);
mm_free(p); mm_free(q)` on the 8 GiB arena: the two pointers and the state
reached, in which the two blocks are merged into one free block at `p`. -/
def big_block_freed : Nat × Nat × Heap :=
  let r1 := mm_malloc heap0_big 1073741824
  let r2 := mm_malloc r1.2 1073741824
  (r1.1, r2.1, mm_free (mm_free r2.2 r1.1) r2.1)

/-- Three consecutive allocations of 1, 4294967296 and 1 bytes after
`mm_init`: the three pointers and the state reached. -/
def three_blocks : Nat × Nat × Nat × Heap :=
  let a := mm_malloc heap0 1
  let b := mm_malloc a.2 4294967296
  let c := mm_malloc b.2 1
  (a.1, b.1, c.1, c.2)

/-- The blocks of `three_blocks` released middle first, then the two outer
neighbours (the order of Scenario D). -/
def three_blocks_released : Heap :=
  mm_free (mm_free (mm_free three_blocks.2.2.2 three_blocks.2.1) three_blocks.1)
    three_blocks.2.2.1

/-- Memory holding a free list of 501 nodes: node `i` is at `4104 + 96 * i`,
its header encodes the size 40 for `i < 500` and 64 for `i = 500`, and its
next reference is node `i + 1` (`NULL` for the last node). -/
def long_list_mem : Mem := fun a =>
  if a < 4100 then 0
  else
    let i := (a - 4100) / 96
    let r := (a - 4100) % 96
    if r = 0 then (if i < 500 then 40 else if i = 500 then 64 else 0)
    else if r = 12 then (if i < 500 then (4104 + 96 * (i + 1)) % 256 else 0)
    else if r = 13 then (if i < 500 then (4104 + 96 * (i + 1)) / 256 % 256 else 0)
    else 0

/-- A heap over `long_list_mem` whose free list starts at the first node. -/
def long_list_heap : Heap :=
  { mem := long_list_mem, free_list := 4104, heap_lo := 4096, brk := 52200,
    max_addr := 1052672 }

/-! ## Three adjacent blocks

State descriptions used to follow the release of three adjacent blocks. The
addresses are relative to `p0`, the address of the footer word that precedes
the first block: the blocks have payload sizes `sa`, `sb`, `sc`, their payloads
start at `p0 + 8`, `p0 + 16 + sa` and `p0 + 24 + sa + sb`, and the header that
follows the third block is at `p0 + 28 + sa + sb + sc`. -/

/-- A segment of the free list as a doubly linked sequence: the nodes of `F`,
in order, are linked by their previous and next references; the previous
reference of the first node is `prev` and the next reference of the last node
is `nxt`. -/
def links (m : Mem) : Nat → List Nat → Nat → Prop
  | _, [], _ => True
  | prev, x :: xs, nxt =>
    GET_PREV_FREE m x = prev ∧ GET_NEXT_FREE m x = xs.headD nxt ∧ links m x xs nxt

/-- The free list of `s` is the sequence `F`: the root is its first node (or
`NULL`), the first node has no predecessor and the last no successor. -/
def free_list_is (s : Heap) (F : List Nat) : Prop :=
  s.free_list = F.headD 0 ∧ links s.mem 0 F 0

/-- The nodes of a free list can hold their two references without sharing a
byte: they are not `NULL`, they fit the address space, and any two of them are
at least 16 bytes apart. -/
def nodes_ok (F : List Nat) : Prop :=
  (∀ x ∈ F, x ≠ 0 ∧ x + 16 ≤ 18446744073709551616) ∧
  F.Pairwise (fun x y => x + 16 ≤ y ∨ y + 16 ≤ x)

/-- Side conditions on three block sizes: multiples of 8 that can hold the two
free-list references, whose merged size fits a boundary tag, at addresses that
fit a pointer. -/
def sizes_ok (p0 sa sb sc : Nat) : Prop :=
  sa % 8 = 0 ∧ sb % 8 = 0 ∧ sc % 8 = 0 ∧ 16 ≤ sa ∧ 16 ≤ sb ∧ 16 ≤ sc ∧
  sa + sb + sc + 16 < 4294967296 ∧ p0 + sa + sb + sc + 32 ≤ 18446744073709551616

/-- Three adjacent blocks with allocation bits `al`, `bl`, `cl`, between an
allocated predecessor tag and an allocated successor tag. -/
def arena3 (s : Heap) (p0 sa sb sc al bl cl : Nat) : Prop :=
  GET_ALLOC s.mem p0 = 1 ∧
  GET s.mem (p0 + 4) = sa + al ∧ GET s.mem (p0 + 8 + sa) = sa + al ∧
  GET s.mem (p0 + 12 + sa) = sb + bl ∧ GET s.mem (p0 + 16 + sa + sb) = sb + bl ∧
  GET s.mem (p0 + 20 + sa + sb) = sc + cl ∧ GET s.mem (p0 + 24 + sa + sb + sc) = sc + cl ∧
  GET_ALLOC s.mem (p0 + 28 + sa + sb + sc) = 1

/-- The first two blocks merged into one free block, the third allocated. -/
def arena_ab_c (s : Heap) (p0 sa sb sc : Nat) : Prop :=
  GET_ALLOC s.mem p0 = 1 ∧
  GET s.mem (p0 + 4) = sa + sb + 8 ∧ GET s.mem (p0 + 16 + sa + sb) = sa + sb + 8 ∧
  GET s.mem (p0 + 20 + sa + sb) = sc + 1 ∧ GET s.mem (p0 + 24 + sa + sb + sc) = sc + 1 ∧
  GET_ALLOC s.mem (p0 + 28 + sa + sb + sc) = 1

/-- The first block allocated, the last two merged into one free block. -/
def arena_a_bc (s : Heap) (p0 sa sb sc : Nat) : Prop :=
  GET_ALLOC s.mem p0 = 1 ∧
  GET s.mem (p0 + 4) = sa + 1 ∧ GET s.mem (p0 + 8 + sa) = sa + 1 ∧
  GET s.mem (p0 + 12 + sa) = sb + sc + 8 ∧ GET s.mem (p0 + 24 + sa + sb + sc) = sb + sc + 8 ∧
  GET_ALLOC s.mem (p0 + 28 + sa + sb + sc) = 1

/-- All three blocks merged into one free block that is the only node of the
free list. -/
def arena_abc (s : Heap) (p0 sa sb sc : Nat) : Prop :=
  free_list_is s [p0 + 8] ∧
  GET s.mem (p0 + 4) = sa + sb + sc + 16 ∧ GET s.mem (p0 + 24 + sa + sb + sc) = sa + sb + sc + 16

/-- The run `mm_init(); a = mm_malloc(n1); b = mm_malloc(n2); c = mm_malloc(n3)`
from the state `s0`: the three pointers and the state reached. -/
def init_and_three (s0 : Heap) (n1 n2 n3 : Nat) : Nat × Nat × Nat × Heap :=
  let a := mm_malloc (mm_init s0).2 n1
  let b := mm_malloc a.2 n2
  let c := mm_malloc b.2 n3
  (a.1, b.1, c.1, c.2)

/-- The outcome that C10 describes, for blocks of sizes `sa`, `sb`, `sc` of
which the first has its payload at `a`: the free list has exactly one entry,
at `a`, whose header and footer both encode `sa + sb + sc + 16`, free. -/
def one_merged_block (s : Heap) (a sa sb sc : Nat) : Prop :=
  free_nodes s.mem 500 s.free_list = [a] ∧
  GET s.mem (HDRP a) = PACK (sa + sb + sc + 16) 0 ∧
  GET s.mem (FTRP s.mem a) = PACK (sa + sb + sc + 16) 0

/-! ## The arena as a sequence of blocks

A block is described by its payload size and its allocation bit. A sequence of
blocks laid out from the header address `h` puts each header right after the
footer of the block before. -/

/-- Bytes taken by a sequence of blocks: payload plus header and footer. -/
def span : List (Nat × Nat) → Nat
  | [] => 0
  | b :: R => b.1 + 8 + span R

/-- The boundary tags of the blocks `L`, laid out from the header address `h`:
header and footer of each block hold its size and allocation bit. -/
def tags (m : Mem) : Nat → List (Nat × Nat) → Prop
  | _, [] => True
  | h, b :: R =>
    GET m h = b.1 + b.2 ∧ GET m (h + 4 + b.1) = b.1 + b.2 ∧ tags m (h + 8 + b.1) R

/-- Payload addresses of the free blocks of `L`, in address order. -/
def free_addrs : Nat → List (Nat × Nat) → List Nat
  | _, [] => []
  | h, b :: R =>
    if b.2 = 0 then (h + 4) :: free_addrs (h + 8 + b.1) R else free_addrs (h + 8 + b.1) R

/-- Payload addresses and sizes of the allocated blocks of `L`, in address
order. -/
def live_blocks : Nat → List (Nat × Nat) → List (Nat × Nat)
  | _, [] => []
  | h, b :: R =>
    if b.2 = 0 then live_blocks (h + 8 + b.1) R
    else (h + 4, b.1) :: live_blocks (h + 8 + b.1) R

/-- Every block has a size that is a multiple of 8 and at least 24, and an
allocation bit. -/
def blocks_wf (L : List (Nat × Nat)) : Prop :=
  ∀ b ∈ L, b.1 % 8 = 0 ∧ 24 ≤ b.1 ∧ b.2 ≤ 1

/-- Allocation bit of the last block of a sequence; `1` for the empty
sequence, which is preceded by the allocated marker that `mm_init` writes. -/
def last_alloc : List (Nat × Nat) → Nat
  | [] => 1
  | [b] => b.2
  | _ :: c :: R => last_alloc (c :: R)

/-- Allocation bit of the first block of a sequence; `1` for the empty
sequence, which is followed by the allocated end marker. -/
def head_alloc : List (Nat × Nat) → Nat
  | [] => 1
  | b :: _ => b.2

/-- No two neighbouring blocks are both free. -/
def no_adjacent_free : List (Nat × Nat) → Prop
  | [] => True
  | b :: R => (b.2 = 1 ∨ head_alloc R = 1) ∧ no_adjacent_free R

/-- The boundary tags of an arena whose first marker word is at `p0`: the
marker is allocated, the blocks `L` follow it, and the end marker after them is
allocated. -/
def arena_tags (m : Mem) (p0 : Nat) (L : List (Nat × Nat)) : Prop :=
  GET_ALLOC m p0 = 1 ∧ tags m (p0 + 4) L ∧ GET_ALLOC m (p0 + 4 + span L) = 1

/-- The heap invariant. The arena from the marker word at `p0` to `brk` is
tiled by the blocks `L`; the free list is the sequence `F`, which holds exactly
the free blocks of `L`; no two neighbouring blocks are free; the arena cannot
grow beyond 2 GiB. -/
structure heap_inv (s : Heap) (p0 : Nat) (L : List (Nat × Nat)) (F : List Nat) : Prop where
  /-- The first marker word is 8-byte aligned. -/
  aligned : p0 % 8 = 0
  /-- The first marker word is inside the arena. -/
  lo : s.heap_lo ≤ p0
  /-- The blocks and the two markers fill the arena. -/
  top : p0 + 8 + span L = s.brk
  /-- The arena is inside its limit. -/
  cap : s.brk ≤ s.max_addr
  /-- The limit is at most 2 GiB after the first marker. -/
  small : s.max_addr ≤ p0 + 2147483648
  /-- Addresses fit a pointer. -/
  addr : p0 + 2147483648 ≤ 18446744073709551616
  /-- Boundary tags. -/
  tagged : arena_tags s.mem p0 L
  /-- Block sizes. -/
  wf : blocks_wf L
  /-- No two neighbouring free blocks. -/
  naf : no_adjacent_free L
  /-- The free list is the sequence `F`. -/
  list : free_list_is s F
  /-- The free list holds exactly the free blocks. -/
  perm : F.Perm (free_addrs (p0 + 4) L)

/-! ## Runs of client calls -/

/-- A call made by the client after `mm_init`. -/
inductive Call where
  /-- The call `mm_malloc(size)`. -/
  | allocate (size : Nat)
  /-- The call `mm_free(p)`. -/
  | release (p : Nat)

/-- One call, on the allocator state paired with the list of live pointers:
a non-null result of `mm_malloc` becomes live, a released pointer stops being
live. -/
def run_step (st : Heap × List Nat) : Call → Heap × List Nat
  | Call.allocate size =>
    ((mm_malloc st.1 size).2,
      if (mm_malloc st.1 size).1 = 0 then st.2 else (mm_malloc st.1 size).1 :: st.2)
  | Call.release p => (mm_free st.1 p, st.2.erase p)

/-- The state after a sequence of calls. -/
def run (st : Heap × List Nat) (cs : List Call) : Heap × List Nat :=
  cs.foldl run_step st

/-- The precondition of one call when the pointers `live` are live: a request
is at most `4294967280` bytes, and `mm_free` is given `NULL` or a live
pointer. -/
def call_ok (live : List Nat) : Call → Prop
  | Call.allocate size => size ≤ 4294967280
  | Call.release p => p = 0 ∨ p ∈ live

/-- Every call of the sequence meets its precondition in the state in which it
is made. -/
def run_ok : Heap × List Nat → List Call → Prop
  | _, [] => True
  | st, c :: cs => call_ok st.2 c ∧ run_ok (run_step st c) cs

/-- An arena on which `mm_init` succeeds and that stays in the range of the
allocator's 32-bit sizes: it starts at a multiple of 8, has room for the two
markers, and can never grow beyond 2 GiB. -/
def arena_ok (s0 : Heap) : Prop :=
  s0.brk % 8 = 0 ∧ s0.heap_lo ≤ s0.brk ∧ s0.brk + 8 ≤ s0.max_addr ∧
  s0.max_addr ≤ s0.brk + 2147483648 ∧ s0.brk + 2147483648 ≤ 18446744073709551616

/-! ## The consistency checker -/

/-- The four `ERROR` lines that `mm_check` can print, in the order of its
checks: "The free block is not marked as free.", "The pointer is outside the
heap.", "The block is not aligned", "Two or more contiguous blocks are free."
The two framing lines ("Checking for errors.", "Error checking complete.") are
printed on every call and are not recorded. -/
inductive Diag where
  /-- "ERROR: The free block is not marked as free." -/
  | not_marked_free
  /-- "ERROR: The pointer is outside the heap." -/
  | outside_heap
  /-- "ERROR: The block is not aligned" -/
  | not_aligned
  /-- "ERROR: Two or more contiguous blocks are free." -/
  | contiguous_free
  deriving DecidableEq

/-- The body of the loop of `mm_check` for the node `list`: the four checks, in
order, applied to the current value of `consistent` and to the diagnostics
printed so far. The fourth check prints its line and leaves `consistent` as it
is. -/
def check_node (s : Heap) (list : Nat) (st : Nat × List Diag) : Nat × List Diag :=
  let r1 : Nat × List Diag :=
    if GET_ALLOC s.mem list ≠ 0 then (0, st.2 ++ [Diag.not_marked_free]) else st
  let r2 : Nat × List Diag :=
    if ¬ (list ≤ mem_heap_hi s ∧ mem_heap_lo s ≤ list) then
      (0, r1.2 ++ [Diag.outside_heap])
    else r1
  let r3 : Nat × List Diag :=
    if ALIGN list ≠ list then (0, r2.2 ++ [Diag.not_aligned]) else r2
  if GET_ALLOC s.mem (NEXT_BLKP s.mem list) ≠ 1 ∨
      GET_ALLOC s.mem (PREV_BLKP s.mem list) ≠ 1 then
    (r3.1, r3.2 ++ [Diag.contiguous_free])
  else r3

/-- The `while (list != NULL)` loop of `mm_check`, from the node `list` with
the current value of `consistent` and the diagnostics printed so far. `fuel`
bounds the number of loop tests; `none` means the bound was reached before the
loop ended. -/
def mm_check_loop (s : Heap) : Nat → Nat → Nat × List Diag → Option (Nat × List Diag)
  | 0, _, _ => none
  | fuel + 1, list, st =>
    if list = 0 then some st
    else mm_check_loop s fuel (GET_NEXT_FREE s.mem list) (check_node s list st)

/-- `mm_check()`: the value returned and the `ERROR` lines printed, or `none`
when the walk over the free list has not ended after `fuel` loop tests. -/
def mm_check (s : Heap) (fuel : Nat) : Option (Nat × List Diag) :=
  mm_check_loop s fuel s.free_list (1, [])

/-- What the fourth check of `mm_check` is documented to test for a node, read
from the boundary tags: the block before it and the block after it are both
allocated. -/
def neighbours_allocated (m : Mem) (bp : Nat) : Prop :=
  GET_ALLOC m (bp - 8) = 1 ∧ GET_ALLOC m (HDRP (NEXT_BLKP m bp)) = 1

/-- The four properties of a free-list node that C11 lists: the boundary tag of
its block has the allocation bit clear, its address is within the arena bounds
and 8-byte aligned, and both neighbouring blocks are allocated. -/
def node_consistent (s : Heap) (bp : Nat) : Prop :=
  GET_ALLOC s.mem (HDRP bp) = 0 ∧ (mem_heap_lo s ≤ bp ∧ bp ≤ mem_heap_hi s) ∧ bp % 8 = 0 ∧
  neighbours_allocated s.mem bp

/-- Scenario C: `mm_init(); a = mm_malloc(16); b = mm_malloc(16);
c = mm_malloc(16); mm_free(b)` on the fresh 1 MiB arena. The components are
`a`, `b`, `c` and the state reached. -/
def scenarioC : Nat × Nat × Nat × Heap :=
  let a := mm_malloc heap0 16
  let b := mm_malloc a.2 16
  let c := mm_malloc b.2 16
  (a.1, b.1, c.1, mm_free c.2 b.1)

/-- The state of Scenario C in which, in addition, the block at `a` has been
marked free and inserted in the free list without being merged with its free
successor `b`: two adjacent free blocks, both members of the free list. -/
def adjacent_free_heap : Heap :=
  let s := scenarioC.2.2.2
  let a := scenarioC.1
  let m1 := PUT s.mem (HDRP a) (PACK 32 0)
  let m2 := PUT m1 (FTRP m1 a) (PACK 32 0)
  add { s with mem := m2 } a

/-- The state of Scenario C in which the header and footer of the free block
`b` have been marked allocated again while `b` is still in the free list. -/
def marked_allocated_heap : Heap :=
  let s := scenarioC.2.2.2
  let b := scenarioC.2.1
  let m1 := PUT s.mem (HDRP b) (PACK 32 1)
  let m2 := PUT m1 (FTRP m1 b) (PACK 32 1)
  { s with mem := m2 }

/-! ## Boundary-tag traversal and the always-coalescing release -/

/-- The payload addresses of the blocks of the arena, found by boundary-tag
navigation (`NEXT_BLKP`) from the block at `bp` up to the end marker, whose
payload address would be `stop`. `fuel` bounds the number of blocks. -/
def heap_blocks (m : Mem) (stop : Nat) : Nat → Nat → List Nat
  | 0, _ => []
  | fuel + 1, bp => if stop ≤ bp then [] else bp :: heap_blocks m stop fuel (NEXT_BLKP m bp)

/-- The blocks of the arena of `s`: the first block follows the two words that
`mm_init` wrote at the lower bound, the end marker is the last word. -/
def arena_blocks (s : Heap) (fuel : Nat) : List Nat :=
  heap_blocks s.mem s.brk fuel (s.heap_lo + 8)

/-- The variant of `mm_free` that C17 compares with: it calls `coalesce`
whether or not the free list is empty. -/
def mm_free_always_coalesce (s : Heap) (bp : Nat) : Heap :=
  if bp = 0 then s
  else
    let size := GET_SIZE s.mem (HDRP bp)
    let m1 := PUT s.mem (HDRP bp) (PACK size 0)
    let m2 := PUT m1 (FTRP m1 bp) (PACK size 0)
    coalesce { s with mem := m2 } bp

/-- The run `mm_init(); a = mm_malloc(1); b = mm_malloc(4294967296);
c = mm_malloc(1); mm_free(b)` on the fresh 1 MiB arena: the state after
releasing the middle block of `three_blocks`. -/
def zero_block_released : Heap :=
  mm_free three_blocks.2.2.2 three_blocks.2.1

/-- The run of `zero_block_released` continued by `mm_free(a);
a2 = mm_malloc(1)`: the pointer `a2` and the state reached, in which the free
list is empty. -/
def zero_block_reused : Nat × Heap :=
  mm_malloc (mm_free zero_block_released three_blocks.1) 1

/-- The run `mm_init(); a = mm_malloc(16); b = mm_malloc(16); c = mm_malloc(16);
mm_free(a)` on the fresh 1 MiB arena (`a = 4104`, `b = 4144`, `c = 4184`): the
state reached, in which the first block is free and is followed by two
allocated blocks. -/
def first_released : Heap :=
  mm_free (mm_malloc (mm_malloc (mm_malloc heap0 16).2 16).2 16).2 4104

/-- The lowest-address block among the block at `p` and those of its two
neighbours that are free, read from the boundary tags before the release: the
predecessor when its footer has the allocation bit clear, else `p` itself. -/
def merged_lowest (s : Heap) (p : Nat) : Nat :=
  if GET_ALLOC s.mem (p - 8) = 0 then PREV_BLKP s.mem p else p

/-- The size that C15 gives for the merged block: the encoded size of the
block at `p`, plus the encoded size and the two tag words (8 bytes) of each
neighbour whose allocation bit is clear. -/
def merged_size (s : Heap) (p : Nat) : Nat :=
  GET_SIZE s.mem (HDRP p)
    + (if GET_ALLOC s.mem (p - 8) = 0 then GET_SIZE s.mem (HDRP (PREV_BLKP s.mem p)) + 8 else 0)
    + (if GET_ALLOC s.mem (FTRP s.mem p + 4) = 0 then
        GET_SIZE s.mem (HDRP (NEXT_BLKP s.mem p)) + 8 else 0)

/-- The three tests of `mm_check` that can clear `consistent`, for the node
`list`: the word at `list` has its low bit clear, `list` is within the arena
bounds, and `ALIGN(list)` is `list`. -/
def node_passes (s : Heap) (list : Nat) : Prop :=
  GET_ALLOC s.mem list = 0 ∧ (list ≤ mem_heap_hi s ∧ mem_heap_lo s ≤ list) ∧ ALIGN list = list

/-- The run `mm_init(); a = mm_malloc(1073741824); b = mm_malloc(1073741824);
c = mm_malloc(2147483632); mm_free(a); mm_free(b)` on the 8 GiB arena: the
three pointers and the state reached, in which `a` and `b` are merged into one
free block at `a`, followed by the live block `c`. -/
def wide_blocks : Nat × Nat × Nat × Heap :=
  let r1 := mm_malloc heap0_big 1073741824
  let r2 := mm_malloc r1.2 1073741824
  let r3 := mm_malloc r2.2 2147483632
  (r1.1, r2.1, r3.1, mm_free (mm_free r3.2 r1.1) r2.1)

/-- The run `mm_init(); d = mm_malloc(16); e = mm_malloc(16);
a = mm_malloc(1073741824); b = mm_malloc(1073741824);
c = mm_malloc(2147483632); mm_free(a); mm_free(b); mm_free(d)` on the 8 GiB
arena: the pointers `d`, `a`, `c` and the state reached, in which the free
list is `[d, a]`, the block at `a` holds `a` and `b` merged, and `c` is the
live block that follows it. -/
def wide_blocks_linked : Nat × Nat × Nat × Heap :=
  let r1 := mm_malloc heap0_big 16
  let r2 := mm_malloc r1.2 16
  let r3 := mm_malloc r2.2 1073741824
  let r4 := mm_malloc r3.2 1073741824
  let r5 := mm_malloc r4.2 2147483632
  (r1.1, r3.1, r5.1, mm_free (mm_free (mm_free r5.2 r3.1) r4.1) r1.1)

/-! ## Memory lemmas -/

theorem PUT_frame (m : Mem) (p v a : Nat) (h : a < p ∨ p + 4 ≤ a) : PUT m p v a = m a := by
  unfold PUT
  have h1 : a ≠ p := by omega
  have h2 : a ≠ p + 1 := by omega
  have h3 : a ≠ p + 2 := by omega
  have h4 : a ≠ p + 3 := by omega
  simp [h1, h2, h3, h4]

theorem GET_PUT_same (m : Mem) (p v : Nat) : GET (PUT m p v) p = v % 4294967296 := by
  unfold GET PUT
  simp
  omega

theorem GET_congr (m m' : Mem) (p : Nat) (h : ∀ a, p ≤ a → a < p + 4 → m' a = m a) :
    GET m' p = GET m p := by
  unfold GET
  rw [h p (by omega) (by omega), h (p + 1) (by omega) (by omega),
    h (p + 2) (by omega) (by omega), h (p + 3) (by omega) (by omega)]

theorem GET_PUT_other (m : Mem) (p v q : Nat) (h : q + 4 ≤ p ∨ p + 4 ≤ q) :
    GET (PUT m p v) q = GET m q := by
  apply GET_congr
  intro a h1 h2
  exact PUT_frame m p v a (by omega)

theorem GET_lt (m : Mem) (p : Nat) : GET m p < 4294967296 := by
  unfold GET
  omega

theorem GET_PTR_congr (m m' : Mem) (p : Nat) (h : ∀ a, p ≤ a → a < p + 8 → m' a = m a) :
    GET_PTR m' p = GET_PTR m p := by
  unfold GET_PTR
  rw [GET_congr m m' p (fun a h1 h2 => h a h1 (by omega)),
    GET_congr m m' (p + 4) (fun a h1 h2 => h a (by omega) (by omega))]

theorem GET_PTR_PUT_other (m : Mem) (p v q : Nat) (h : q + 8 ≤ p ∨ p + 4 ≤ q) :
    GET_PTR (PUT m p v) q = GET_PTR m q := by
  apply GET_PTR_congr
  intro a h1 h2
  exact PUT_frame m p v a (by omega)

theorem SET_PTR_frame (m : Mem) (p v a : Nat) (h : a < p ∨ p + 8 ≤ a) :
    SET_PTR m p v a = m a := by
  unfold SET_PTR
  rw [PUT_frame _ _ _ _ (by omega), PUT_frame _ _ _ _ (by omega)]

theorem GET_PTR_SET_PTR_same (m : Mem) (p v : Nat) (hv : v < 18446744073709551616) :
    GET_PTR (SET_PTR m p v) p = v := by
  unfold GET_PTR SET_PTR
  rw [GET_PUT_same, GET_PUT_other _ _ _ _ (by omega), GET_PUT_same]
  omega

/-! ## Bit masks -/

theorem land_mask8 (x n : Nat) : x &&& ((2 ^ n - 1) <<< 3) = (x % 2 ^ (n + 3)) / 8 * 8 := by
  have e : (x % 2 ^ (n + 3)) / 8 * 8 = ((x % 2 ^ (n + 3)) >>> 3) <<< 3 := by
    rw [Nat.shiftRight_eq_div_pow, Nat.shiftLeft_eq]
  rw [e]
  apply Nat.eq_of_testBit_eq
  intro i
  simp only [Nat.testBit_land, Nat.testBit_shiftLeft, Nat.testBit_shiftRight,
    Nat.testBit_two_pow_sub_one, Nat.testBit_mod_two_pow]
  by_cases h : 3 ≤ i
  · have e3 : 3 + (i - 3) = i := by omega
    simp [h, e3]
    by_cases h2 : i - 3 < n
    · have : i < n + 3 := by omega
      simp [h2, this]
    · have : ¬ i < n + 3 := by omega
      simp [h2, this]
  · simp [h]

theorem land_size_mask (x : Nat) (h : x < 4294967296) : x &&& 4294967288 = x / 8 * 8 := by
  have key := land_mask8 x 29
  have e : (2 ^ 29 - 1) <<< 3 = 4294967288 := by decide
  rw [e] at key
  rw [key, Nat.mod_eq_of_lt (by simpa using h)]

theorem land_align_mask (x : Nat) (h : x < 18446744073709551616) :
    x &&& 18446744073709551608 = x / 8 * 8 := by
  have key := land_mask8 x 61
  have e : (2 ^ 61 - 1) <<< 3 = 18446744073709551608 := by decide
  rw [e] at key
  rw [key, Nat.mod_eq_of_lt (by simpa using h)]

theorem lor_one (x : Nat) (h : x % 2 = 0) : x ||| 1 = x + 1 := by
  have key := Nat.mul_add_lt_is_or (show 1 < 2 ^ 1 by decide) (x / 2)
  have e : 2 ^ 1 * (x / 2) = x := by omega
  rw [e] at key
  exact key.symm

theorem GET_SIZE_lt (m : Mem) (p : Nat) : GET_SIZE m p < 4294967296 := by
  unfold GET_SIZE
  exact Nat.lt_of_le_of_lt Nat.and_le_left (GET_lt m p)

theorem GET_SIZE_eq (m : Mem) (p : Nat) : GET_SIZE m p = GET m p / 8 * 8 := by
  unfold GET_SIZE
  exact land_size_mask _ (GET_lt m p)

theorem GET_ALLOC_eq (m : Mem) (p : Nat) : GET_ALLOC m p = GET m p % 2 := by
  unfold GET_ALLOC
  exact Nat.and_one_is_mod _

theorem GET_SIZE_mod8 (m : Mem) (p : Nat) : GET_SIZE m p % 8 = 0 := by
  rw [GET_SIZE_eq]
  omega

theorem PACK_free (v : Nat) : PACK v 0 = v := by
  unfold PACK
  exact Nat.or_zero v

theorem PACK_alloc (v : Nat) (h : v % 8 = 0) : PACK v 1 = v + 1 := by
  unfold PACK
  exact lor_one v (by omega)

/-! ## Rounding of request sizes -/

theorem ALIGN_eq (p : Nat) (h : p + 7 < 18446744073709551616) : ALIGN p = (p + 7) / 8 * 8 := by
  unfold ALIGN
  rw [Nat.mod_eq_of_lt h, land_align_mask _ h]

theorem ALIGN_mod8 (p : Nat) : ALIGN p % 8 = 0 := by
  unfold ALIGN
  rw [land_align_mask _ (Nat.mod_lt _ (by decide))]
  omega

theorem adjusted_size_mod8 (size : Nat) : adjusted_size size % 8 = 0 := by
  unfold adjusted_size
  have := ALIGN_mod8 size
  split <;> omega

theorem adjusted_size_lt (size : Nat) : adjusted_size size < 4294967296 := by
  unfold adjusted_size
  split <;> omega

/-- In the range where nothing is truncated the adjusted size is the request
rounded up to 32 and to a multiple of 8. -/
theorem adjusted_size_in_range (size : Nat) (h : size ≤ 4294967288) :
    adjusted_size size = if size ≤ 32 then 32 else (size + 7) / 8 * 8 := by
  unfold adjusted_size
  split
  · rfl
  · rw [ALIGN_eq size (by omega)]
    omega

/-! ## Evaluations at failing inputs -/

/-- C1, evaluated at `mm_init(); p = mm_malloc(4294967288)`: the call succeeds
without growing the arena (the sum `asize + 2*WSIZE` wraps to 0 in
`unsigned int`), so the live block at `p`, whose header encodes the size
4294967288, does not lie inside the arena bounds: the arena ends at `p`. -/
theorem C1_live_block_outside_arena :
    heap0_big.brk = 4104 ∧
    adjusted_size 4294967288 = 4294967288 ∧
    (adjusted_size 4294967288 + 8) % 4294967296 = 0 ∧
    oversize_run.1 = 4104 ∧
    oversize_run.2.brk = 4104 ∧
    GET oversize_run.2.mem (HDRP oversize_run.1) = PACK 4294967288 1 ∧
    GET_SIZE oversize_run.2.mem (HDRP oversize_run.1) = 4294967288 ∧
    ¬ (oversize_run.1 + GET_SIZE oversize_run.2.mem (HDRP oversize_run.1)
        ≤ oversize_run.2.brk) := by
  decide

/-- C2, evaluated at Scenario A: after `p1 = allocate(16); p2 = allocate(16);
release(p1)` the free list holds exactly the block `p1`, of size 32, but
`find_fit(32)` rejects it (its test is `GET_SIZE(HDRP(bp)) > asize`), so
`p3 = allocate(16)` grows the arena and `p3` differs from `p1`. -/
theorem C2_scenarioA_no_reuse :
    scenarioA_released.1 = 4104 ∧
    scenarioA_released.2.1 = 4144 ∧
    scenarioA_released.2.2.free_list = 4104 ∧
    GET_NEXT_FREE scenarioA_released.2.2.mem 4104 = 0 ∧
    GET scenarioA_released.2.2.mem (HDRP 4104) = PACK 32 0 ∧
    adjusted_size 16 = 32 ∧
    find_fit scenarioA_released.2.2 32 = 0 ∧
    scenarioA_p3.1 = 4184 ∧
    scenarioA_p3.1 ≠ scenarioA_released.1 ∧
    scenarioA_released.2.2.brk = 4184 ∧
    scenarioA_p3.2.brk = 4224 := by
  decide

/-- C3, evaluated at `zero_size_run` followed by `mm_malloc(1)`: the arena
lower bound is a multiple of 8; the three requests of 4294967296 bytes are
truncated to `asize = 0`; releasing the zero-size block `b` makes it the
free-list root with its next reference stored at `b + 8`, where the footer of
`c` and the epilogue header are written afterwards (both `PACK(0, 1)`), so the
next reference of `b` reads 4294967297; `find_fit(32)` follows it, reads the
size 16777216 four bytes below, and `place` returns the non-null pointer
4311744481, which is not a multiple of 8. -/
theorem C3_unaligned_result :
    4294967272 % 8 = 0 ∧
    adjusted_size 4294967296 = 0 ∧
    zero_size_run.1 = 4294967280 ∧
    zero_size_run.2.1 = 4294967288 ∧
    zero_size_run.2.2.1 = 4294967296 ∧
    zero_size_run.2.2.2.free_list = 4294967288 ∧
    GET zero_size_run.2.2.2.mem (FTRP zero_size_run.2.2.2.mem 4294967296) = PACK 0 1 ∧
    FTRP zero_size_run.2.2.2.mem 4294967296 = 4294967288 + 8 ∧
    GET zero_size_run.2.2.2.mem (4294967288 + 8 + 4) = PACK 0 1 ∧
    GET_NEXT_FREE zero_size_run.2.2.2.mem 4294967288 = 4294967297 ∧
    GET_SIZE zero_size_run.2.2.2.mem (HDRP 4294967288) = 0 ∧
    GET_SIZE zero_size_run.2.2.2.mem (HDRP 4294967297) = 16777216 ∧
    find_fit zero_size_run.2.2.2 (adjusted_size 1) = 4294967297 ∧
    (mm_malloc zero_size_run.2.2.2 1).1 = 4311744481 ∧
    (mm_malloc zero_size_run.2.2.2 1).1 % 8 = 1 := by
  decide

/-- In the state reached by the run of `C3_unaligned_result` two live blocks
overlap: `c = 4294967296`, whose header now encodes the size 4294957056, and
the block at 4311744481 of size 32 that the last call returned. -/
theorem live_blocks_overlap_after_truncation :
    GET_SIZE (mm_malloc zero_size_run.2.2.2 1).2.mem (HDRP 4294967296) = 4294957056 ∧
    GET_SIZE (mm_malloc zero_size_run.2.2.2 1).2.mem (HDRP 4311744481) = 32 ∧
    4294967296 < 4311744481 ∧
    4311744481 + 32 ≤ 4294967296 + 4294957056 ∧
    (mm_malloc zero_size_run.2.2.2 1).2.brk = 4294967304 := by
  decide

/-- C4, evaluated at `size = 4294967296`: `ALIGN(size)` is 4294967296, which
the `unsigned int asize` truncates to 0, and `mm_malloc(4294967296)` after
`mm_init` returns a block whose encoded size is 0. -/
theorem C4_truncated_request :
    ALIGN 4294967296 = 4294967296 ∧
    adjusted_size 4294967296 = 0 ∧
    (mm_malloc heap0 4294967296).1 = 4104 ∧
    GET (mm_malloc heap0 4294967296).2.mem (HDRP 4104) = PACK 0 1 ∧
    GET_SIZE (mm_malloc heap0 4294967296).2.mem (HDRP 4104) = 0 := by
  decide

/-- C9, evaluated at `big_block_freed` followed by `mm_malloc(2147483648)`:
the free list holds the single block `bp = 4104` of size `b = 2147483656`,
`find_fit` chooses it for `asize = 2147483648`, and `b < asize + 32`; but
`int bsize` is negative, the test `bsize >= asize + 32` succeeds, and `place`
takes the split path with `csize = 0`: the call returns `bp + 8`, `bp` stays in
the free list and its header encodes size 0. -/
theorem C9_int_bsize_splits :
    big_block_freed.1 = 4104 ∧
    big_block_freed.2.2.free_list = 4104 ∧
    GET_NEXT_FREE big_block_freed.2.2.mem 4104 = 0 ∧
    GET big_block_freed.2.2.mem (HDRP 4104) = PACK 2147483656 0 ∧
    adjusted_size 2147483648 = 2147483648 ∧
    find_fit big_block_freed.2.2 2147483648 = 4104 ∧
    2147483656 < 2147483648 + 32 ∧
    (mm_malloc big_block_freed.2.2 2147483648).1 = 4112 ∧
    (mm_malloc big_block_freed.2.2 2147483648).2.free_list = 4104 ∧
    GET (mm_malloc big_block_freed.2.2 2147483648).2.mem (HDRP 4104) = 0 := by
  decide

/-- C10, evaluated at the request sizes 1, 4294967296, 1 released in the
order middle, first, last: the three blocks have encoded sizes 32, 0 and 32,
and the run ends with the block at `a` encoding size 56 in header and footer,
not 32 + 0 + 32 + 16 = 80. -/
theorem C10_zero_size_middle_block :
    three_blocks.1 = 4104 ∧
    three_blocks.2.1 = 4144 ∧
    three_blocks.2.2.1 = 4152 ∧
    three_blocks.2.2.2.free_list = 0 ∧
    GET_SIZE three_blocks.2.2.2.mem (HDRP 4104) = 32 ∧
    GET_SIZE three_blocks.2.2.2.mem (HDRP 4144) = 0 ∧
    GET_SIZE three_blocks.2.2.2.mem (HDRP 4152) = 32 ∧
    three_blocks_released.free_list = 4104 ∧
    GET three_blocks_released.mem (HDRP 4104) = 56 ∧
    GET three_blocks_released.mem (FTRP three_blocks_released.mem 4104) = 56 := by
  decide

/-! ## Failure and growth of `mm_malloc` -/

theorem place_ne_null (s : Heap) (bp asize : Nat) (h : bp ≠ 0) : (place s bp asize).1 ≠ 0 := by
  unfold place
  simp only
  split
  · simp only [NEXT_BLKP]
    omega
  · exact h

theorem mem_sbrk_some (s : Heap) (incr : Nat) (h : s.brk + incr ≤ s.max_addr) :
    mem_sbrk s incr = some (s.brk, { s with brk := s.brk + incr }) := by
  unfold mem_sbrk
  rw [if_pos h]

theorem mem_sbrk_none (s : Heap) (incr : Nat) (h : ¬ s.brk + incr ≤ s.max_addr) :
    mem_sbrk s incr = none := by
  unfold mem_sbrk
  rw [if_neg h]

/-- C5. `mm_malloc(size)` returns `NULL` exactly when `size` is 0, or when
`find_fit` finds no block and the arena provider reports failure; and whenever
it returns `NULL` the whole state (memory contents, arena bounds, free-list
root and hence all links) is the state before the call. The arena is assumed
not to start at address 0, so that a granted span is never `NULL`. -/
theorem C5_null_iff_and_atomic (s : Heap) (size : Nat) (hbrk : 0 < s.brk) :
    ((mm_malloc s size).1 = 0 ↔
      (size = 0 ∨ (find_fit s (adjusted_size size) = 0 ∧
        mem_sbrk s ((adjusted_size size + 8) % 4294967296) = none))) ∧
    ((mm_malloc s size).1 = 0 → (mm_malloc s size).2 = s) := by
  unfold mm_malloc
  by_cases h0 : size = 0
  · simp [h0]
  · by_cases hf : find_fit s (adjusted_size size) = 0
    · by_cases hg : s.brk + (adjusted_size size + 8) % 4294967296 ≤ s.max_addr
      · have hne : s.brk ≠ 0 := by omega
        simp [h0, hf, mem_sbrk_some s _ hg, hne]
      · simp [h0, hf, mem_sbrk_none s _ hg]
    · have hp := place_ne_null s _ (adjusted_size size) hf
      simp [h0, hf, hp]

/-- Witness for C5: on the heap right after `mm_init`, a request of 4 MiB
finds no block and cannot be granted, and the call is atomic. -/
theorem C5_null_iff_and_atomic_witness :
    0 < heap0.brk ∧
    (((mm_malloc heap0 4194304).1 = 0 ↔
      (4194304 = 0 ∨ (find_fit heap0 (adjusted_size 4194304) = 0 ∧
        mem_sbrk heap0 ((adjusted_size 4194304 + 8) % 4294967296) = none))) ∧
    ((mm_malloc heap0 4194304).1 = 0 → (mm_malloc heap0 4194304).2 = heap0)) :=
  ⟨by decide, C5_null_iff_and_atomic heap0 4194304 (by decide)⟩

/-- Counterexample to C6 as stated: right after `mm_init`, `allocate(1)` finds
no free block (`asize = 32`), and the arena upper bound moves by 40 bytes, not
by `asize`. -/
theorem C6_counterexample :
    find_fit heap0 (adjusted_size 1) = 0 ∧
    adjusted_size 1 = 32 ∧
    (mm_malloc heap0 1).1 ≠ 0 ∧
    (mm_malloc heap0 1).2.brk = heap0.brk + 40 ∧
    (mm_malloc heap0 1).2.brk ≠ heap0.brk + adjusted_size 1 := by
  decide

/-- C6 as amended. When `find_fit` finds no block for a request of at most
4294967280 bytes, `mm_malloc` makes one call to the arena provider, with
`nBytes = asize + 8` (the rounded size plus the two boundary-tag words): if
that call fails the result is `NULL` and the state is unchanged, and if it
succeeds the result is the start of the granted span and the arena upper
bound has moved by exactly `asize + 8`. -/
theorem C6_grows_by_asize_plus_tags (s : Heap) (size : Nat) (h0 : 0 < size)
    (hsz : size ≤ 4294967280) (hfit : find_fit s (adjusted_size size) = 0) :
    (mem_sbrk s (adjusted_size size + 8) = none → mm_malloc s size = (0, s)) ∧
    (∀ list s1, mem_sbrk s (adjusted_size size + 8) = some (list, s1) →
      (mm_malloc s size).1 = list ∧ list = s.brk ∧
      (mm_malloc s size).2.brk = s1.brk ∧
      (mm_malloc s size).2.brk = s.brk + (adjusted_size size + 8)) := by
  have ha := adjusted_size_in_range size (by omega)
  have hlt : adjusted_size size + 8 < 4294967296 := by
    rw [ha]
    split <;> omega
  have hmod : (adjusted_size size + 8) % 4294967296 = adjusted_size size + 8 :=
    Nat.mod_eq_of_lt hlt
  have hne : size ≠ 0 := by omega
  unfold mm_malloc
  simp only [hne, hfit, hmod, if_false, ne_eq, not_true_eq_false]
  constructor
  · intro hg
    rw [hg]
  · intro list s1 hg
    rw [hg]
    unfold mem_sbrk at hg
    split at hg
    · simp only [Option.some.injEq, Prod.mk.injEq] at hg
      obtain ⟨h1, h2⟩ := hg
      subst h1 h2
      exact ⟨rfl, rfl, rfl, rfl⟩
    · exact absurd hg (by simp)

/-- Witness for the amended C6: `allocate(100)` right after `mm_init`. -/
theorem C6_grows_by_asize_plus_tags_witness :
    (mm_malloc heap0 100).1 = 4104 ∧ (mm_malloc heap0 100).2.brk = 4104 + (104 + 8) :=
  have h := (C6_grows_by_asize_plus_tags heap0 100 (by decide) (by decide) (by decide)).2
    4104 { heap0 with brk := 4104 + 112 } rfl
  ⟨h.1, h.2.2.2⟩

/-! ## The capped first-fit scan -/

theorem free_nodes_ne_null (m : Mem) : ∀ fuel bp, ∀ x ∈ free_nodes m fuel bp, x ≠ 0 := by
  intro fuel
  induction fuel with
  | zero => intro bp x hx; simp [free_nodes] at hx
  | succ n ih =>
    intro bp x hx
    unfold free_nodes at hx
    by_cases h : bp = 0
    · simp [h] at hx
    · simp only [h, if_false, List.mem_cons] at hx
      rcases hx with hx | hx
      · rw [hx]; exact h
      · exact ih _ x hx

theorem free_nodes_length_le (m : Mem) : ∀ fuel bp, (free_nodes m fuel bp).length ≤ fuel := by
  intro fuel
  induction fuel with
  | zero => intro bp; simp [free_nodes]
  | succ n ih =>
    intro bp
    unfold free_nodes
    by_cases h : bp = 0
    · simp [h]
    · simp only [h, if_false, List.length_cons]
      have := ih (GET_NEXT_FREE m bp)
      omega

theorem free_nodes_congr (m m' : Mem) : ∀ fuel bp,
    (∀ x ∈ free_nodes m fuel bp, GET_NEXT_FREE m' x = GET_NEXT_FREE m x) →
    free_nodes m' fuel bp = free_nodes m fuel bp := by
  intro fuel
  induction fuel with
  | zero => intro bp _; simp [free_nodes]
  | succ n ih =>
    intro bp hx
    unfold free_nodes at hx ⊢
    by_cases h : bp = 0
    · simp [h]
    · simp only [h, if_false, List.mem_cons] at hx ⊢
      have e : GET_NEXT_FREE m' bp = GET_NEXT_FREE m bp := hx bp (Or.inl rfl)
      rw [e, ih _ (fun x hxm => hx x (Or.inr hxm))]

theorem find_fit_loop_spec (m : Mem) (asize : Nat) : ∀ fuel bp,
    (find_fit_loop m asize fuel bp = 0 ∧
      ∀ x ∈ free_nodes m fuel bp, GET_SIZE m (HDRP x) ≤ asize) ∨
    (∃ pre post, free_nodes m fuel bp = pre ++ find_fit_loop m asize fuel bp :: post ∧
      (∀ x ∈ pre, GET_SIZE m (HDRP x) ≤ asize) ∧
      asize < GET_SIZE m (HDRP (find_fit_loop m asize fuel bp)) ∧
      find_fit_loop m asize fuel bp ≠ 0) := by
  intro fuel
  induction fuel with
  | zero =>
    intro bp
    left
    simp [find_fit_loop, free_nodes]
  | succ n ih =>
    intro bp
    unfold find_fit_loop free_nodes
    by_cases h : bp = 0
    · left
      simp [h]
    · by_cases hs : GET_SIZE m (HDRP bp) > asize
      · right
        refine ⟨[], free_nodes m n (GET_NEXT_FREE m bp), ?_⟩
        simp [h, hs]
      · simp only [h, hs, if_false]
        rcases ih (GET_NEXT_FREE m bp) with ⟨h1, h2⟩ | ⟨pre, post, h1, h2, h3, h4⟩
        · left
          refine ⟨h1, ?_⟩
          intro x hx
          simp only [List.mem_cons] at hx
          rcases hx with hx | hx
          · rw [hx]; omega
          · exact h2 x hx
        · right
          refine ⟨bp :: pre, post, ?_, ?_, h3, h4⟩
          · rw [h1]; rfl
          · intro x hx
            simp only [List.mem_cons] at hx
            rcases hx with hx | hx
            · rw [hx]; omega
            · exact h2 x hx

theorem mm_malloc_grow_ok (s : Heap) (size : Nat) (h0 : size ≠ 0)
    (hfit : find_fit s (adjusted_size size) = 0)
    (hg : s.brk + (adjusted_size size + 8) % 4294967296 ≤ s.max_addr) :
    mm_malloc s size =
      let m1 := PUT s.mem (HDRP s.brk) (PACK (adjusted_size size) 1)
      let m2 := PUT m1 (FTRP m1 s.brk) (PACK (adjusted_size size) 1)
      let m3 := PUT m2 (FTRP m2 s.brk + 4) (PACK 0 1)
      (s.brk, { s with mem := m3, brk := s.brk + (adjusted_size size + 8) % 4294967296 }) := by
  unfold mm_malloc
  simp only [h0, hfit, if_false, ne_eq, not_true_eq_false, mem_sbrk_some s _ hg]

theorem mm_malloc_grow_fail (s : Heap) (size : Nat) (h0 : size ≠ 0)
    (hfit : find_fit s (adjusted_size size) = 0)
    (hg : ¬ s.brk + (adjusted_size size + 8) % 4294967296 ≤ s.max_addr) :
    mm_malloc s size = (0, s) := by
  unfold mm_malloc
  simp only [h0, hfit, if_false, ne_eq, not_true_eq_false, mem_sbrk_none s _ hg]

/-- C7. `find_fit` probes the first 500 nodes of the free list in order
(`free_nodes s.mem 500 s.free_list`): either none of them passes the size test
`GET_SIZE(HDRP(bp)) > asize` and the result is `NULL`, or the result is the
earliest node that passes it. Nodes beyond the 500th play no part, so the
result is `NULL` when the first 500 fail even if a later node would fit; in
that case `mm_malloc` leaves the free-list root, every byte below the old
epilogue header and hence the list itself unchanged, and it returns the old
upper bound and moves the bound by the size passed to the arena provider when
that call succeeds, and returns `NULL` with the state unchanged otherwise. -/
theorem C7_find_fit_first_of_500 (s : Heap) :
    (∀ asize,
      (find_fit s asize = 0 ∧
        ∀ x ∈ free_nodes s.mem 500 s.free_list, GET_SIZE s.mem (HDRP x) ≤ asize) ∨
      (∃ pre post, free_nodes s.mem 500 s.free_list = pre ++ find_fit s asize :: post ∧
        (∀ x ∈ pre, GET_SIZE s.mem (HDRP x) ≤ asize) ∧
        asize < GET_SIZE s.mem (HDRP (find_fit s asize)) ∧
        find_fit s asize ≠ 0)) ∧
    (∀ asize, (∀ x ∈ free_nodes s.mem 500 s.free_list, GET_SIZE s.mem (HDRP x) ≤ asize) →
      find_fit s asize = 0) ∧
    (∀ size, 0 < size →
      (∀ x ∈ free_nodes s.mem 500 s.free_list,
        GET_SIZE s.mem (HDRP x) ≤ adjusted_size size) →
      (mm_malloc s size).2.free_list = s.free_list ∧
      (∀ a, a + 4 < s.brk → (mm_malloc s size).2.mem a = s.mem a) ∧
      (∀ n, (∀ x ∈ free_nodes s.mem n s.free_list, x + 20 ≤ s.brk) →
        free_nodes (mm_malloc s size).2.mem n (mm_malloc s size).2.free_list
          = free_nodes s.mem n s.free_list) ∧
      (s.brk + (adjusted_size size + 8) % 4294967296 ≤ s.max_addr →
        (mm_malloc s size).1 = s.brk ∧
        (mm_malloc s size).2.brk = s.brk + (adjusted_size size + 8) % 4294967296) ∧
      (¬ s.brk + (adjusted_size size + 8) % 4294967296 ≤ s.max_addr →
        mm_malloc s size = (0, s))) := by
  have key : ∀ asize,
      (∀ x ∈ free_nodes s.mem 500 s.free_list, GET_SIZE s.mem (HDRP x) ≤ asize) →
      find_fit s asize = 0 := by
    intro asize hall
    rcases find_fit_loop_spec s.mem asize 500 s.free_list with ⟨h1, _⟩ | ⟨pre, post, h1, _, h3, _⟩
    · exact h1
    · have hm : find_fit_loop s.mem asize 500 s.free_list ∈ free_nodes s.mem 500 s.free_list := by
        rw [h1]; simp
      have := hall _ hm
      omega
  refine ⟨fun asize => find_fit_loop_spec s.mem asize 500 s.free_list, key, ?_⟩
  intro size h0 hall
  have hfit := key _ hall
  have hne : size ≠ 0 := by omega
  by_cases hg : s.brk + (adjusted_size size + 8) % 4294967296 ≤ s.max_addr
  · have heq := mm_malloc_grow_ok s size hne hfit hg
    simp only at heq
    have hroot : (mm_malloc s size).2.free_list = s.free_list := by rw [heq]
    have hframe : ∀ a, a + 4 < s.brk → (mm_malloc s size).2.mem a = s.mem a := by
      intro a ha
      rw [heq]
      simp only
      rw [PUT_frame _ _ _ _ (Or.inl (by unfold FTRP; omega)),
        PUT_frame _ _ _ _ (Or.inl (by unfold FTRP; omega)),
        PUT_frame _ _ _ _ (Or.inl (by unfold HDRP; omega))]
    refine ⟨hroot, hframe, ?_, fun _ => ?_, fun h => absurd hg h⟩
    · intro n hn
      rw [hroot]
      apply free_nodes_congr
      intro x hx
      unfold GET_NEXT_FREE
      apply GET_PTR_congr
      intro a h1 h2
      have := hn x hx
      exact hframe a (by omega)
    · rw [heq]
      exact ⟨rfl, rfl⟩
  · rw [mm_malloc_grow_fail s size hne hfit hg]
    exact ⟨rfl, fun _ _ => rfl, fun _ _ => rfl, fun h => absurd h hg, fun _ => rfl⟩

set_option maxRecDepth 1000000 in
/-- Witness for C7: a free list of 501 nodes whose first 500 blocks have size
40 and whose last block, at 52104, has size 64. A request of 40 bytes
(`asize = 40`) would fit the 501st node, yet `find_fit` returns `NULL` and
`mm_malloc` grows the arena, leaving the list as it was. -/
theorem C7_find_fit_first_of_500_witness :
    (free_nodes long_list_heap.mem 501 long_list_heap.free_list).length = 501 ∧
    (free_nodes long_list_heap.mem 501 long_list_heap.free_list).getLast? = some 52104 ∧
    adjusted_size 40 < GET_SIZE long_list_heap.mem (HDRP 52104) ∧
    find_fit long_list_heap (adjusted_size 40) = 0 ∧
    (mm_malloc long_list_heap 40).2.free_list = long_list_heap.free_list ∧
    free_nodes (mm_malloc long_list_heap 40).2.mem 501 (mm_malloc long_list_heap 40).2.free_list
      = free_nodes long_list_heap.mem 501 long_list_heap.free_list ∧
    (mm_malloc long_list_heap 40).1 = 52200 ∧
    (mm_malloc long_list_heap 40).2.brk = 52248 :=
  have hall : ∀ x ∈ free_nodes long_list_heap.mem 500 long_list_heap.free_list,
      GET_SIZE long_list_heap.mem (HDRP x) ≤ adjusted_size 40 := by decide
  have h := (C7_find_fit_first_of_500 long_list_heap).2.2 40 (by decide) hall
  ⟨by decide, by decide, by decide,
    (C7_find_fit_first_of_500 long_list_heap).2.1 (adjusted_size 40) hall,
    h.1, h.2.2.1 501 (by decide), (h.2.2.2.1 (by decide)).1, (h.2.2.2.1 (by decide)).2⟩

/-! ## Splitting in `place` -/

theorem GET_SIZE_PUT_same_free (m : Mem) (p v : Nat) (h8 : v % 8 = 0) (hv : v < 4294967296) :
    GET_SIZE (PUT m p v) p = v := by
  rw [GET_SIZE_eq, GET_PUT_same, Nat.mod_eq_of_lt hv]
  omega

theorem GET_SIZE_PUT_same_alloc (m : Mem) (p v : Nat) (h8 : v % 8 = 0) (hv : v < 4294967296) :
    GET_SIZE (PUT m p (v + 1)) p = v := by
  rw [GET_SIZE_eq, GET_PUT_same, Nat.mod_eq_of_lt (by omega)]
  omega

theorem GET_SIZE_PUT_other (m : Mem) (p v q : Nat) (h : q + 4 ≤ p ∨ p + 4 ≤ q) :
    GET_SIZE (PUT m p v) q = GET_SIZE m q := by
  unfold GET_SIZE
  rw [GET_PUT_other m p v q h]

theorem place_split_eq (s : Heap) (bp asize : Nat) (h4 : 4 ≤ bp) (h8 : asize % 8 = 0)
    (hb : asize + 32 ≤ GET_SIZE s.mem (HDRP bp)) :
    place s bp asize =
      (bp + (GET_SIZE s.mem (HDRP bp) - asize),
        { s with mem := (PUT (PUT (PUT (PUT s.mem (bp - 4)
                  (GET_SIZE s.mem (HDRP bp) - asize - 8))
                (bp + (GET_SIZE s.mem (HDRP bp) - asize - 8))
                  (GET_SIZE s.mem (HDRP bp) - asize - 8))
              (bp + (GET_SIZE s.mem (HDRP bp) - asize - 8) + 4) (asize + 1))
            (bp + GET_SIZE s.mem (HDRP bp)) (asize + 1)) }) := by
  have hblt := GET_SIZE_lt s.mem (HDRP bp)
  have hb8 := GET_SIZE_mod8 s.mem (HDRP bp)
  unfold place
  simp only []
  generalize GET_SIZE s.mem (HDRP bp) = b at hb hblt hb8 ⊢
  have hcond : (asize + 32) % 18446744073709551616 ≤ int_to_size_t b := by
    unfold int_to_size_t
    split <;> omega
  have hc : (int_to_size_t b + 2 * 18446744073709551616 - asize % 18446744073709551616 - 8)
      % 18446744073709551616 % 4294967296 = b - asize - 8 := by
    unfold int_to_size_t
    split <;> omega
  simp only [hcond, if_true, hc, PACK_free, PACK_alloc _ h8]
  have hd : HDRP bp = bp - 4 := rfl
  have e1 : FTRP (PUT s.mem (HDRP bp) (b - asize - 8)) bp = bp + (b - asize - 8) := by
    unfold FTRP
    rw [GET_SIZE_PUT_same_free _ _ _ (by omega) (by omega)]
  rw [e1]
  have e2 : NEXT_BLKP (PUT (PUT s.mem (HDRP bp) (b - asize - 8)) (bp + (b - asize - 8))
      (b - asize - 8)) bp = bp + (b - asize) := by
    unfold NEXT_BLKP
    rw [GET_SIZE_PUT_other _ _ _ _ (by rw [hd]; omega),
      GET_SIZE_PUT_same_free _ _ _ (by omega) (by omega)]
    omega
  rw [e2]
  have hd2 : HDRP (bp + (b - asize)) = bp + (b - asize - 8) + 4 := by
    unfold HDRP
    omega
  rw [hd2]
  have e3 : FTRP (PUT (PUT (PUT s.mem (HDRP bp) (b - asize - 8)) (bp + (b - asize - 8))
      (b - asize - 8)) (bp + (b - asize - 8) + 4) (asize + 1)) (bp + (b - asize)) = bp + b := by
    unfold FTRP
    rw [hd2, GET_SIZE_PUT_same_alloc _ _ _ h8 (by omega)]
    omega
  rw [e3, hd]

theorem GET_ALLOC_PUT_same (m : Mem) (p v : Nat) : GET_ALLOC (PUT m p v) p = v % 2 := by
  rw [GET_ALLOC_eq, GET_PUT_same]
  omega

theorem GET_ALLOC_PUT_other (m : Mem) (p v q : Nat) (h : q + 4 ≤ p ∨ p + 4 ≤ q) :
    GET_ALLOC (PUT m p v) q = GET_ALLOC m q := by
  unfold GET_ALLOC
  rw [GET_PUT_other m p v q h]

/-- The memory that the split path of `place` leaves behind, for a block of
size `b` at `bp` and a request of `asize`: facts about its boundary tags. -/
theorem split_tags (m : Mem) (bp asize b : Nat) (h4 : 4 ≤ bp) (h8 : asize % 8 = 0)
    (hb : asize + 32 ≤ b) (hblt : b < 4294967296) (hb8 : b % 8 = 0) :
    GET (PUT (PUT (PUT (PUT m (bp - 4) (b - asize - 8)) (bp + (b - asize - 8)) (b - asize - 8))
        (bp + (b - asize - 8) + 4) (asize + 1)) (bp + b) (asize + 1)) (bp - 4) = b - asize - 8 ∧
    GET (PUT (PUT (PUT (PUT m (bp - 4) (b - asize - 8)) (bp + (b - asize - 8)) (b - asize - 8))
        (bp + (b - asize - 8) + 4) (asize + 1)) (bp + b) (asize + 1)) (bp + (b - asize - 8))
      = b - asize - 8 ∧
    GET (PUT (PUT (PUT (PUT m (bp - 4) (b - asize - 8)) (bp + (b - asize - 8)) (b - asize - 8))
        (bp + (b - asize - 8) + 4) (asize + 1)) (bp + b) (asize + 1)) (bp + (b - asize - 8) + 4)
      = asize + 1 ∧
    GET (PUT (PUT (PUT (PUT m (bp - 4) (b - asize - 8)) (bp + (b - asize - 8)) (b - asize - 8))
        (bp + (b - asize - 8) + 4) (asize + 1)) (bp + b) (asize + 1)) (bp + b) = asize + 1 := by
  refine ⟨?_, ?_, ?_, ?_⟩
  · rw [GET_PUT_other _ _ _ _ (by omega), GET_PUT_other _ _ _ _ (by omega),
      GET_PUT_other _ _ _ _ (by omega), GET_PUT_same, Nat.mod_eq_of_lt (by omega)]
  · rw [GET_PUT_other _ _ _ _ (by omega), GET_PUT_other _ _ _ _ (by omega),
      GET_PUT_same, Nat.mod_eq_of_lt (by omega)]
  · rw [GET_PUT_other _ _ _ _ (by omega), GET_PUT_same, Nat.mod_eq_of_lt (by omega)]
  · rw [GET_PUT_same, Nat.mod_eq_of_lt (by omega)]

/-- The split path of `place` writes only the four boundary-tag words. -/
theorem split_frame (m : Mem) (bp asize b : Nat) (h4 : 4 ≤ bp) (hb : asize + 32 ≤ b) (a : Nat)
    (ha : a < bp - 4 ∨ (bp ≤ a ∧ a < bp + (b - asize - 8)) ∨
      (bp + (b - asize - 8) + 8 ≤ a ∧ a < bp + b) ∨ bp + b + 4 ≤ a) :
    PUT (PUT (PUT (PUT m (bp - 4) (b - asize - 8)) (bp + (b - asize - 8)) (b - asize - 8))
        (bp + (b - asize - 8) + 4) (asize + 1)) (bp + b) (asize + 1) a = m a := by
  rw [PUT_frame _ _ _ _ (by omega), PUT_frame _ _ _ _ (by omega),
    PUT_frame _ _ _ _ (by omega), PUT_frame _ _ _ _ (by omega)]

/-- C8. When `place(bp, asize)` is applied to a block of encoded size
`b >= asize + 32` (`asize` a multiple of 8), it returns `p = bp + (b - asize)`;
the block at `p` is marked allocated with size `asize` and its footer is at
the original block's footer address; the block at `bp` is marked free with
size `b - asize - 8`, at least 24, header and footer agreeing; the free-list
root, the links stored in `bp` and the whole sequence of free-list nodes are
unchanged. In Scenario B this gives `p2 = p1 + 64` with a 56-byte free
remainder at `p1` that is the single free-list node. -/
theorem C8_split_high_end :
    (∀ (s : Heap) (bp asize b p : Nat) (s' : Heap), 4 ≤ bp → asize % 8 = 0 →
      b = GET_SIZE s.mem (HDRP bp) → asize + 32 ≤ b → place s bp asize = (p, s') →
      p = bp + (b - asize) ∧
      GET s'.mem (HDRP p) = PACK asize 1 ∧
      GET_SIZE s'.mem (HDRP p) = asize ∧
      GET_ALLOC s'.mem (HDRP p) = 1 ∧
      FTRP s'.mem p = FTRP s.mem bp ∧
      GET s'.mem (FTRP s'.mem p) = PACK asize 1 ∧
      GET s'.mem (HDRP bp) = PACK (b - asize - 8) 0 ∧
      GET_SIZE s'.mem (HDRP bp) = b - asize - 8 ∧
      GET_ALLOC s'.mem (HDRP bp) = 0 ∧
      GET s'.mem (FTRP s'.mem bp) = PACK (b - asize - 8) 0 ∧
      24 ≤ b - asize - 8 ∧
      s'.free_list = s.free_list ∧
      GET_NEXT_FREE s'.mem bp = GET_NEXT_FREE s.mem bp ∧
      GET_PREV_FREE s'.mem bp = GET_PREV_FREE s.mem bp ∧
      (∀ n, (∀ x ∈ free_nodes s.mem n s.free_list,
          x = bp ∨ x + 16 ≤ HDRP bp ∨ FTRP s.mem bp + 4 ≤ x + 8) →
        free_nodes s'.mem n s'.free_list = free_nodes s.mem n s.free_list)) ∧
    (scenarioB_released.1 = 4104 ∧
      find_fit scenarioB_released.2 (adjusted_size 40) = 4104 ∧
      GET_SIZE scenarioB_released.2.mem (HDRP 4104) = 104 ∧
      scenarioB_p2.1 = scenarioB_released.1 + 64 ∧
      GET scenarioB_p2.2.mem (HDRP scenarioB_p2.1) = PACK 40 1 ∧
      GET scenarioB_p2.2.mem (HDRP 4104) = PACK 56 0 ∧
      GET scenarioB_p2.2.mem (FTRP scenarioB_p2.2.mem 4104) = PACK 56 0 ∧
      free_nodes scenarioB_p2.2.mem 500 scenarioB_p2.2.free_list = [4104]) := by
  refine ⟨?_, by decide⟩
  intro s bp asize b p s' h4 h8 hbdef hb hplace
  subst hbdef
  rw [place_split_eq s bp asize h4 h8 hb] at hplace
  simp only [Prod.mk.injEq] at hplace
  obtain ⟨hp, hs⟩ := hplace
  subst hp hs
  have hblt := GET_SIZE_lt s.mem (HDRP bp)
  have hb8 := GET_SIZE_mod8 s.mem (HDRP bp)
  have hd : HDRP bp = bp - 4 := rfl
  have hF : FTRP s.mem bp = bp + GET_SIZE s.mem (HDRP bp) := rfl
  generalize GET_SIZE s.mem (HDRP bp) = b at hb hblt hb8 hF ⊢
  simp only
  obtain ⟨t1, t2, t3, t4⟩ := split_tags s.mem bp asize b h4 h8 hb hblt hb8
  have hfr := split_frame s.mem bp asize b h4 hb
  generalize PUT (PUT (PUT (PUT s.mem (bp - 4) (b - asize - 8)) (bp + (b - asize - 8))
    (b - asize - 8)) (bp + (b - asize - 8) + 4) (asize + 1)) (bp + b) (asize + 1) = m4
    at t1 t2 t3 t4 hfr ⊢
  have hd2 : HDRP (bp + (b - asize)) = bp + (b - asize - 8) + 4 := by
    unfold HDRP
    omega
  have hsz_p : GET_SIZE m4 (HDRP (bp + (b - asize))) = asize := by
    rw [GET_SIZE_eq, hd2, t3]
    omega
  have hsz_bp : GET_SIZE m4 (HDRP bp) = b - asize - 8 := by
    rw [GET_SIZE_eq, hd, t1]
    omega
  have hF_p : FTRP m4 (bp + (b - asize)) = bp + b := by
    unfold FTRP
    rw [hsz_p]
    omega
  have hF_bp : FTRP m4 bp = bp + (b - asize - 8) := by
    unfold FTRP
    rw [hsz_bp]
  have hnext : ∀ x, (x = bp ∨ x + 16 ≤ HDRP bp ∨ FTRP s.mem bp + 4 ≤ x + 8) →
      GET_NEXT_FREE m4 x = GET_NEXT_FREE s.mem x := by
    intro x hx
    unfold GET_NEXT_FREE
    apply GET_PTR_congr
    intro a h1 h2
    apply hfr
    rw [hd, hF] at hx
    omega
  refine ⟨trivial, ?_, hsz_p, ?_, ?_, ?_, ?_, hsz_bp, ?_, ?_, by omega, trivial, ?_, ?_, ?_⟩
  · rw [hd2, t3, PACK_alloc _ h8]
  · rw [GET_ALLOC_eq, hd2, t3]
    omega
  · rw [hF_p, hF]
  · rw [hF_p, t4, PACK_alloc _ h8]
  · rw [hd, t1, PACK_free]
  · rw [GET_ALLOC_eq, hd, t1]
    omega
  · rw [hF_bp, t2, PACK_free]
  · exact hnext bp (Or.inl rfl)
  · unfold GET_PREV_FREE
    apply GET_PTR_congr
    intro a h1 h2
    apply hfr
    omega
  · intro n hn
    apply free_nodes_congr
    intro x hx
    exact hnext x (hn x hx)

/-- Witness for C8: `place` on the free block of Scenario B (`bp = 4104`,
`b = 104`, `asize = 40`). -/
theorem C8_split_high_end_witness :
    (place scenarioB_released.2 4104 40).1 = 4104 + (104 - 40) ∧
    GET_SIZE (place scenarioB_released.2 4104 40).2.mem (HDRP 4104) = 104 - 40 - 8 ∧
    (place scenarioB_released.2 4104 40).2.free_list = scenarioB_released.2.free_list :=
  have h := C8_split_high_end.1 scenarioB_released.2 4104 40 104
    (place scenarioB_released.2 4104 40).1 (place scenarioB_released.2 4104 40).2
    (by decide) (by decide) (by decide) (by decide) rfl
  ⟨h.1, h.2.2.2.2.2.2.2.1, h.2.2.2.2.2.2.2.2.2.2.2.1⟩

/-! ## Release: the marking step and the four cases of `coalesce` -/

theorem FTRP_eq (m : Mem) (bp size : Nat) (h : GET_SIZE m (HDRP bp) = size) :
    FTRP m bp = bp + size := by
  unfold FTRP
  rw [h]

theorem GET_SIZE_of_GET (m : Mem) (p size alloc : Nat) (h : GET m p = size + alloc)
    (h8 : size % 8 = 0) (ha : alloc < 2) : GET_SIZE m p = size := by
  rw [GET_SIZE_eq, h]
  omega

theorem GET_ALLOC_of_GET (m : Mem) (p size alloc : Nat) (h : GET m p = size + alloc)
    (h8 : size % 8 = 0) (ha : alloc < 2) : GET_ALLOC m p = alloc := by
  rw [GET_ALLOC_eq, h]
  omega

/-- `mm_free` first clears the allocation bit in header and footer. -/
theorem mm_free_marks (s : Heap) (bp size : Nat) (h4 : 4 ≤ bp)
    (hsz : GET_SIZE s.mem (HDRP bp) = size) :
    mm_free s bp =
      if s.free_list ≠ 0 then
        coalesce { s with mem := PUT (PUT s.mem (bp - 4) size) (bp + size) size } bp
      else add { s with mem := PUT (PUT s.mem (bp - 4) size) (bp + size) size } bp := by
  have h0 : bp ≠ 0 := by omega
  have h8 : size % 8 = 0 := by rw [← hsz]; exact GET_SIZE_mod8 _ _
  have hlt : size < 4294967296 := by rw [← hsz]; exact GET_SIZE_lt _ _
  unfold mm_free
  simp only [h0, if_false, hsz, PACK_free]
  have hd : HDRP bp = bp - 4 := rfl
  rw [FTRP_eq _ bp size (by rw [hd]; exact GET_SIZE_PUT_same_free _ _ _ h8 hlt), hd]

theorem coalesce_case1 (s : Heap) (ptr size : Nat)
    (hsz : GET_SIZE s.mem (HDRP ptr) = size)
    (hprev : GET_ALLOC s.mem (ptr - 8) = 1)
    (hnext : GET_ALLOC s.mem (ptr + size + 4) = 1) :
    coalesce s ptr = add s ptr := by
  unfold coalesce
  simp only [FTRP_eq _ _ _ hsz, hprev, hnext]
  simp

theorem coalesce_case2 (s : Heap) (ptr size nsz : Nat) (h4 : 4 ≤ ptr)
    (hsz : GET_SIZE s.mem (HDRP ptr) = size)
    (hprev : GET_ALLOC s.mem (ptr - 8) = 1)
    (hnext : GET_ALLOC s.mem (ptr + size + 4) = 0)
    (hnsz : GET_SIZE s.mem (ptr + size + 4) = nsz)
    (hlt : size + nsz + 8 < 4294967296) :
    coalesce s ptr =
      add { delete s (ptr + size + 8) with
        mem := PUT (PUT (delete s (ptr + size + 8)).mem (ptr - 4) (size + nsz + 8))
          (ptr + (size + nsz + 8)) (size + nsz + 8) } ptr := by
  have h8 : size % 8 = 0 := by rw [← hsz]; exact GET_SIZE_mod8 _ _
  have hn8 : nsz % 8 = 0 := by rw [← hnsz]; exact GET_SIZE_mod8 _ _
  have hN : NEXT_BLKP s.mem ptr = ptr + size + 8 := by unfold NEXT_BLKP; rw [hsz]
  have hd : HDRP (ptr + size + 8) = ptr + size + 4 := by unfold HDRP; omega
  have hd0 : HDRP ptr = ptr - 4 := rfl
  unfold coalesce
  simp only [FTRP_eq _ _ _ hsz, hprev, hnext, hN, hd, hnsz, hsz, PACK_free]
  have e1 : (size + (nsz + 8) % 4294967296) % 18446744073709551616 = size + nsz + 8 := by omega
  simp only [e1]
  rw [FTRP_eq _ ptr (size + nsz + 8)
    (by rw [hd0]; exact GET_SIZE_PUT_same_free _ _ _ (by omega) hlt), hd0]
  simp

theorem coalesce_case3 (s : Heap) (ptr size psz : Nat) (h4 : psz + 12 ≤ ptr)
    (hsz : GET_SIZE s.mem (HDRP ptr) = size)
    (hprev : GET_ALLOC s.mem (ptr - 8) = 0)
    (hpsz : GET_SIZE s.mem (ptr - 8) = psz)
    (hphd : GET_SIZE s.mem (ptr - psz - 12) = psz)
    (hnext : GET_ALLOC s.mem (ptr + size + 4) = 1)
    (hlt : size + psz + 8 < 4294967296) :
    coalesce s ptr =
      { s with
        mem := PUT (PUT s.mem (ptr - psz - 12) (size + psz + 8))
          (ptr + size) (size + psz + 8) } := by
  have h8 : size % 8 = 0 := by rw [← hsz]; exact GET_SIZE_mod8 _ _
  have hp8 : psz % 8 = 0 := by rw [← hpsz]; exact GET_SIZE_mod8 _ _
  have hP : PREV_BLKP s.mem ptr = ptr - psz - 8 := by unfold PREV_BLKP; rw [hpsz]
  have hd : HDRP (ptr - psz - 8) = ptr - psz - 12 := by unfold HDRP; omega
  unfold coalesce
  simp only [FTRP_eq _ _ _ hsz, hprev, hnext, hP, hd, hphd, hsz, PACK_free]
  have e1 : (size + (psz + 8) % 4294967296) % 18446744073709551616 = size + psz + 8 := by omega
  simp only [e1]
  have e3 : FTRP (PUT s.mem (ptr - psz - 12) (size + psz + 8)) (ptr - psz - 8)
      = ptr - psz - 8 + (size + psz + 8) := by
    apply FTRP_eq
    rw [hd]
    exact GET_SIZE_PUT_same_free _ _ _ (by omega) hlt
  rw [e3]
  have e2 : ptr - psz - 8 + (size + psz + 8) = ptr + size := by omega
  rw [e2]
  simp

theorem coalesce_case4 (s : Heap) (ptr size psz nsz : Nat) (h4 : psz + 12 ≤ ptr)
    (hsz : GET_SIZE s.mem (HDRP ptr) = size)
    (hprev : GET_ALLOC s.mem (ptr - 8) = 0)
    (hpsz : GET_SIZE s.mem (ptr - 8) = psz)
    (hphd : GET_SIZE s.mem (ptr - psz - 12) = psz)
    (hnext : GET_ALLOC s.mem (ptr + size + 4) = 0)
    (hnsz : GET_SIZE s.mem (ptr + size + 4) = nsz)
    (hlt : size + psz + nsz + 16 < 4294967296) :
    coalesce s ptr =
      delete { s with
        mem := PUT (PUT s.mem (ptr - psz - 12) (size + psz + nsz + 16))
          (ptr + size + 8 + nsz) (size + psz + nsz + 16) } (ptr + size + 8) := by
  have h8 : size % 8 = 0 := by rw [← hsz]; exact GET_SIZE_mod8 _ _
  have hp8 : psz % 8 = 0 := by rw [← hpsz]; exact GET_SIZE_mod8 _ _
  have hn8 : nsz % 8 = 0 := by rw [← hnsz]; exact GET_SIZE_mod8 _ _
  have hP : PREV_BLKP s.mem ptr = ptr - psz - 8 := by unfold PREV_BLKP; rw [hpsz]
  have hN : NEXT_BLKP s.mem ptr = ptr + size + 8 := by unfold NEXT_BLKP; rw [hsz]
  have hd : HDRP (ptr - psz - 8) = ptr - psz - 12 := by unfold HDRP; omega
  have hdn : HDRP (ptr + size + 8) = ptr + size + 4 := by unfold HDRP; omega
  unfold coalesce
  simp only [FTRP_eq _ _ _ hsz, hprev, hnext, hP, hN, hd, hdn, hphd, hnsz, hsz, PACK_free]
  have e1 : (size + (psz + nsz + 16) % 4294967296) % 18446744073709551616
      = size + psz + nsz + 16 := by omega
  simp only [e1]
  have e3 : FTRP (PUT s.mem (ptr - psz - 12) (size + psz + nsz + 16)) (ptr - psz - 8)
      = ptr - psz - 8 + (size + psz + nsz + 16) := by
    apply FTRP_eq
    rw [hd]
    exact GET_SIZE_PUT_same_free _ _ _ (by omega) hlt
  rw [e3]
  have e2 : ptr - psz - 8 + (size + psz + nsz + 16) = ptr + size + 8 + nsz := by omega
  rw [e2]
  simp

/-! ## Reads through pointer stores, and the list primitives -/

theorem GET_SET_PTR_other (m : Mem) (p v q : Nat) (h : q + 4 ≤ p ∨ p + 8 ≤ q) :
    GET (SET_PTR m p v) q = GET m q := by
  apply GET_congr
  intro a h1 h2
  exact SET_PTR_frame m p v a (by omega)

theorem GET_PTR_SET_PTR_other (m : Mem) (p v q : Nat) (h : q + 8 ≤ p ∨ p + 8 ≤ q) :
    GET_PTR (SET_PTR m p v) q = GET_PTR m q := by
  apply GET_PTR_congr
  intro a h1 h2
  exact SET_PTR_frame m p v a (by omega)

theorem GET_SIZE_SET_PTR_other (m : Mem) (p v q : Nat) (h : q + 4 ≤ p ∨ p + 8 ≤ q) :
    GET_SIZE (SET_PTR m p v) q = GET_SIZE m q := by
  unfold GET_SIZE
  rw [GET_SET_PTR_other m p v q h]

theorem GET_ALLOC_SET_PTR_other (m : Mem) (p v q : Nat) (h : q + 4 ≤ p ∨ p + 8 ≤ q) :
    GET_ALLOC (SET_PTR m p v) q = GET_ALLOC m q := by
  unfold GET_ALLOC
  rw [GET_SET_PTR_other m p v q h]

theorem add_eq_nil (s : Heap) (bp : Nat) (h : s.free_list = 0) :
    add s bp = { s with mem := SET_PTR (SET_PTR s.mem (bp + 8) 0) bp 0, free_list := bp } := by
  unfold add SET_NEXT_FREE SET_PREV_FREE
  simp [h]

theorem add_eq_cons (s : Heap) (bp : Nat) (h : s.free_list ≠ 0) :
    add s bp =
      { s with
        mem := SET_PTR (SET_PTR (SET_PTR s.mem (bp + 8) s.free_list) bp 0) s.free_list bp,
        free_list := bp } := by
  unfold add SET_NEXT_FREE SET_PREV_FREE
  simp [h]

theorem delete_eq_only (s : Heap) (bp : Nat) (hp : GET_PREV_FREE s.mem bp = 0)
    (hn : GET_NEXT_FREE s.mem bp = 0) : delete s bp = { s with free_list := 0 } := by
  unfold delete
  simp [hp, hn]

theorem delete_eq_first (s : Heap) (bp next : Nat) (hp : GET_PREV_FREE s.mem bp = 0)
    (hn : GET_NEXT_FREE s.mem bp = next) (h0 : next ≠ 0) :
    delete s bp = { s with mem := SET_PTR s.mem next 0, free_list := next } := by
  unfold delete SET_PREV_FREE
  simp [hp, hn, h0]

theorem delete_eq_last (s : Heap) (bp prev : Nat) (hp : GET_PREV_FREE s.mem bp = prev)
    (hn : GET_NEXT_FREE s.mem bp = 0) (h0 : prev ≠ 0) :
    delete s bp = { s with mem := SET_PTR s.mem (prev + 8) 0 } := by
  unfold delete SET_NEXT_FREE
  simp [hp, hn, h0]

theorem delete_eq_inner (s : Heap) (bp prev next : Nat) (hp : GET_PREV_FREE s.mem bp = prev)
    (hn : GET_NEXT_FREE s.mem bp = next) (h0 : prev ≠ 0) (h1 : next ≠ 0) :
    delete s bp = { s with mem := SET_PTR (SET_PTR s.mem (prev + 8) next) next prev } := by
  unfold delete SET_NEXT_FREE SET_PREV_FREE
  simp [hp, hn, h0, h1]

theorem GET_PUT_eq (m : Mem) (p v q : Nat) (h : q = p) :
    GET (PUT m p v) q = v % 4294967296 := by
  rw [h, GET_PUT_same]

theorem GET_PTR_SET_PTR_eq (m : Mem) (p v q : Nat) (h : q = p)
    (hv : v < 18446744073709551616) : GET_PTR (SET_PTR m p v) q = v := by
  rw [h, GET_PTR_SET_PTR_same m p v hv]

/-- `mm_free` on an empty free list: mark the block free and insert it. -/
theorem mm_free_empty (s : Heap) (bp hd ft size : Nat) (e1 : hd + 4 = bp) (e2 : ft = bp + size)
    (hsz : GET_SIZE s.mem hd = size) (hfl : s.free_list = 0) :
    mm_free s bp = { s with
      mem := SET_PTR (SET_PTR (PUT (PUT s.mem hd size) ft size) (bp + 8) 0) bp 0,
      free_list := bp } := by
  have ehd : HDRP bp = hd := by unfold HDRP; omega
  have ehd' : bp - 4 = hd := by omega
  rw [mm_free_marks s bp size (by omega) (by rw [ehd]; exact hsz)]
  simp only [hfl, ne_eq, not_true_eq_false, if_false]
  rw [add_eq_nil _ _ rfl, ehd', ← e2]

/-- `mm_free`, case 1 of `coalesce`: both neighbours allocated. -/
theorem mm_free_case1 (s : Heap) (bp hd ft pf nh size : Nat) (e1 : hd + 4 = bp)
    (e2 : ft = bp + size) (e3 : pf + 8 = bp) (e4 : nh = ft + 4)
    (hsz : GET_SIZE s.mem hd = size) (hfl : s.free_list ≠ 0)
    (hprev : GET_ALLOC s.mem pf = 1) (hnext : GET_ALLOC s.mem nh = 1) :
    mm_free s bp = { s with
      mem := SET_PTR (SET_PTR (SET_PTR (PUT (PUT s.mem hd size) ft size) (bp + 8) s.free_list)
        bp 0) s.free_list bp,
      free_list := bp } := by
  have h8 : size % 8 = 0 := by rw [← hsz]; exact GET_SIZE_mod8 _ _
  have hlt : size < 4294967296 := by rw [← hsz]; exact GET_SIZE_lt _ _
  have ehd : HDRP bp = hd := by unfold HDRP; omega
  have ehd' : bp - 4 = hd := by omega
  rw [mm_free_marks s bp size (by omega) (by rw [ehd]; exact hsz)]
  simp only [hfl, ne_eq, not_false_eq_true, if_true]
  rw [ehd', ← e2, coalesce_case1 _ bp size]
  · exact add_eq_cons _ bp hfl
  · simp only [ehd]
    rw [GET_SIZE_PUT_other _ _ _ _ (by omega), GET_SIZE_PUT_same_free _ _ _ h8 hlt]
  · simp only [show bp - 8 = pf by omega]
    rw [GET_ALLOC_PUT_other _ _ _ _ (by omega), GET_ALLOC_PUT_other _ _ _ _ (by omega), hprev]
  · simp only [show bp + size + 4 = nh by omega]
    rw [GET_ALLOC_PUT_other _ _ _ _ (by omega), GET_ALLOC_PUT_other _ _ _ _ (by omega), hnext]

/-- `mm_free`, case 2 of `coalesce`: predecessor allocated, successor free. -/
theorem mm_free_case2 (s : Heap) (bp hd ft pf nh nb nft size nsz : Nat) (e1 : hd + 4 = bp)
    (e2 : ft = bp + size) (e3 : pf + 8 = bp) (e4 : nh = ft + 4) (e5 : nb = nh + 4)
    (e6 : nft = nb + nsz)
    (hsz : GET_SIZE s.mem hd = size) (hfl : s.free_list ≠ 0)
    (hprev : GET_ALLOC s.mem pf = 1) (hnext : GET_ALLOC s.mem nh = 0)
    (hnsz : GET_SIZE s.mem nh = nsz) (hlt : size + nsz + 8 < 4294967296) :
    mm_free s bp =
      add { delete { s with mem := PUT (PUT s.mem hd size) ft size } nb with
        mem := PUT (PUT (delete { s with mem := PUT (PUT s.mem hd size) ft size } nb).mem
          hd (size + nsz + 8)) nft (size + nsz + 8) } bp := by
  have h8 : size % 8 = 0 := by rw [← hsz]; exact GET_SIZE_mod8 _ _
  have hlt' : size < 4294967296 := by rw [← hsz]; exact GET_SIZE_lt _ _
  have ehd : HDRP bp = hd := by unfold HDRP; omega
  have ehd' : bp - 4 = hd := by omega
  rw [mm_free_marks s bp size (by omega) (by rw [ehd]; exact hsz)]
  simp only [hfl, ne_eq, not_false_eq_true, if_true]
  rw [ehd', ← e2, coalesce_case2 _ bp size nsz (by omega)]
  · simp only [show bp + size + 8 = nb by omega, ehd',
      show bp + (size + nsz + 8) = nft by omega]
  · simp only [ehd]
    rw [GET_SIZE_PUT_other _ _ _ _ (by omega), GET_SIZE_PUT_same_free _ _ _ h8 hlt']
  · simp only [show bp - 8 = pf by omega]
    rw [GET_ALLOC_PUT_other _ _ _ _ (by omega), GET_ALLOC_PUT_other _ _ _ _ (by omega), hprev]
  · simp only [show bp + size + 4 = nh by omega]
    rw [GET_ALLOC_PUT_other _ _ _ _ (by omega), GET_ALLOC_PUT_other _ _ _ _ (by omega), hnext]
  · simp only [show bp + size + 4 = nh by omega]
    rw [GET_SIZE_PUT_other _ _ _ _ (by omega), GET_SIZE_PUT_other _ _ _ _ (by omega), hnsz]
  · exact hlt

/-- `mm_free`, case 3 of `coalesce`: predecessor free, successor allocated. -/
theorem mm_free_case3 (s : Heap) (bp hd ft pf nh ph size psz : Nat) (e1 : hd + 4 = bp)
    (e2 : ft = bp + size) (e3 : pf + 8 = bp) (e4 : nh = ft + 4) (e5 : ph + psz + 4 = pf)
    (hsz : GET_SIZE s.mem hd = size) (hfl : s.free_list ≠ 0)
    (hprev : GET_ALLOC s.mem pf = 0) (hpsz : GET_SIZE s.mem pf = psz)
    (hphd : GET_SIZE s.mem ph = psz) (hnext : GET_ALLOC s.mem nh = 1)
    (hlt : size + psz + 8 < 4294967296) :
    mm_free s bp = { s with
      mem := PUT (PUT (PUT (PUT s.mem hd size) ft size) ph (size + psz + 8)) ft
        (size + psz + 8) } := by
  have h8 : size % 8 = 0 := by rw [← hsz]; exact GET_SIZE_mod8 _ _
  have hlt' : size < 4294967296 := by rw [← hsz]; exact GET_SIZE_lt _ _
  have ehd : HDRP bp = hd := by unfold HDRP; omega
  have ehd' : bp - 4 = hd := by omega
  rw [mm_free_marks s bp size (by omega) (by rw [ehd]; exact hsz)]
  simp only [hfl, ne_eq, not_false_eq_true, if_true]
  rw [ehd', ← e2, coalesce_case3 _ bp size psz (by omega)]
  · simp only [show bp - psz - 12 = ph by omega, show bp + size = ft by omega]
  · simp only [ehd]
    rw [GET_SIZE_PUT_other _ _ _ _ (by omega), GET_SIZE_PUT_same_free _ _ _ h8 hlt']
  · simp only [show bp - 8 = pf by omega]
    rw [GET_ALLOC_PUT_other _ _ _ _ (by omega), GET_ALLOC_PUT_other _ _ _ _ (by omega), hprev]
  · simp only [show bp - 8 = pf by omega]
    rw [GET_SIZE_PUT_other _ _ _ _ (by omega), GET_SIZE_PUT_other _ _ _ _ (by omega), hpsz]
  · simp only [show bp - psz - 12 = ph by omega]
    rw [GET_SIZE_PUT_other _ _ _ _ (by omega), GET_SIZE_PUT_other _ _ _ _ (by omega), hphd]
  · simp only [show bp + size + 4 = nh by omega]
    rw [GET_ALLOC_PUT_other _ _ _ _ (by omega), GET_ALLOC_PUT_other _ _ _ _ (by omega), hnext]
  · exact hlt

/-- `mm_free`, case 4 of `coalesce`: both neighbours free. -/
theorem mm_free_case4 (s : Heap) (bp hd ft pf nh ph nb nft size psz nsz : Nat)
    (e1 : hd + 4 = bp) (e2 : ft = bp + size) (e3 : pf + 8 = bp) (e4 : nh = ft + 4)
    (e5 : ph + psz + 4 = pf) (e6 : nb = nh + 4) (e7 : nft = nb + nsz)
    (hsz : GET_SIZE s.mem hd = size) (hfl : s.free_list ≠ 0)
    (hprev : GET_ALLOC s.mem pf = 0) (hpsz : GET_SIZE s.mem pf = psz)
    (hphd : GET_SIZE s.mem ph = psz) (hnext : GET_ALLOC s.mem nh = 0)
    (hnsz : GET_SIZE s.mem nh = nsz) (hlt : size + psz + nsz + 16 < 4294967296) :
    mm_free s bp =
      delete { s with
        mem := PUT (PUT (PUT (PUT s.mem hd size) ft size) ph (size + psz + nsz + 16)) nft
          (size + psz + nsz + 16) } nb := by
  have h8 : size % 8 = 0 := by rw [← hsz]; exact GET_SIZE_mod8 _ _
  have hlt' : size < 4294967296 := by rw [← hsz]; exact GET_SIZE_lt _ _
  have ehd : HDRP bp = hd := by unfold HDRP; omega
  have ehd' : bp - 4 = hd := by omega
  rw [mm_free_marks s bp size (by omega) (by rw [ehd]; exact hsz)]
  simp only [hfl, ne_eq, not_false_eq_true, if_true]
  rw [ehd', ← e2, coalesce_case4 _ bp size psz nsz (by omega)]
  · simp only [show bp - psz - 12 = ph by omega, show bp + size + 8 = nb by omega, ← e7]
  · simp only [ehd]
    rw [GET_SIZE_PUT_other _ _ _ _ (by omega), GET_SIZE_PUT_same_free _ _ _ h8 hlt']
  · simp only [show bp - 8 = pf by omega]
    rw [GET_ALLOC_PUT_other _ _ _ _ (by omega), GET_ALLOC_PUT_other _ _ _ _ (by omega), hprev]
  · simp only [show bp - 8 = pf by omega]
    rw [GET_SIZE_PUT_other _ _ _ _ (by omega), GET_SIZE_PUT_other _ _ _ _ (by omega), hpsz]
  · simp only [show bp - psz - 12 = ph by omega]
    rw [GET_SIZE_PUT_other _ _ _ _ (by omega), GET_SIZE_PUT_other _ _ _ _ (by omega), hphd]
  · simp only [show bp + size + 4 = nh by omega]
    rw [GET_ALLOC_PUT_other _ _ _ _ (by omega), GET_ALLOC_PUT_other _ _ _ _ (by omega), hnext]
  · simp only [show bp + size + 4 = nh by omega]
    rw [GET_SIZE_PUT_other _ _ _ _ (by omega), GET_SIZE_PUT_other _ _ _ _ (by omega), hnsz]
  · exact hlt

/-! ## Closed forms for `mm_init` and the growth path -/

theorem find_fit_nil (s : Heap) (asize : Nat) (h : s.free_list = 0) : find_fit s asize = 0 := by
  unfold find_fit find_fit_loop
  simp [h]

/-- The growth path of `mm_malloc` in closed form, `hd` being the address of
the old epilogue header. -/
theorem mm_malloc_grow_closed (s : Heap) (size hd : Nat) (h0 : 0 < size)
    (hsz : size ≤ 4294967280) (hfit : find_fit s (adjusted_size size) = 0)
    (hhd : hd + 4 = s.brk) (hg : s.brk + (adjusted_size size + 8) ≤ s.max_addr) :
    mm_malloc s size = (s.brk, { s with
      mem := PUT (PUT (PUT s.mem hd (adjusted_size size + 1)) (s.brk + adjusted_size size)
        (adjusted_size size + 1)) (s.brk + adjusted_size size + 4) 1,
      brk := s.brk + (adjusted_size size + 8) }) := by
  have ha := adjusted_size_in_range size (by omega)
  have h8 := adjusted_size_mod8 size
  have hlt : adjusted_size size + 8 < 4294967296 := by
    rw [ha]
    split <;> omega
  have hmod : (adjusted_size size + 8) % 4294967296 = adjusted_size size + 8 :=
    Nat.mod_eq_of_lt hlt
  have hok := mm_malloc_grow_ok s size (by omega) hfit (by rw [hmod]; exact hg)
  simp only at hok
  rw [hok, hmod, PACK_alloc _ h8]
  have hd' : HDRP s.brk = hd := by unfold HDRP; omega
  have e1 : FTRP (PUT s.mem (HDRP s.brk) (adjusted_size size + 1)) s.brk
      = s.brk + adjusted_size size := by
    apply FTRP_eq
    exact GET_SIZE_PUT_same_alloc _ _ _ h8 (by omega)
  have e2 : FTRP (PUT (PUT s.mem (HDRP s.brk) (adjusted_size size + 1))
      (s.brk + adjusted_size size) (adjusted_size size + 1)) s.brk
      = s.brk + adjusted_size size := by
    apply FTRP_eq
    rw [GET_SIZE_PUT_other _ _ _ _ (by rw [hd']; omega)]
    exact GET_SIZE_PUT_same_alloc _ _ _ h8 (by omega)
  rw [e1, e2, hd']
  rfl

theorem mm_init_closed (s0 : Heap) (hg : s0.brk + 8 ≤ s0.max_addr) :
    (mm_init s0).2 = { s0 with
      mem := PUT (PUT s0.mem s0.brk 1) (s0.brk + 4) 1, free_list := 0, brk := s0.brk + 8 } := by
  unfold mm_init mem_sbrk
  simp [hg, PACK]

/-! ## Releasing three adjacent blocks -/

/-- Releasing the first of three allocated blocks into an empty free list. -/
theorem release_first_a (s : Heap) (p0 sa sb sc : Nat) (hs : sizes_ok p0 sa sb sc)
    (h : arena3 s p0 sa sb sc 1 1 1 ∧ free_list_is s []) :
    arena3 (mm_free s (p0 + 8)) p0 sa sb sc 0 1 1 ∧ free_list_is (mm_free s (p0 + 8)) [p0 + 8] := by
  obtain ⟨ha8, hb8, hc8, hsa, hsb, hsc, hsum, hmax⟩ := hs
  simp only [arena3, arena_ab_c, arena_a_bc, arena_abc, free_list_is, links, List.headD, GET_ALLOC_eq,
    GET_SIZE_eq, GET_NEXT_FREE, GET_PREV_FREE] at h
  rw [mm_free_empty s (p0 + 8) (p0 + 4) (p0 + 8 + sa) sa (by omega) (by omega) (by rw [GET_SIZE_eq]; omega) (by omega)]
  simp only [arena3, arena_ab_c, arena_a_bc, arena_abc, free_list_is, links, List.headD, GET_ALLOC_eq,
    GET_SIZE_eq, GET_NEXT_FREE, GET_PREV_FREE]
  and_intros
  all_goals try simp (disch := omega) only [GET_PUT_eq, GET_PUT_other, GET_SET_PTR_other, GET_PTR_PUT_other,
      GET_PTR_SET_PTR_other, GET_PTR_SET_PTR_eq]
  all_goals omega

/-- Releasing the middle one of three allocated blocks into an empty free list. -/
theorem release_first_b (s : Heap) (p0 sa sb sc : Nat) (hs : sizes_ok p0 sa sb sc)
    (h : arena3 s p0 sa sb sc 1 1 1 ∧ free_list_is s []) :
    arena3 (mm_free s (p0 + 16 + sa)) p0 sa sb sc 1 0 1 ∧ free_list_is (mm_free s (p0 + 16 + sa)) [p0 + 16 + sa] := by
  obtain ⟨ha8, hb8, hc8, hsa, hsb, hsc, hsum, hmax⟩ := hs
  simp only [arena3, arena_ab_c, arena_a_bc, arena_abc, free_list_is, links, List.headD, GET_ALLOC_eq,
    GET_SIZE_eq, GET_NEXT_FREE, GET_PREV_FREE] at h
  rw [mm_free_empty s (p0 + 16 + sa) (p0 + 12 + sa) (p0 + 16 + sa + sb) sb (by omega) (by omega) (by rw [GET_SIZE_eq]; omega) (by omega)]
  simp only [arena3, arena_ab_c, arena_a_bc, arena_abc, free_list_is, links, List.headD, GET_ALLOC_eq,
    GET_SIZE_eq, GET_NEXT_FREE, GET_PREV_FREE]
  and_intros
  all_goals try simp (disch := omega) only [GET_PUT_eq, GET_PUT_other, GET_SET_PTR_other, GET_PTR_PUT_other,
      GET_PTR_SET_PTR_other, GET_PTR_SET_PTR_eq]
  all_goals omega

/-- Releasing the last of three allocated blocks into an empty free list. -/
theorem release_first_c (s : Heap) (p0 sa sb sc : Nat) (hs : sizes_ok p0 sa sb sc)
    (h : arena3 s p0 sa sb sc 1 1 1 ∧ free_list_is s []) :
    arena3 (mm_free s (p0 + 24 + sa + sb)) p0 sa sb sc 1 1 0 ∧ free_list_is (mm_free s (p0 + 24 + sa + sb)) [p0 + 24 + sa + sb] := by
  obtain ⟨ha8, hb8, hc8, hsa, hsb, hsc, hsum, hmax⟩ := hs
  simp only [arena3, arena_ab_c, arena_a_bc, arena_abc, free_list_is, links, List.headD, GET_ALLOC_eq,
    GET_SIZE_eq, GET_NEXT_FREE, GET_PREV_FREE] at h
  rw [mm_free_empty s (p0 + 24 + sa + sb) (p0 + 20 + sa + sb) (p0 + 24 + sa + sb + sc) sc (by omega) (by omega) (by rw [GET_SIZE_eq]; omega) (by omega)]
  simp only [arena3, arena_ab_c, arena_a_bc, arena_abc, free_list_is, links, List.headD, GET_ALLOC_eq,
    GET_SIZE_eq, GET_NEXT_FREE, GET_PREV_FREE]
  and_intros
  all_goals try simp (disch := omega) only [GET_PUT_eq, GET_PUT_other, GET_SET_PTR_other, GET_PTR_PUT_other,
      GET_PTR_SET_PTR_other, GET_PTR_SET_PTR_eq]
  all_goals omega

/-- Case 1: the last block is released while only the first is free. -/
theorem release_c_after_a (s : Heap) (p0 sa sb sc : Nat) (hs : sizes_ok p0 sa sb sc)
    (h : arena3 s p0 sa sb sc 0 1 1 ∧ free_list_is s [p0 + 8]) :
    arena3 (mm_free s (p0 + 24 + sa + sb)) p0 sa sb sc 0 1 0 ∧ free_list_is (mm_free s (p0 + 24 + sa + sb)) [p0 + 24 + sa + sb, p0 + 8] := by
  obtain ⟨ha8, hb8, hc8, hsa, hsb, hsc, hsum, hmax⟩ := hs
  simp only [arena3, arena_ab_c, arena_a_bc, arena_abc, free_list_is, links, List.headD, GET_ALLOC_eq,
    GET_SIZE_eq, GET_NEXT_FREE, GET_PREV_FREE] at h
  rw [mm_free_case1 s (p0 + 24 + sa + sb) (p0 + 20 + sa + sb) (p0 + 24 + sa + sb + sc) (p0 + 16 + sa + sb) (p0 + 28 + sa + sb + sc) sc (by omega) (by omega) (by omega) (by omega)
    (by rw [GET_SIZE_eq]; omega) (by omega) (by rw [GET_ALLOC_eq]; omega) (by rw [GET_ALLOC_eq]; omega)]
  simp only [arena3, arena_ab_c, arena_a_bc, arena_abc, free_list_is, links, List.headD, GET_ALLOC_eq,
    GET_SIZE_eq, GET_NEXT_FREE, GET_PREV_FREE]
  and_intros
  all_goals try simp (disch := omega) only [GET_PUT_eq, GET_PUT_other, GET_SET_PTR_other, GET_PTR_PUT_other,
      GET_PTR_SET_PTR_other, GET_PTR_SET_PTR_eq]
  all_goals omega

/-- Case 1: the first block is released while only the last is free. -/
theorem release_a_after_c (s : Heap) (p0 sa sb sc : Nat) (hs : sizes_ok p0 sa sb sc)
    (h : arena3 s p0 sa sb sc 1 1 0 ∧ free_list_is s [p0 + 24 + sa + sb]) :
    arena3 (mm_free s (p0 + 8)) p0 sa sb sc 0 1 0 ∧ free_list_is (mm_free s (p0 + 8)) [p0 + 8, p0 + 24 + sa + sb] := by
  obtain ⟨ha8, hb8, hc8, hsa, hsb, hsc, hsum, hmax⟩ := hs
  simp only [arena3, arena_ab_c, arena_a_bc, arena_abc, free_list_is, links, List.headD, GET_ALLOC_eq,
    GET_SIZE_eq, GET_NEXT_FREE, GET_PREV_FREE] at h
  rw [mm_free_case1 s (p0 + 8) (p0 + 4) (p0 + 8 + sa) (p0) (p0 + 12 + sa) sa (by omega) (by omega) (by omega) (by omega)
    (by rw [GET_SIZE_eq]; omega) (by omega) (by rw [GET_ALLOC_eq]; omega) (by rw [GET_ALLOC_eq]; omega)]
  simp only [arena3, arena_ab_c, arena_a_bc, arena_abc, free_list_is, links, List.headD, GET_ALLOC_eq,
    GET_SIZE_eq, GET_NEXT_FREE, GET_PREV_FREE]
  and_intros
  all_goals try simp (disch := omega) only [GET_PUT_eq, GET_PUT_other, GET_SET_PTR_other, GET_PTR_PUT_other,
      GET_PTR_SET_PTR_other, GET_PTR_SET_PTR_eq]
  all_goals omega

/-- Case 3: the middle block is released after the first and merges into it. -/
theorem release_b_after_a (s : Heap) (p0 sa sb sc : Nat) (hs : sizes_ok p0 sa sb sc)
    (h : arena3 s p0 sa sb sc 0 1 1 ∧ free_list_is s [p0 + 8]) :
    arena_ab_c (mm_free s (p0 + 16 + sa)) p0 sa sb sc ∧ free_list_is (mm_free s (p0 + 16 + sa)) [p0 + 8] := by
  obtain ⟨ha8, hb8, hc8, hsa, hsb, hsc, hsum, hmax⟩ := hs
  simp only [arena3, arena_ab_c, arena_a_bc, arena_abc, free_list_is, links, List.headD, GET_ALLOC_eq,
    GET_SIZE_eq, GET_NEXT_FREE, GET_PREV_FREE] at h
  rw [mm_free_case3 s (p0 + 16 + sa) (p0 + 12 + sa) (p0 + 16 + sa + sb) (p0 + 8 + sa) (p0 + 20 + sa + sb) (p0 + 4) sb (sa) (by omega) (by omega) (by omega)
    (by omega) (by omega) (by rw [GET_SIZE_eq]; omega) (by omega) (by rw [GET_ALLOC_eq]; omega) (by rw [GET_SIZE_eq]; omega) (by rw [GET_SIZE_eq]; omega) (by rw [GET_ALLOC_eq]; omega) (by omega)]
  simp only [arena3, arena_ab_c, arena_a_bc, arena_abc, free_list_is, links, List.headD, GET_ALLOC_eq,
    GET_SIZE_eq, GET_NEXT_FREE, GET_PREV_FREE]
  and_intros
  all_goals try simp (disch := omega) only [GET_PUT_eq, GET_PUT_other, GET_SET_PTR_other, GET_PTR_PUT_other,
      GET_PTR_SET_PTR_other, GET_PTR_SET_PTR_eq]
  all_goals omega

/-- Case 2: the first block is released after the middle one and absorbs it. -/
theorem release_a_after_b (s : Heap) (p0 sa sb sc : Nat) (hs : sizes_ok p0 sa sb sc)
    (h : arena3 s p0 sa sb sc 1 0 1 ∧ free_list_is s [p0 + 16 + sa]) :
    arena_ab_c (mm_free s (p0 + 8)) p0 sa sb sc ∧ free_list_is (mm_free s (p0 + 8)) [p0 + 8] := by
  obtain ⟨ha8, hb8, hc8, hsa, hsb, hsc, hsum, hmax⟩ := hs
  simp only [arena3, arena_ab_c, arena_a_bc, arena_abc, free_list_is, links, List.headD, GET_ALLOC_eq,
    GET_SIZE_eq, GET_NEXT_FREE, GET_PREV_FREE] at h
  have hp : GET_PREV_FREE (PUT (PUT s.mem (p0 + 4) sa) (p0 + 8 + sa) sa) (p0 + 16 + sa) = 0 := by
    simp (disch := omega) only [GET_NEXT_FREE, GET_PREV_FREE, GET_PUT_eq, GET_PUT_other, GET_SET_PTR_other, GET_PTR_PUT_other,
      GET_PTR_SET_PTR_other, GET_PTR_SET_PTR_eq]
    omega
  have hn : GET_NEXT_FREE (PUT (PUT s.mem (p0 + 4) sa) (p0 + 8 + sa) sa) (p0 + 16 + sa) = 0 := by
    simp (disch := omega) only [GET_NEXT_FREE, GET_PREV_FREE, GET_PUT_eq, GET_PUT_other, GET_SET_PTR_other, GET_PTR_PUT_other,
      GET_PTR_SET_PTR_other, GET_PTR_SET_PTR_eq]
    omega
  rw [mm_free_case2 s (p0 + 8) (p0 + 4) (p0 + 8 + sa) (p0) (p0 + 12 + sa) (p0 + 16 + sa) (p0 + 16 + sa + sb) sa (sb) (by omega) (by omega)
    (by omega) (by omega) (by omega) (by omega) (by rw [GET_SIZE_eq]; omega) (by omega) (by rw [GET_ALLOC_eq]; omega) (by rw [GET_ALLOC_eq]; omega) (by rw [GET_SIZE_eq]; omega) (by omega)]
  rw [delete_eq_only { s with mem := PUT (PUT s.mem (p0 + 4) sa) (p0 + 8 + sa) sa } (p0 + 16 + sa) hp hn]
  simp only
  rw [add_eq_nil _ _ rfl]
  simp only [arena3, arena_ab_c, arena_a_bc, arena_abc, free_list_is, links, List.headD, GET_ALLOC_eq,
    GET_SIZE_eq, GET_NEXT_FREE, GET_PREV_FREE]
  and_intros
  all_goals try simp (disch := omega) only [GET_PUT_eq, GET_PUT_other, GET_SET_PTR_other, GET_PTR_PUT_other,
      GET_PTR_SET_PTR_other, GET_PTR_SET_PTR_eq]
  all_goals omega

/-- Case 3: the last block is released after the middle one and merges into it. -/
theorem release_c_after_b (s : Heap) (p0 sa sb sc : Nat) (hs : sizes_ok p0 sa sb sc)
    (h : arena3 s p0 sa sb sc 1 0 1 ∧ free_list_is s [p0 + 16 + sa]) :
    arena_a_bc (mm_free s (p0 + 24 + sa + sb)) p0 sa sb sc ∧ free_list_is (mm_free s (p0 + 24 + sa + sb)) [p0 + 16 + sa] := by
  obtain ⟨ha8, hb8, hc8, hsa, hsb, hsc, hsum, hmax⟩ := hs
  simp only [arena3, arena_ab_c, arena_a_bc, arena_abc, free_list_is, links, List.headD, GET_ALLOC_eq,
    GET_SIZE_eq, GET_NEXT_FREE, GET_PREV_FREE] at h
  rw [mm_free_case3 s (p0 + 24 + sa + sb) (p0 + 20 + sa + sb) (p0 + 24 + sa + sb + sc) (p0 + 16 + sa + sb) (p0 + 28 + sa + sb + sc) (p0 + 12 + sa) sc (sb) (by omega) (by omega) (by omega)
    (by omega) (by omega) (by rw [GET_SIZE_eq]; omega) (by omega) (by rw [GET_ALLOC_eq]; omega) (by rw [GET_SIZE_eq]; omega) (by rw [GET_SIZE_eq]; omega) (by rw [GET_ALLOC_eq]; omega) (by omega)]
  simp only [arena3, arena_ab_c, arena_a_bc, arena_abc, free_list_is, links, List.headD, GET_ALLOC_eq,
    GET_SIZE_eq, GET_NEXT_FREE, GET_PREV_FREE]
  and_intros
  all_goals try simp (disch := omega) only [GET_PUT_eq, GET_PUT_other, GET_SET_PTR_other, GET_PTR_PUT_other,
      GET_PTR_SET_PTR_other, GET_PTR_SET_PTR_eq]
  all_goals omega

/-- Case 2: the middle block is released after the last one and absorbs it. -/
theorem release_b_after_c (s : Heap) (p0 sa sb sc : Nat) (hs : sizes_ok p0 sa sb sc)
    (h : arena3 s p0 sa sb sc 1 1 0 ∧ free_list_is s [p0 + 24 + sa + sb]) :
    arena_a_bc (mm_free s (p0 + 16 + sa)) p0 sa sb sc ∧ free_list_is (mm_free s (p0 + 16 + sa)) [p0 + 16 + sa] := by
  obtain ⟨ha8, hb8, hc8, hsa, hsb, hsc, hsum, hmax⟩ := hs
  simp only [arena3, arena_ab_c, arena_a_bc, arena_abc, free_list_is, links, List.headD, GET_ALLOC_eq,
    GET_SIZE_eq, GET_NEXT_FREE, GET_PREV_FREE] at h
  have hp : GET_PREV_FREE (PUT (PUT s.mem (p0 + 12 + sa) sb) (p0 + 16 + sa + sb) sb) (p0 + 24 + sa + sb) = 0 := by
    simp (disch := omega) only [GET_NEXT_FREE, GET_PREV_FREE, GET_PUT_eq, GET_PUT_other, GET_SET_PTR_other, GET_PTR_PUT_other,
      GET_PTR_SET_PTR_other, GET_PTR_SET_PTR_eq]
    omega
  have hn : GET_NEXT_FREE (PUT (PUT s.mem (p0 + 12 + sa) sb) (p0 + 16 + sa + sb) sb) (p0 + 24 + sa + sb) = 0 := by
    simp (disch := omega) only [GET_NEXT_FREE, GET_PREV_FREE, GET_PUT_eq, GET_PUT_other, GET_SET_PTR_other, GET_PTR_PUT_other,
      GET_PTR_SET_PTR_other, GET_PTR_SET_PTR_eq]
    omega
  rw [mm_free_case2 s (p0 + 16 + sa) (p0 + 12 + sa) (p0 + 16 + sa + sb) (p0 + 8 + sa) (p0 + 20 + sa + sb) (p0 + 24 + sa + sb) (p0 + 24 + sa + sb + sc) sb (sc) (by omega) (by omega)
    (by omega) (by omega) (by omega) (by omega) (by rw [GET_SIZE_eq]; omega) (by omega) (by rw [GET_ALLOC_eq]; omega) (by rw [GET_ALLOC_eq]; omega) (by rw [GET_SIZE_eq]; omega) (by omega)]
  rw [delete_eq_only { s with mem := PUT (PUT s.mem (p0 + 12 + sa) sb) (p0 + 16 + sa + sb) sb } (p0 + 24 + sa + sb) hp hn]
  simp only
  rw [add_eq_nil _ _ rfl]
  simp only [arena3, arena_ab_c, arena_a_bc, arena_abc, free_list_is, links, List.headD, GET_ALLOC_eq,
    GET_SIZE_eq, GET_NEXT_FREE, GET_PREV_FREE]
  and_intros
  all_goals try simp (disch := omega) only [GET_PUT_eq, GET_PUT_other, GET_SET_PTR_other, GET_PTR_PUT_other,
      GET_PTR_SET_PTR_other, GET_PTR_SET_PTR_eq]
  all_goals omega

/-- Case 4: the middle block is released last; the free list was last block, first block. -/
theorem release_b_last_ca (s : Heap) (p0 sa sb sc : Nat) (hs : sizes_ok p0 sa sb sc)
    (h : arena3 s p0 sa sb sc 0 1 0 ∧ free_list_is s [p0 + 24 + sa + sb, p0 + 8]) :
    arena_abc (mm_free s (p0 + 16 + sa)) p0 sa sb sc := by
  obtain ⟨ha8, hb8, hc8, hsa, hsb, hsc, hsum, hmax⟩ := hs
  simp only [arena3, arena_ab_c, arena_a_bc, arena_abc, free_list_is, links, List.headD, GET_ALLOC_eq,
    GET_SIZE_eq, GET_NEXT_FREE, GET_PREV_FREE] at h
  have hp : GET_PREV_FREE (PUT (PUT (PUT (PUT s.mem (p0 + 12 + sa) sb) (p0 + 16 + sa + sb) sb) (p0 + 4) (sb + (sa) + (sc) + 16)) (p0 + 24 + sa + sb + sc) (sb + (sa) + (sc) + 16)) (p0 + 24 + sa + sb) = 0 := by
    simp (disch := omega) only [GET_NEXT_FREE, GET_PREV_FREE, GET_PUT_eq, GET_PUT_other, GET_SET_PTR_other, GET_PTR_PUT_other,
      GET_PTR_SET_PTR_other, GET_PTR_SET_PTR_eq]
    omega
  have hn : GET_NEXT_FREE (PUT (PUT (PUT (PUT s.mem (p0 + 12 + sa) sb) (p0 + 16 + sa + sb) sb) (p0 + 4) (sb + (sa) + (sc) + 16)) (p0 + 24 + sa + sb + sc) (sb + (sa) + (sc) + 16)) (p0 + 24 + sa + sb) = p0 + 8 := by
    simp (disch := omega) only [GET_NEXT_FREE, GET_PREV_FREE, GET_PUT_eq, GET_PUT_other, GET_SET_PTR_other, GET_PTR_PUT_other,
      GET_PTR_SET_PTR_other, GET_PTR_SET_PTR_eq]
    omega
  rw [mm_free_case4 s (p0 + 16 + sa) (p0 + 12 + sa) (p0 + 16 + sa + sb) (p0 + 8 + sa) (p0 + 20 + sa + sb) (p0 + 4) (p0 + 24 + sa + sb) (p0 + 24 + sa + sb + sc) sb (sa)
    (sc) (by omega) (by omega) (by omega) (by omega) (by omega) (by omega) (by omega) (by rw [GET_SIZE_eq]; omega) (by omega) (by rw [GET_ALLOC_eq]; omega) (by rw [GET_SIZE_eq]; omega) (by rw [GET_SIZE_eq]; omega) (by rw [GET_ALLOC_eq]; omega) (by rw [GET_SIZE_eq]; omega) (by omega)]
  rw [delete_eq_first { s with mem := PUT (PUT (PUT (PUT s.mem (p0 + 12 + sa) sb) (p0 + 16 + sa + sb) sb) (p0 + 4) (sb + (sa) + (sc) + 16)) (p0 + 24 + sa + sb + sc) (sb + (sa) + (sc) + 16) } (p0 + 24 + sa + sb) (p0 + 8) hp hn (by omega)]
  simp only [arena3, arena_ab_c, arena_a_bc, arena_abc, free_list_is, links, List.headD, GET_ALLOC_eq,
    GET_SIZE_eq, GET_NEXT_FREE, GET_PREV_FREE]
  and_intros
  all_goals try simp (disch := omega) only [GET_PUT_eq, GET_PUT_other, GET_SET_PTR_other, GET_PTR_PUT_other,
      GET_PTR_SET_PTR_other, GET_PTR_SET_PTR_eq]
  all_goals omega

/-- Case 4: the middle block is released last; the free list was first block, last block. -/
theorem release_b_last_ac (s : Heap) (p0 sa sb sc : Nat) (hs : sizes_ok p0 sa sb sc)
    (h : arena3 s p0 sa sb sc 0 1 0 ∧ free_list_is s [p0 + 8, p0 + 24 + sa + sb]) :
    arena_abc (mm_free s (p0 + 16 + sa)) p0 sa sb sc := by
  obtain ⟨ha8, hb8, hc8, hsa, hsb, hsc, hsum, hmax⟩ := hs
  simp only [arena3, arena_ab_c, arena_a_bc, arena_abc, free_list_is, links, List.headD, GET_ALLOC_eq,
    GET_SIZE_eq, GET_NEXT_FREE, GET_PREV_FREE] at h
  have hp : GET_PREV_FREE (PUT (PUT (PUT (PUT s.mem (p0 + 12 + sa) sb) (p0 + 16 + sa + sb) sb) (p0 + 4) (sb + (sa) + (sc) + 16)) (p0 + 24 + sa + sb + sc) (sb + (sa) + (sc) + 16)) (p0 + 24 + sa + sb) = p0 + 8 := by
    simp (disch := omega) only [GET_NEXT_FREE, GET_PREV_FREE, GET_PUT_eq, GET_PUT_other, GET_SET_PTR_other, GET_PTR_PUT_other,
      GET_PTR_SET_PTR_other, GET_PTR_SET_PTR_eq]
    omega
  have hn : GET_NEXT_FREE (PUT (PUT (PUT (PUT s.mem (p0 + 12 + sa) sb) (p0 + 16 + sa + sb) sb) (p0 + 4) (sb + (sa) + (sc) + 16)) (p0 + 24 + sa + sb + sc) (sb + (sa) + (sc) + 16)) (p0 + 24 + sa + sb) = 0 := by
    simp (disch := omega) only [GET_NEXT_FREE, GET_PREV_FREE, GET_PUT_eq, GET_PUT_other, GET_SET_PTR_other, GET_PTR_PUT_other,
      GET_PTR_SET_PTR_other, GET_PTR_SET_PTR_eq]
    omega
  rw [mm_free_case4 s (p0 + 16 + sa) (p0 + 12 + sa) (p0 + 16 + sa + sb) (p0 + 8 + sa) (p0 + 20 + sa + sb) (p0 + 4) (p0 + 24 + sa + sb) (p0 + 24 + sa + sb + sc) sb (sa)
    (sc) (by omega) (by omega) (by omega) (by omega) (by omega) (by omega) (by omega) (by rw [GET_SIZE_eq]; omega) (by omega) (by rw [GET_ALLOC_eq]; omega) (by rw [GET_SIZE_eq]; omega) (by rw [GET_SIZE_eq]; omega) (by rw [GET_ALLOC_eq]; omega) (by rw [GET_SIZE_eq]; omega) (by omega)]
  rw [delete_eq_last { s with mem := PUT (PUT (PUT (PUT s.mem (p0 + 12 + sa) sb) (p0 + 16 + sa + sb) sb) (p0 + 4) (sb + (sa) + (sc) + 16)) (p0 + 24 + sa + sb + sc) (sb + (sa) + (sc) + 16) } (p0 + 24 + sa + sb) (p0 + 8) hp hn (by omega)]
  simp only [arena3, arena_ab_c, arena_a_bc, arena_abc, free_list_is, links, List.headD, GET_ALLOC_eq,
    GET_SIZE_eq, GET_NEXT_FREE, GET_PREV_FREE]
  and_intros
  all_goals try simp (disch := omega) only [GET_PUT_eq, GET_PUT_other, GET_SET_PTR_other, GET_PTR_PUT_other,
      GET_PTR_SET_PTR_other, GET_PTR_SET_PTR_eq]
  all_goals omega

/-- Case 3: the last block is released after the first two have merged. -/
theorem release_c_last (s : Heap) (p0 sa sb sc : Nat) (hs : sizes_ok p0 sa sb sc)
    (h : arena_ab_c s p0 sa sb sc ∧ free_list_is s [p0 + 8]) :
    arena_abc (mm_free s (p0 + 24 + sa + sb)) p0 sa sb sc := by
  obtain ⟨ha8, hb8, hc8, hsa, hsb, hsc, hsum, hmax⟩ := hs
  simp only [arena3, arena_ab_c, arena_a_bc, arena_abc, free_list_is, links, List.headD, GET_ALLOC_eq,
    GET_SIZE_eq, GET_NEXT_FREE, GET_PREV_FREE] at h
  rw [mm_free_case3 s (p0 + 24 + sa + sb) (p0 + 20 + sa + sb) (p0 + 24 + sa + sb + sc) (p0 + 16 + sa + sb) (p0 + 28 + sa + sb + sc) (p0 + 4) sc (sa + sb + 8) (by omega) (by omega) (by omega)
    (by omega) (by omega) (by rw [GET_SIZE_eq]; omega) (by omega) (by rw [GET_ALLOC_eq]; omega) (by rw [GET_SIZE_eq]; omega) (by rw [GET_SIZE_eq]; omega) (by rw [GET_ALLOC_eq]; omega) (by omega)]
  simp only [arena3, arena_ab_c, arena_a_bc, arena_abc, free_list_is, links, List.headD, GET_ALLOC_eq,
    GET_SIZE_eq, GET_NEXT_FREE, GET_PREV_FREE]
  and_intros
  all_goals try simp (disch := omega) only [GET_PUT_eq, GET_PUT_other, GET_SET_PTR_other, GET_PTR_PUT_other,
      GET_PTR_SET_PTR_other, GET_PTR_SET_PTR_eq]
  all_goals omega

/-- Case 2: the first block is released after the last two have merged. -/
theorem release_a_last (s : Heap) (p0 sa sb sc : Nat) (hs : sizes_ok p0 sa sb sc)
    (h : arena_a_bc s p0 sa sb sc ∧ free_list_is s [p0 + 16 + sa]) :
    arena_abc (mm_free s (p0 + 8)) p0 sa sb sc := by
  obtain ⟨ha8, hb8, hc8, hsa, hsb, hsc, hsum, hmax⟩ := hs
  simp only [arena3, arena_ab_c, arena_a_bc, arena_abc, free_list_is, links, List.headD, GET_ALLOC_eq,
    GET_SIZE_eq, GET_NEXT_FREE, GET_PREV_FREE] at h
  have hp : GET_PREV_FREE (PUT (PUT s.mem (p0 + 4) sa) (p0 + 8 + sa) sa) (p0 + 16 + sa) = 0 := by
    simp (disch := omega) only [GET_NEXT_FREE, GET_PREV_FREE, GET_PUT_eq, GET_PUT_other, GET_SET_PTR_other, GET_PTR_PUT_other,
      GET_PTR_SET_PTR_other, GET_PTR_SET_PTR_eq]
    omega
  have hn : GET_NEXT_FREE (PUT (PUT s.mem (p0 + 4) sa) (p0 + 8 + sa) sa) (p0 + 16 + sa) = 0 := by
    simp (disch := omega) only [GET_NEXT_FREE, GET_PREV_FREE, GET_PUT_eq, GET_PUT_other, GET_SET_PTR_other, GET_PTR_PUT_other,
      GET_PTR_SET_PTR_other, GET_PTR_SET_PTR_eq]
    omega
  rw [mm_free_case2 s (p0 + 8) (p0 + 4) (p0 + 8 + sa) (p0) (p0 + 12 + sa) (p0 + 16 + sa) (p0 + 24 + sa + sb + sc) sa (sb + sc + 8) (by omega) (by omega)
    (by omega) (by omega) (by omega) (by omega) (by rw [GET_SIZE_eq]; omega) (by omega) (by rw [GET_ALLOC_eq]; omega) (by rw [GET_ALLOC_eq]; omega) (by rw [GET_SIZE_eq]; omega) (by omega)]
  rw [delete_eq_only { s with mem := PUT (PUT s.mem (p0 + 4) sa) (p0 + 8 + sa) sa } (p0 + 16 + sa) hp hn]
  simp only
  rw [add_eq_nil _ _ rfl]
  simp only [arena3, arena_ab_c, arena_a_bc, arena_abc, free_list_is, links, List.headD, GET_ALLOC_eq,
    GET_SIZE_eq, GET_NEXT_FREE, GET_PREV_FREE]
  and_intros
  all_goals try simp (disch := omega) only [GET_PUT_eq, GET_PUT_other, GET_SET_PTR_other, GET_PTR_PUT_other,
      GET_PTR_SET_PTR_other, GET_PTR_SET_PTR_eq]
  all_goals omega

theorem adjusted_size_ge (size : Nat) (h : size ≤ 4294967280) :
    32 ≤ adjusted_size size ∧ size ≤ adjusted_size size ∧ adjusted_size size ≤ 4294967280 := by
  rw [adjusted_size_in_range size (by omega)]
  split <;> omega

/-- After `mm_init` and three allocations that the arena can hold, the three
blocks are adjacent, allocated, and the free list is empty. -/
theorem init_and_three_spec (s0 : Heap) (n1 n2 n3 : Nat)
    (h1 : 0 < n1 ∧ n1 ≤ 4294967280) (h2 : 0 < n2 ∧ n2 ≤ 4294967280)
    (h3 : 0 < n3 ∧ n3 ≤ 4294967280)
    (hcap : s0.brk + 8 + (adjusted_size n1 + 8) + (adjusted_size n2 + 8)
      + (adjusted_size n3 + 8) ≤ s0.max_addr) :
    (init_and_three s0 n1 n2 n3).1 = s0.brk + 8 ∧
    (init_and_three s0 n1 n2 n3).2.1 = s0.brk + 16 + adjusted_size n1 ∧
    (init_and_three s0 n1 n2 n3).2.2.1 = s0.brk + 24 + adjusted_size n1 + adjusted_size n2 ∧
    arena3 (init_and_three s0 n1 n2 n3).2.2.2 s0.brk (adjusted_size n1) (adjusted_size n2)
      (adjusted_size n3) 1 1 1 ∧
    free_list_is (init_and_three s0 n1 n2 n3).2.2.2 [] := by
  have g1 := adjusted_size_ge n1 h1.2
  have g2 := adjusted_size_ge n2 h2.2
  have g3 := adjusted_size_ge n3 h3.2
  have m1 := adjusted_size_mod8 n1
  have m2 := adjusted_size_mod8 n2
  have m3 := adjusted_size_mod8 n3
  unfold init_and_three
  simp only
  rw [mm_init_closed s0 (by omega)]
  rw [mm_malloc_grow_closed _ n1 (s0.brk + 4) h1.1 h1.2 (find_fit_nil _ _ rfl)
    (by simp only []) (by simp only []; omega)]
  simp only
  rw [mm_malloc_grow_closed _ n2 (s0.brk + 12 + adjusted_size n1) h2.1 h2.2
    (find_fit_nil _ _ rfl) (by simp only []; omega) (by simp only []; omega)]
  simp only
  rw [mm_malloc_grow_closed _ n3 (s0.brk + 20 + adjusted_size n1 + adjusted_size n2) h3.1 h3.2
    (find_fit_nil _ _ rfl) (by simp only []; omega) (by simp only []; omega)]
  simp only [arena3, free_list_is, links, List.headD, GET_ALLOC_eq]
  generalize adjusted_size n1 = sa at *
  generalize adjusted_size n2 = sb at *
  generalize adjusted_size n3 = sc at *
  and_intros
  all_goals try simp (disch := omega) only [GET_PUT_eq, GET_PUT_other]
  all_goals omega
theorem arena_abc_merged (s : Heap) (p0 sa sb sc : Nat) (hs : sizes_ok p0 sa sb sc)
    (h : arena_abc s p0 sa sb sc) : one_merged_block s (p0 + 8) sa sb sc := by
  obtain ⟨ha8, hb8, hc8, hsa, hsb, hsc, hsum, hmax⟩ := hs
  obtain ⟨⟨hfl, hprev, hnext, _⟩, hh, hf⟩ := h
  simp only [List.headD] at hfl hnext
  have hd : HDRP (p0 + 8) = p0 + 4 := by unfold HDRP; omega
  have hF : FTRP s.mem (p0 + 8) = p0 + 24 + sa + sb + sc := by
    unfold FTRP
    rw [hd, GET_SIZE_eq, hh]
    omega
  refine ⟨?_, ?_, ?_⟩
  · rw [hfl]
    unfold free_nodes
    rw [if_neg (by omega), hnext]
    unfold free_nodes
    simp
  · rw [hd, hh, PACK_free]
  · rw [hF, hf, PACK_free]

/-- Releasing three adjacent allocated blocks, in any of the six orders,
leaves one merged free block: stated for any state with three adjacent
allocated blocks `a = p0 + 8`, `b = p0 + 16 + sa`, `c = p0 + 24 + sa + sb`
of sizes `sa`, `sb`, `sc` and an empty free list. -/
theorem three_releases_merge (s : Heap) (p0 sa sb sc : Nat) (hs : sizes_ok p0 sa sb sc)
    (h : arena3 s p0 sa sb sc 1 1 1 ∧ free_list_is s []) :
    one_merged_block (mm_free (mm_free (mm_free s (p0 + 8)) (p0 + 16 + sa))
      (p0 + 24 + sa + sb)) (p0 + 8) sa sb sc ∧
    one_merged_block (mm_free (mm_free (mm_free s (p0 + 8)) (p0 + 24 + sa + sb))
      (p0 + 16 + sa)) (p0 + 8) sa sb sc ∧
    one_merged_block (mm_free (mm_free (mm_free s (p0 + 16 + sa)) (p0 + 8))
      (p0 + 24 + sa + sb)) (p0 + 8) sa sb sc ∧
    one_merged_block (mm_free (mm_free (mm_free s (p0 + 16 + sa)) (p0 + 24 + sa + sb))
      (p0 + 8)) (p0 + 8) sa sb sc ∧
    one_merged_block (mm_free (mm_free (mm_free s (p0 + 24 + sa + sb)) (p0 + 8))
      (p0 + 16 + sa)) (p0 + 8) sa sb sc ∧
    one_merged_block (mm_free (mm_free (mm_free s (p0 + 24 + sa + sb)) (p0 + 16 + sa))
      (p0 + 8)) (p0 + 8) sa sb sc := by
  have fa := release_first_a s p0 sa sb sc hs h
  have fb := release_first_b s p0 sa sb sc hs h
  have fc := release_first_c s p0 sa sb sc hs h
  refine ⟨?_, ?_, ?_, ?_, ?_, ?_⟩
  · exact arena_abc_merged _ p0 sa sb sc hs
      (release_c_last _ p0 sa sb sc hs (release_b_after_a _ p0 sa sb sc hs fa))
  · exact arena_abc_merged _ p0 sa sb sc hs
      (release_b_last_ca _ p0 sa sb sc hs (release_c_after_a _ p0 sa sb sc hs fa))
  · exact arena_abc_merged _ p0 sa sb sc hs
      (release_c_last _ p0 sa sb sc hs (release_a_after_b _ p0 sa sb sc hs fb))
  · exact arena_abc_merged _ p0 sa sb sc hs
      (release_a_last _ p0 sa sb sc hs (release_c_after_b _ p0 sa sb sc hs fb))
  · exact arena_abc_merged _ p0 sa sb sc hs
      (release_b_last_ac _ p0 sa sb sc hs (release_a_after_c _ p0 sa sb sc hs fc))
  · exact arena_abc_merged _ p0 sa sb sc hs
      (release_a_last _ p0 sa sb sc hs (release_b_after_c _ p0 sa sb sc hs fc))

/-- Within the range where no size is truncated, releasing the three blocks
allocated right after `mm_init`, in any of the six orders, leaves exactly one
free-list entry, at the first block's address, whose header and footer encode
the three sizes plus 16, free. -/
theorem three_releases_in_range (s0 : Heap) (n1 n2 n3 : Nat)
    (h1 : 0 < n1 ∧ n1 ≤ 4294967280) (h2 : 0 < n2 ∧ n2 ≤ 4294967280)
    (h3 : 0 < n3 ∧ n3 ≤ 4294967280)
    (hsum : adjusted_size n1 + adjusted_size n2 + adjusted_size n3 + 16 < 4294967296)
    (hcap : s0.brk + 8 + (adjusted_size n1 + 8) + (adjusted_size n2 + 8)
      + (adjusted_size n3 + 8) ≤ s0.max_addr)
    (hmax : s0.max_addr ≤ 18446744073709551616)
    (a b c : Nat) (s : Heap) (hrun : init_and_three s0 n1 n2 n3 = (a, b, c, s)) :
    s.free_list = 0 ∧
    b = a + adjusted_size n1 + 8 ∧ c = b + adjusted_size n2 + 8 ∧
    GET s.mem (HDRP a) = PACK (adjusted_size n1) 1 ∧
    GET s.mem (HDRP b) = PACK (adjusted_size n2) 1 ∧
    GET s.mem (HDRP c) = PACK (adjusted_size n3) 1 ∧
    one_merged_block (mm_free (mm_free (mm_free s a) b) c) a
      (adjusted_size n1) (adjusted_size n2) (adjusted_size n3) ∧
    one_merged_block (mm_free (mm_free (mm_free s a) c) b) a
      (adjusted_size n1) (adjusted_size n2) (adjusted_size n3) ∧
    one_merged_block (mm_free (mm_free (mm_free s b) a) c) a
      (adjusted_size n1) (adjusted_size n2) (adjusted_size n3) ∧
    one_merged_block (mm_free (mm_free (mm_free s b) c) a) a
      (adjusted_size n1) (adjusted_size n2) (adjusted_size n3) ∧
    one_merged_block (mm_free (mm_free (mm_free s c) a) b) a
      (adjusted_size n1) (adjusted_size n2) (adjusted_size n3) ∧
    one_merged_block (mm_free (mm_free (mm_free s c) b) a) a
      (adjusted_size n1) (adjusted_size n2) (adjusted_size n3) := by
  obtain ⟨ea, eb, ec, har, hfl⟩ := init_and_three_spec s0 n1 n2 n3 h1 h2 h3 hcap
  rw [hrun] at ea eb ec har hfl
  simp only at ea eb ec har hfl
  subst ea eb ec
  have g1 := adjusted_size_ge n1 h1.2
  have g2 := adjusted_size_ge n2 h2.2
  have g3 := adjusted_size_ge n3 h3.2
  have hs : sizes_ok s0.brk (adjusted_size n1) (adjusted_size n2) (adjusted_size n3) :=
    ⟨adjusted_size_mod8 n1, adjusted_size_mod8 n2, adjusted_size_mod8 n3, by omega, by omega,
      by omega, hsum, by omega⟩
  have key := three_releases_merge s s0.brk _ _ _ hs ⟨har, hfl⟩
  have hd : ∀ x, HDRP x = x - 4 := fun _ => rfl
  obtain ⟨_, hha, _, hhb, _, hhc, _, _⟩ := har
  refine ⟨hfl.1, by omega, by omega, ?_, ?_, ?_, key⟩
  · rw [hd, PACK_alloc _ (adjusted_size_mod8 n1), ← hha,
      show s0.brk + 8 - 4 = s0.brk + 4 by omega]
  · rw [hd, PACK_alloc _ (adjusted_size_mod8 n2), ← hhb,
      show s0.brk + 16 + adjusted_size n1 - 4 = s0.brk + 12 + adjusted_size n1 by omega]
  · rw [hd, PACK_alloc _ (adjusted_size_mod8 n3), ← hhc,
      show s0.brk + 24 + adjusted_size n1 + adjusted_size n2 - 4
        = s0.brk + 20 + adjusted_size n1 + adjusted_size n2 by omega]

/-- Witness for `three_releases_in_range`: requests of 1, 100 and 40 bytes on
the 1 MiB arena. -/
theorem three_releases_in_range_witness :
    one_merged_block (mm_free (mm_free (mm_free (init_and_three (fresh 4096 1048576) 1 100 40).2.2.2
      4144) 4104) 4256) 4104 32 104 40 :=
  (three_releases_in_range (fresh 4096 1048576) 1 100 40 (by decide) (by decide) (by decide)
    (by decide) (by decide) (by decide) 4104 4144 4256
    (init_and_three (fresh 4096 1048576) 1 100 40).2.2.2 rfl).2.2.2.2.2.2.2.2.1

/-! ## The free list as a doubly linked sequence -/

theorem links_frame (m m' : Mem) : ∀ (F : List Nat) (prev nxt : Nat),
    (∀ x ∈ F, ∀ a, x ≤ a → a < x + 16 → m' a = m a) →
    links m prev F nxt → links m' prev F nxt := by
  intro F
  induction F with
  | nil => intro prev nxt _ _; trivial
  | cons x xs ih =>
    intro prev nxt hfr h
    obtain ⟨h1, h2, h3⟩ := h
    refine ⟨?_, ?_, ih x nxt (fun y hy => hfr y (List.mem_cons_of_mem _ hy)) h3⟩
    · rw [← h1]
      unfold GET_PREV_FREE
      apply GET_PTR_congr
      intro a ha1 ha2
      exact hfr x (List.mem_cons_self _ _) a ha1 (by omega)
    · rw [← h2]
      unfold GET_NEXT_FREE
      apply GET_PTR_congr
      intro a ha1 ha2
      exact hfr x (List.mem_cons_self _ _) a (by omega) (by omega)

theorem links_append (m : Mem) : ∀ (F1 F2 : List Nat) (prev nxt : Nat),
    links m prev (F1 ++ F2) nxt ↔
      links m prev F1 (F2.headD nxt) ∧ links m (F1.getLastD prev) F2 nxt := by
  intro F1
  induction F1 with
  | nil =>
    intro F2 prev nxt
    simp [links]
  | cons x xs ih =>
    intro F2 prev nxt
    have e : (xs ++ F2).headD nxt = xs.headD (F2.headD nxt) := by
      cases xs <;> simp
    have key := ih F2 x nxt
    show (GET_PREV_FREE m x = prev ∧ GET_NEXT_FREE m x = (xs ++ F2).headD nxt ∧
        links m x (xs ++ F2) nxt) ↔
      (GET_PREV_FREE m x = prev ∧ GET_NEXT_FREE m x = xs.headD (F2.headD nxt) ∧
        links m x xs (F2.headD nxt)) ∧ links m ((x :: xs).getLastD prev) F2 nxt
    rw [e, key, List.getLastD_cons]
    tauto

theorem free_nodes_of_links (m : Mem) : ∀ (F : List Nat) (prev : Nat) (fuel : Nat),
    links m prev F 0 → (∀ x ∈ F, x ≠ 0) → F.length < fuel →
    free_nodes m fuel (F.headD 0) = F := by
  intro F
  induction F with
  | nil =>
    intro prev fuel _ _ hlen
    cases fuel with
    | zero => simp at hlen
    | succ n => simp [free_nodes]
  | cons x xs ih =>
    intro prev fuel h hne hlen
    obtain ⟨_, h2, h3⟩ := h
    cases fuel with
    | zero => simp at hlen
    | succ n =>
      simp only [List.headD_cons, free_nodes]
      rw [if_neg (hne x (List.mem_cons_self _ _)), h2,
        ih x n h3 (fun y hy => hne y (List.mem_cons_of_mem _ hy))
          (by simp only [List.length_cons] at hlen; omega)]

theorem GET_PTR_SET_PTR_next (m : Mem) (p v : Nat) :
    GET_PTR (SET_PTR m p v) (p + 8) = GET_PTR m (p + 8) :=
  GET_PTR_SET_PTR_other m p v (p + 8) (Or.inr (Nat.le_refl _))

/-- `add` prepends: on a free list `F` whose nodes, together with `bp`, do not
overlap, it yields the free list `bp :: F`, and it writes only the two
references of `bp` and the previous reference of the former root. -/
theorem add_spec (s : Heap) (bp : Nat) (F : List Nat) (h : free_list_is s F)
    (hok : nodes_ok (bp :: F)) :
    free_list_is (add s bp) (bp :: F) ∧
    (add s bp).free_list = bp ∧
    GET_PREV_FREE (add s bp).mem bp = 0 ∧
    GET_NEXT_FREE (add s bp).mem bp = s.free_list ∧
    (s.free_list ≠ 0 → GET_PREV_FREE (add s bp).mem s.free_list = bp) ∧
    (∀ a, (a < bp ∨ bp + 16 ≤ a) → (s.free_list = 0 ∨ a < s.free_list ∨ s.free_list + 8 ≤ a) →
      (add s bp).mem a = s.mem a) ∧
    (add s bp).brk = s.brk ∧ (add s bp).heap_lo = s.heap_lo ∧
    (add s bp).max_addr = s.max_addr := by
  obtain ⟨hfl, hl⟩ := h
  obtain ⟨hne, hpw⟩ := hok
  have hbp := hne bp (List.mem_cons_self _ _)
  cases F with
  | nil =>
    simp only [List.headD_nil] at hfl
    rw [add_eq_nil s bp hfl]
    have e1 : GET_PREV_FREE (SET_PTR (SET_PTR s.mem (bp + 8) 0) bp 0) bp = 0 := by
      unfold GET_PREV_FREE
      exact GET_PTR_SET_PTR_same _ _ _ (by omega)
    have e2 : GET_NEXT_FREE (SET_PTR (SET_PTR s.mem (bp + 8) 0) bp 0) bp = 0 := by
      unfold GET_NEXT_FREE
      rw [GET_PTR_SET_PTR_next]
      exact GET_PTR_SET_PTR_same _ _ _ (by omega)
    refine ⟨⟨rfl, e1, e2, trivial⟩, rfl, e1, by rw [e2, hfl], fun hc => absurd hfl hc, ?_,
      rfl, rfl, rfl⟩
    intro a ha _
    show SET_PTR (SET_PTR s.mem (bp + 8) 0) bp 0 a = s.mem a
    rw [SET_PTR_frame _ _ _ _ (by omega), SET_PTR_frame _ _ _ _ (by omega)]
  | cons y ys =>
    simp only [List.headD_cons] at hfl
    obtain ⟨hy1, hy2, hy3⟩ := hl
    have hy := hne y (List.mem_cons_of_mem _ (List.mem_cons_self _ _))
    rw [List.pairwise_cons] at hpw
    obtain ⟨hbpF, hpwF⟩ := hpw
    rw [List.pairwise_cons] at hpwF
    have hsep := hbpF y (List.mem_cons_self _ _)
    have hfl0 : s.free_list ≠ 0 := by rw [hfl]; exact hy.1
    rw [add_eq_cons s bp hfl0, hfl]
    have e1 : GET_PREV_FREE (SET_PTR (SET_PTR (SET_PTR s.mem (bp + 8) y) bp 0) y bp) bp = 0 := by
      unfold GET_PREV_FREE
      rw [GET_PTR_SET_PTR_other _ _ _ _ (by omega)]
      exact GET_PTR_SET_PTR_same _ _ _ (by omega)
    have e2 : GET_NEXT_FREE (SET_PTR (SET_PTR (SET_PTR s.mem (bp + 8) y) bp 0) y bp) bp = y := by
      unfold GET_NEXT_FREE
      rw [GET_PTR_SET_PTR_other _ _ _ _ (by omega), GET_PTR_SET_PTR_next]
      exact GET_PTR_SET_PTR_same _ _ _ (by omega)
    have e3 : GET_PREV_FREE (SET_PTR (SET_PTR (SET_PTR s.mem (bp + 8) y) bp 0) y bp) y = bp := by
      unfold GET_PREV_FREE
      exact GET_PTR_SET_PTR_same _ _ _ (by omega)
    have e4 : GET_NEXT_FREE (SET_PTR (SET_PTR (SET_PTR s.mem (bp + 8) y) bp 0) y bp) y
        = GET_NEXT_FREE s.mem y := by
      unfold GET_NEXT_FREE
      rw [GET_PTR_SET_PTR_next, GET_PTR_SET_PTR_other _ _ _ _ (by omega),
        GET_PTR_SET_PTR_other _ _ _ _ (by omega)]
    have hfr : ∀ a, (a < bp ∨ bp + 16 ≤ a) → (a < y ∨ y + 8 ≤ a) →
        SET_PTR (SET_PTR (SET_PTR s.mem (bp + 8) y) bp 0) y bp a = s.mem a := by
      intro a ha1 ha2
      rw [SET_PTR_frame _ _ _ _ (by omega), SET_PTR_frame _ _ _ _ (by omega),
        SET_PTR_frame _ _ _ _ (by omega)]
    refine ⟨⟨rfl, e1, e2, e3, ?_, ?_⟩, rfl, e1, e2, fun _ => e3, ?_, rfl, rfl, rfl⟩
    · rw [e4, hy2]
    · apply links_frame s.mem _ ys y 0 _ hy3
      intro z hz a ha1 ha2
      have h1 := hbpF z (List.mem_cons_of_mem _ hz)
      have h2 := hpwF.1 z hz
      exact hfr a (by omega) (by omega)
    · intro a ha1 ha2
      exact hfr a ha1 (by omega)

/-- `delete` unlinks exactly the given node: on a free list `F1 ++ x :: F2`
whose nodes do not overlap it yields the free list `F1 ++ F2`, and it writes
only the next reference of the node before `x` and the previous reference of
the node after `x`. -/
theorem delete_spec (s : Heap) (x : Nat) (F1 F2 : List Nat)
    (h : free_list_is s (F1 ++ x :: F2)) (hok : nodes_ok (F1 ++ x :: F2)) :
    free_list_is (delete s x) (F1 ++ F2) ∧
    (∀ a, (F1 = [] ∨ a < F1.getLastD 0 + 8 ∨ F1.getLastD 0 + 16 ≤ a) →
      (F2 = [] ∨ a < F2.headD 0 ∨ F2.headD 0 + 8 ≤ a) → (delete s x).mem a = s.mem a) ∧
    (delete s x).brk = s.brk ∧ (delete s x).heap_lo = s.heap_lo ∧
    (delete s x).max_addr = s.max_addr := by
  obtain ⟨hfl, hl⟩ := h
  obtain ⟨hne, hpw⟩ := hok
  rw [links_append] at hl
  obtain ⟨hl1, hxp, hxn, hl2⟩ := hl
  simp only [List.headD_cons] at hl1
  rw [List.pairwise_append, List.pairwise_cons] at hpw
  obtain ⟨hp1, ⟨hxF2, hp2⟩, hcross⟩ := hpw
  rcases List.eq_nil_or_concat F1 with hF1 | ⟨G, l, hF1⟩
  · subst hF1
    simp only [List.nil_append, List.headD_cons, List.getLastD_nil] at hfl hxp ⊢
    cases F2 with
    | nil =>
      simp only [List.headD_nil] at hxn
      rw [delete_eq_only s x hxp hxn]
      exact ⟨⟨rfl, trivial⟩, fun _ _ _ => rfl, rfl, rfl, rfl⟩
    | cons y ys =>
      simp only [List.headD_cons] at hxn
      have hy := hne y (by simp)
      obtain ⟨hy1, hy2, hy3⟩ := hl2
      rw [List.pairwise_cons] at hp2
      rw [delete_eq_first s x y hxp hxn hy.1]
      refine ⟨⟨rfl, ?_, ?_, ?_⟩, ?_, rfl, rfl, rfl⟩
      · unfold GET_PREV_FREE
        exact GET_PTR_SET_PTR_same _ _ _ (by omega)
      · rw [← hy2]
        unfold GET_NEXT_FREE
        exact GET_PTR_SET_PTR_next _ _ _
      · apply links_frame s.mem _ ys y 0 _ hy3
        intro z hz a ha1 ha2
        have h2 := hp2.1 z hz
        exact SET_PTR_frame _ _ _ _ (by omega)
      · intro a _ ha
        simp only [List.headD_cons] at ha
        exact SET_PTR_frame _ _ _ _ (by
          rcases ha with ha | ha
          · exact absurd ha (by simp)
          · omega)
  · rw [List.concat_eq_append] at hF1
    subst hF1
    have hlne := hne l (by simp)
    have hlx : GET_PREV_FREE s.mem x = l := by
      rw [hxp]
      simp
    rw [links_append] at hl1
    obtain ⟨hG, hlp, hln, _⟩ := hl1
    simp only [List.headD_cons, List.headD_nil] at hG hln
    rw [List.pairwise_append] at hp1
    obtain ⟨hpG, _, hGl⟩ := hp1
    have hroot : (G ++ [l] ++ x :: F2).headD 0 = (G ++ [l] ++ F2).headD 0 := by
      cases G <;> simp
    have hlast : (G ++ [l]).getLastD 0 = l := by simp
    cases F2 with
    | nil =>
      simp only [List.headD_nil] at hxn
      rw [delete_eq_last s x l hlx hxn hlne.1]
      refine ⟨⟨by rw [← hroot]; exact hfl, ?_⟩, ?_, rfl, rfl, rfl⟩
      · rw [List.append_nil, links_append]
        refine ⟨?_, ?_, ?_, trivial⟩
        · apply links_frame s.mem _ G 0 _ _ hG
          intro z hz a ha1 ha2
          have h1 := hGl z hz l (by simp)
          exact SET_PTR_frame _ _ _ _ (by omega)
        · rw [← hlp]
          unfold GET_PREV_FREE
          exact GET_PTR_SET_PTR_other _ _ _ _ (by omega)
        · unfold GET_NEXT_FREE
          exact GET_PTR_SET_PTR_same _ _ _ (by omega)
      · intro a ha _
        rw [hlast] at ha
        exact SET_PTR_frame _ _ _ _ (by
          rcases ha with ha | ha
          · exact absurd ha (by simp)
          · omega)
    | cons y ys =>
      simp only [List.headD_cons] at hxn
      have hy := hne y (by simp)
      obtain ⟨hy1, hy2, hy3⟩ := hl2
      rw [List.pairwise_cons] at hp2
      have hly := hcross l (by simp) y (by simp)
      rw [delete_eq_inner s x l y hlx hxn hlne.1 hy.1]
      refine ⟨⟨by rw [← hroot]; exact hfl, ?_⟩, ?_, rfl, rfl, rfl⟩
      · rw [links_append]
        refine ⟨?_, ?_, ?_, ?_⟩
        · rw [links_append]
          refine ⟨?_, ?_, ?_, trivial⟩
          · apply links_frame s.mem _ G 0 _ _ hG
            intro z hz a ha1 ha2
            have h1 := hGl z hz l (by simp)
            have h2 := hcross z (by simp [hz]) y (by simp)
            show SET_PTR (SET_PTR s.mem (l + 8) y) y l a = s.mem a
            rw [SET_PTR_frame _ _ _ _ (by omega), SET_PTR_frame _ _ _ _ (by omega)]
          · rw [← hlp]
            unfold GET_PREV_FREE
            rw [GET_PTR_SET_PTR_other _ _ _ _ (by omega),
              GET_PTR_SET_PTR_other _ _ _ _ (by omega)]
          · simp only [List.headD_cons]
            unfold GET_NEXT_FREE
            rw [GET_PTR_SET_PTR_other _ _ _ _ (by omega)]
            exact GET_PTR_SET_PTR_same _ _ _ (by omega)
        · rw [hlast]
          unfold GET_PREV_FREE
          exact GET_PTR_SET_PTR_same _ _ _ (by omega)
        · rw [← hy2]
          unfold GET_NEXT_FREE
          rw [GET_PTR_SET_PTR_next, GET_PTR_SET_PTR_other _ _ _ _ (by omega)]
        · apply links_frame s.mem _ ys y 0 _ hy3
          intro z hz a ha1 ha2
          have h1 := hp2.1 z hz
          have h2 := hcross l (by simp) z (by simp [hz])
          show SET_PTR (SET_PTR s.mem (l + 8) y) y l a = s.mem a
          rw [SET_PTR_frame _ _ _ _ (by omega), SET_PTR_frame _ _ _ _ (by omega)]
      · intro a ha1 ha2
        rw [hlast] at ha1
        simp only [List.headD_cons] at ha2
        show SET_PTR (SET_PTR s.mem (l + 8) y) y l a = s.mem a
        rw [SET_PTR_frame _ _ _ _ (by
          rcases ha2 with ha2 | ha2
          · exact absurd ha2 (by simp)
          · omega), SET_PTR_frame _ _ _ _ (by
          rcases ha1 with ha1 | ha1
          · exact absurd ha1 (by simp)
          · omega)]

/-! ## Whole-block allocation and reuse -/

theorem delete_fields (s : Heap) (bp : Nat) :
    (delete s bp).brk = s.brk ∧ (delete s bp).heap_lo = s.heap_lo ∧
    (delete s bp).max_addr = s.max_addr := by
  unfold delete
  simp only
  split <;> split <;> exact ⟨rfl, rfl, rfl⟩

/-- The whole-block path of `place` in closed form, for a block smaller than
2 GiB. -/
theorem place_whole_eq (s : Heap) (bp asize : Nat) (ha : asize < 4294967296)
    (hb : GET_SIZE s.mem (HDRP bp) < asize + 32)
    (hint : GET_SIZE s.mem (HDRP bp) < 2147483648) :
    place s bp asize = (bp, { delete s bp with
      mem := PUT (PUT (delete s bp).mem (bp - 4) (GET_SIZE s.mem (HDRP bp) + 1))
        (bp + GET_SIZE s.mem (HDRP bp)) (GET_SIZE s.mem (HDRP bp) + 1) }) := by
  have hb8 := GET_SIZE_mod8 s.mem (HDRP bp)
  unfold place
  simp only []
  generalize GET_SIZE s.mem (HDRP bp) = b at hb hint hb8 ⊢
  have hcond : ¬ (asize + 32) % 18446744073709551616 ≤ int_to_size_t b := by
    unfold int_to_size_t
    rw [if_pos hint]
    omega
  simp only [hcond, if_false, PACK_alloc _ hb8]
  have hd : HDRP bp = bp - 4 := rfl
  have e1 : FTRP (PUT (delete s bp).mem (HDRP bp) (b + 1)) bp = bp + b := by
    apply FTRP_eq
    exact GET_SIZE_PUT_same_alloc _ _ _ hb8 (by omega)
  rw [e1, hd]

/-- Supporting C9: for a chosen block smaller than 2 GiB with
`b < asize + 32`, `place` returns `bp` itself, header and footer both encode
`(b, allocated)`, and the free list loses exactly `bp`, the other members
keeping their order. -/
theorem place_whole_spec (s : Heap) (bp asize : Nat) (F1 F2 : List Nat) (h4 : 4 ≤ bp)
    (h8 : asize % 8 = 0) (hfit : asize < GET_SIZE s.mem (HDRP bp))
    (hb : GET_SIZE s.mem (HDRP bp) < asize + 32)
    (hint : GET_SIZE s.mem (HDRP bp) < 2147483648)
    (hlist : free_list_is s (F1 ++ bp :: F2)) (hok : nodes_ok (F1 ++ bp :: F2))
    (hout : ∀ x ∈ F1 ++ F2,
      x + 16 ≤ HDRP bp ∨ FTRP s.mem bp + 4 ≤ x) :
    (place s bp asize).1 = bp ∧
    GET (place s bp asize).2.mem (HDRP bp) = PACK (GET_SIZE s.mem (HDRP bp)) 1 ∧
    GET (place s bp asize).2.mem (FTRP (place s bp asize).2.mem bp)
      = PACK (GET_SIZE s.mem (HDRP bp)) 1 ∧
    free_list_is (place s bp asize).2 (F1 ++ F2) ∧
    GET_SIZE s.mem (HDRP bp) - asize ≤ 24 ∧
    (place s bp asize).2.brk = s.brk := by
  have hb8 := GET_SIZE_mod8 s.mem (HDRP bp)
  have hblt := GET_SIZE_lt s.mem (HDRP bp)
  obtain ⟨hdl, hdfr, hdbrk, _, _⟩ := delete_spec s bp F1 F2 hlist hok
  rw [place_whole_eq s bp asize (by omega) hb hint]
  have hd : HDRP bp = bp - 4 := rfl
  have hF : FTRP s.mem bp = bp + GET_SIZE s.mem (HDRP bp) := rfl
  rw [hd, hF] at hout
  rw [PACK_alloc _ hb8]
  generalize GET_SIZE s.mem (HDRP bp) = b at *
  simp only
  have hh : GET (PUT (PUT (delete s bp).mem (bp - 4) (b + 1)) (bp + b) (b + 1)) (bp - 4)
      = b + 1 := by
    rw [GET_PUT_other _ _ _ _ (by omega), GET_PUT_same, Nat.mod_eq_of_lt (by omega)]
  have hFT : FTRP (PUT (PUT (delete s bp).mem (bp - 4) (b + 1)) (bp + b) (b + 1)) bp
      = bp + b := by
    apply FTRP_eq
    rw [GET_SIZE_eq, hd, hh]
    omega
  refine ⟨trivial, ?_, ?_, ⟨hdl.1, ?_⟩, by omega, hdbrk⟩
  · rw [hd, hh]
  · rw [hFT, GET_PUT_same, Nat.mod_eq_of_lt (by omega)]
  · apply links_frame (delete s bp).mem _ (F1 ++ F2) 0 0 _ hdl.2
    intro x hx a ha1 ha2
    have := hout x hx
    show PUT (PUT (delete s bp).mem (bp - 4) (b + 1)) (bp + b) (b + 1) a = (delete s bp).mem a
    rw [PUT_frame _ _ _ _ (by omega), PUT_frame _ _ _ _ (by omega)]

/-- Supporting C2: a free block at the head of the free list that is strictly
larger than the adjusted request (and smaller than 2 GiB) is reused: the
result lies inside that block and the arena upper bound does not move. -/
theorem reuse_of_larger_head (s : Heap) (size : Nat) (h0 : 0 < size) (h4 : 4 ≤ s.free_list)
    (hfit : adjusted_size size < GET_SIZE s.mem (HDRP s.free_list))
    (hint : GET_SIZE s.mem (HDRP s.free_list) < 2147483648) :
    find_fit s (adjusted_size size) = s.free_list ∧
    (mm_malloc s size).2.brk = s.brk ∧
    s.free_list ≤ (mm_malloc s size).1 ∧
    (mm_malloc s size).1 + adjusted_size size
      ≤ s.free_list + GET_SIZE s.mem (HDRP s.free_list) := by
  have hne : s.free_list ≠ 0 := by omega
  have hsz : size ≠ 0 := by omega
  have hff : find_fit s (adjusted_size size) = s.free_list := by
    unfold find_fit find_fit_loop
    simp [hne, hfit]
  have hm : mm_malloc s size = place s s.free_list (adjusted_size size) := by
    unfold mm_malloc
    simp only [hsz, if_false, hff, ne_eq, hne, not_false_eq_true, if_true]
  rw [hm]
  refine ⟨hff, ?_⟩
  by_cases hsplit : adjusted_size size + 32 ≤ GET_SIZE s.mem (HDRP s.free_list)
  · rw [place_split_eq s _ _ h4 (adjusted_size_mod8 size) hsplit]
    simp only
    exact ⟨trivial, by omega, by omega⟩
  · rw [place_whole_eq s _ _ (adjusted_size_lt size) (by omega) hint]
    simp only
    exact ⟨(delete_fields s _).1, by omega, by omega⟩

/-! ## The heap invariant -/

theorem span_append (P Q : List (Nat × Nat)) : span (P ++ Q) = span P + span Q := by
  induction P with
  | nil => simp [span]
  | cons b P ih =>
    rw [List.cons_append]
    simp only [span, ih]
    omega

theorem tags_append (m : Mem) : ∀ (P Q : List (Nat × Nat)) (h : Nat),
    tags m h (P ++ Q) ↔ tags m h P ∧ tags m (h + span P) Q := by
  intro P
  induction P with
  | nil => intro Q h; simp [tags, span]
  | cons b P ih =>
    intro Q h
    rw [List.cons_append]
    simp only [tags, span, ih]
    rw [show h + 8 + b.1 + span P = h + (b.1 + 8 + span P) by omega]
    tauto

theorem tags_frame (m m' : Mem) : ∀ (L : List (Nat × Nat)) (h : Nat),
    (∀ a, h ≤ a → a < h + span L → m' a = m a) → tags m h L → tags m' h L := by
  intro L
  induction L with
  | nil => intro h _ _; trivial
  | cons b R ih =>
    intro h hfr ht
    obtain ⟨t1, t2, t3⟩ := ht
    simp only [span] at hfr
    refine ⟨?_, ?_, ih _ (fun a h1 h2 => hfr a (by omega) (by omega)) t3⟩
    · rw [← t1]
      exact GET_congr _ _ _ (fun a h1 h2 => hfr a (by omega) (by omega))
    · rw [← t2]
      exact GET_congr _ _ _ (fun a h1 h2 => hfr a (by omega) (by omega))

theorem free_addrs_append : ∀ (P Q : List (Nat × Nat)) (h : Nat),
    free_addrs h (P ++ Q) = free_addrs h P ++ free_addrs (h + span P) Q := by
  intro P
  induction P with
  | nil => intro Q h; simp [free_addrs, span]
  | cons b P ih =>
    intro Q h
    rw [List.cons_append]
    simp only [free_addrs, span, ih]
    rw [show h + 8 + b.1 + span P = h + (b.1 + 8 + span P) by omega]
    split <;> simp

theorem live_blocks_append : ∀ (P Q : List (Nat × Nat)) (h : Nat),
    live_blocks h (P ++ Q) = live_blocks h P ++ live_blocks (h + span P) Q := by
  intro P
  induction P with
  | nil => intro Q h; simp [live_blocks, span]
  | cons b P ih =>
    intro Q h
    rw [List.cons_append]
    simp only [live_blocks, span, ih]
    rw [show h + 8 + b.1 + span P = h + (b.1 + 8 + span P) by omega]
    split <;> simp

theorem blocks_wf_append (P Q : List (Nat × Nat)) :
    blocks_wf (P ++ Q) ↔ blocks_wf P ∧ blocks_wf Q := by
  unfold blocks_wf
  simp only [List.mem_append]
  constructor
  · intro h
    exact ⟨fun b hb => h b (Or.inl hb), fun b hb => h b (Or.inr hb)⟩
  · intro h b hb
    rcases hb with hb | hb
    · exact h.1 b hb
    · exact h.2 b hb

theorem blocks_wf_cons (b : Nat × Nat) (Q : List (Nat × Nat)) :
    blocks_wf (b :: Q) ↔ (b.1 % 8 = 0 ∧ 24 ≤ b.1 ∧ b.2 ≤ 1) ∧ blocks_wf Q := by
  unfold blocks_wf
  simp only [List.mem_cons]
  constructor
  · intro h
    exact ⟨h b (Or.inl rfl), fun c hc => h c (Or.inr hc)⟩
  · intro h c hc
    rcases hc with hc | hc
    · rw [hc]; exact h.1
    · exact h.2 c hc

/-- A free payload lies inside the span of its sequence, with room for the two
references. -/
theorem free_addrs_bounds : ∀ (L : List (Nat × Nat)) (h : Nat), blocks_wf L →
    ∀ x ∈ free_addrs h L, h + 4 ≤ x ∧ x + 28 ≤ h + span L := by
  intro L
  induction L with
  | nil => intro h _ x hx; simp [free_addrs] at hx
  | cons b R ih =>
    intro h hwf x hx
    rw [blocks_wf_cons] at hwf
    simp only [free_addrs] at hx
    simp only [span]
    have hrec : x ∈ free_addrs (h + 8 + b.1) R → h + 4 ≤ x ∧ x + 28 ≤ h + (b.1 + 8 + span R) := by
      intro hm
      have := ih (h + 8 + b.1) hwf.2 x hm
      omega
    split at hx
    · rw [List.mem_cons] at hx
      rcases hx with hx | hx
      · omega
      · exact hrec hx
    · exact hrec hx

theorem free_addrs_nodes_ok : ∀ (L : List (Nat × Nat)) (h : Nat), blocks_wf L →
    h + span L ≤ 18446744073709551616 → nodes_ok (free_addrs h L) := by
  intro L h hwf hmax
  constructor
  · intro x hx
    have := free_addrs_bounds L h hwf x hx
    omega
  · induction L generalizing h with
    | nil => simp [free_addrs]
    | cons b R ih =>
      have hwf' := hwf
      rw [blocks_wf_cons] at hwf'
      simp only [free_addrs]
      simp only [span] at hmax
      split
      · rw [List.pairwise_cons]
        refine ⟨?_, ih (h + 8 + b.1) hwf'.2 (by omega)⟩
        intro y hy
        have := free_addrs_bounds R (h + 8 + b.1) hwf'.2 y hy
        omega
      · exact ih (h + 8 + b.1) hwf'.2 (by omega)

theorem last_alloc_concat : ∀ (P : List (Nat × Nat)) (b : Nat × Nat),
    last_alloc (P ++ [b]) = b.2 := by
  intro P
  induction P with
  | nil => intro b; rfl
  | cons c P ih =>
    intro b
    cases P with
    | nil => rfl
    | cons d P => exact ih b

theorem list_nil_or_concat (P : List (Nat × Nat)) :
    P = [] ∨ ∃ P' b, P = P' ++ [b] := by
  rcases List.eq_nil_or_concat P with h | ⟨P', b, h⟩
  · exact Or.inl h
  · exact Or.inr ⟨P', b, by rw [h, List.concat_eq_append]⟩

theorem no_adjacent_free_append : ∀ (P Q : List (Nat × Nat)),
    no_adjacent_free (P ++ Q) ↔
      no_adjacent_free P ∧ no_adjacent_free Q ∧ (last_alloc P = 1 ∨ head_alloc Q = 1) := by
  intro P
  induction P with
  | nil => intro Q; simp [no_adjacent_free, last_alloc]
  | cons b P ih =>
    intro Q
    rw [List.cons_append]
    simp only [no_adjacent_free, ih]
    cases P with
    | nil =>
      simp only [List.nil_append, head_alloc, last_alloc, no_adjacent_free]
      tauto
    | cons c P =>
      rw [List.cons_append]
      simp only [head_alloc, last_alloc]
      tauto

/-- The two tag words around the block that follows `P`. -/
theorem arena_tags_neighbours (m : Mem) (p0 : Nat) (P Q : List (Nat × Nat)) (b : Nat × Nat)
    (ht : arena_tags m p0 (P ++ b :: Q)) (hwf : blocks_wf (P ++ b :: Q)) :
    GET_ALLOC m (p0 + span P) = last_alloc P ∧
    GET_ALLOC m (p0 + span P + 12 + b.1) = head_alloc Q := by
  obtain ⟨t0, t1, t2⟩ := ht
  rw [blocks_wf_append, blocks_wf_cons] at hwf
  obtain ⟨wP, wb, wQ⟩ := hwf
  rw [tags_append] at t1
  obtain ⟨tP, tb⟩ := t1
  constructor
  · rcases list_nil_or_concat P with h | ⟨P', c, h⟩
    · subst h
      simpa [span, last_alloc] using t0
    · subst h
      rw [tags_append] at tP
      rw [blocks_wf_append, blocks_wf_cons] at wP
      obtain ⟨-, -, tc, -⟩ := tP
      rw [last_alloc_concat, span_append]
      simp only [span]
      rw [show p0 + (span P' + (c.1 + 8 + 0)) = p0 + 4 + span P' + 4 + c.1 by omega]
      exact GET_ALLOC_of_GET _ _ _ _ tc wP.2.1.1 (by omega)
  · obtain ⟨-, -, tQ⟩ := tb
    cases Q with
    | nil =>
      rw [span_append] at t2
      simp only [span] at t2
      rw [show p0 + span P + 12 + b.1 = p0 + 4 + (span P + (b.1 + 8 + 0)) by omega]
      exact t2
    | cons c Q =>
      obtain ⟨tc, -⟩ := tQ
      rw [blocks_wf_cons] at wQ
      rw [show p0 + span P + 12 + b.1 = p0 + 4 + span P + 8 + b.1 by omega]
      have hc2 := wQ.1.2.2
      show GET_ALLOC m (p0 + 4 + span P + 8 + b.1) = c.2
      exact GET_ALLOC_of_GET _ _ _ _ tc wQ.1.1 (by omega)

/-- Boundary tags survive every change of memory that stays inside the first
16 payload bytes of free blocks. -/
theorem tags_links_frame (m m' : Mem) : ∀ (L : List (Nat × Nat)) (h : Nat), blocks_wf L →
    (∀ a, h ≤ a → a < h + span L → (∀ x ∈ free_addrs h L, a < x ∨ x + 16 ≤ a) → m' a = m a) →
    tags m h L → tags m' h L := by
  intro L
  induction L with
  | nil => intro h _ _ _; trivial
  | cons b R ih =>
    intro h hwf hfr ht
    obtain ⟨t1, t2, t3⟩ := ht
    have hwf' := hwf
    rw [blocks_wf_cons] at hwf'
    simp only [span] at hfr
    have hrest : ∀ x ∈ free_addrs h (b :: R), x = h + 4 ∨ h + 12 + b.1 ≤ x := by
      intro x hx
      simp only [free_addrs] at hx
      split at hx
      · rw [List.mem_cons] at hx
        rcases hx with hx | hx
        · exact Or.inl hx
        · have := free_addrs_bounds R _ hwf'.2 x hx
          omega
      · have := free_addrs_bounds R _ hwf'.2 x hx
        omega
    refine ⟨?_, ?_, ih _ hwf'.2 ?_ t3⟩
    · rw [← t1]
      apply GET_congr
      intro a h1 h2
      apply hfr a (by omega) (by omega)
      intro x hx
      have := hrest x hx
      omega
    · rw [← t2]
      apply GET_congr
      intro a h1 h2
      apply hfr a (by omega) (by omega)
      intro x hx
      have := hrest x hx
      omega
    · intro a h1 h2 hx
      apply hfr a (by omega) (by omega)
      intro x hxm
      simp only [free_addrs] at hxm
      split at hxm
      · rw [List.mem_cons] at hxm
        rcases hxm with hxm | hxm
        · omega
        · exact hx x hxm
      · exact hx x hxm

/-- The tags of the whole arena survive every change of memory that stays
inside the first 16 payload bytes of free blocks. -/
theorem arena_tags_links_frame (m m' : Mem) (p0 : Nat) (L : List (Nat × Nat))
    (hwf : blocks_wf L)
    (hfr : ∀ a, (∀ x ∈ free_addrs (p0 + 4) L, a < x ∨ x + 16 ≤ a) → m' a = m a)
    (ht : arena_tags m p0 L) : arena_tags m' p0 L := by
  obtain ⟨t0, t1, t2⟩ := ht
  have hb := free_addrs_bounds L (p0 + 4) hwf
  refine ⟨?_, tags_links_frame m m' L _ hwf (fun a _ _ hx => hfr a hx) t1, ?_⟩
  · rw [← t0]
    unfold GET_ALLOC
    rw [GET_congr m m' p0]
    intro a h1 h2
    apply hfr
    intro x hx
    have := hb x hx
    omega
  · rw [← t2]
    unfold GET_ALLOC
    rw [GET_congr m m' _]
    intro a h1 h2
    apply hfr
    intro x hx
    have := hb x hx
    omega

/-- A free payload address belongs to a free block of the sequence. -/
theorem free_addrs_split : ∀ (L : List (Nat × Nat)) (h x : Nat), x ∈ free_addrs h L →
    ∃ P b Q, L = P ++ (b, 0) :: Q ∧ x = h + 4 + span P := by
  intro L
  induction L with
  | nil => intro h x hx; simp [free_addrs] at hx
  | cons c R ih =>
    intro h x hx
    simp only [free_addrs] at hx
    have hrec : x ∈ free_addrs (h + 8 + c.1) R →
        ∃ P b Q, c :: R = P ++ (b, 0) :: Q ∧ x = h + 4 + span P := by
      intro hm
      obtain ⟨P, b, Q, e1, e2⟩ := ih _ x hm
      refine ⟨c :: P, b, Q, by rw [e1]; rfl, ?_⟩
      simp only [span]
      omega
    split at hx
    · rw [List.mem_cons] at hx
      rcases hx with hx | hx
      · refine ⟨[], c.1, R, ?_, by simp [span, hx]⟩
        rename_i hc
        rw [List.nil_append, ← hc]
      · exact hrec hx
    · exact hrec hx

/-- A live pointer belongs to an allocated block of the sequence. -/
theorem live_blocks_split : ∀ (L : List (Nat × Nat)) (h x : Nat), blocks_wf L →
    x ∈ (live_blocks h L).map Prod.fst →
    ∃ P b Q, L = P ++ (b, 1) :: Q ∧ x = h + 4 + span P := by
  intro L
  induction L with
  | nil => intro h x _ hx; simp [live_blocks] at hx
  | cons c R ih =>
    intro h x hwf hx
    rw [blocks_wf_cons] at hwf
    simp only [live_blocks] at hx
    have hrec : x ∈ (live_blocks (h + 8 + c.1) R).map Prod.fst →
        ∃ P b Q, c :: R = P ++ (b, 1) :: Q ∧ x = h + 4 + span P := by
      intro hm
      obtain ⟨P, b, Q, e1, e2⟩ := ih _ x hwf.2 hm
      refine ⟨c :: P, b, Q, by rw [e1]; rfl, ?_⟩
      simp only [span]
      omega
    split at hx
    · exact hrec hx
    · rw [List.map_cons, List.mem_cons] at hx
      rcases hx with hx | hx
      · refine ⟨[], c.1, R, ?_, by simp [span, hx]⟩
        rename_i hc
        have : c.2 = 1 := by omega
        rw [List.nil_append, ← this]
      · exact hrec hx

theorem nodes_ok_perm (F G : List Nat) (hp : F.Perm G) (h : nodes_ok G) : nodes_ok F := by
  refine ⟨fun x hx => h.1 x (hp.subset hx), ?_⟩
  refine (List.Perm.pairwise_iff ?_ hp.symm).1 h.2
  intro x y hxy
  omega

/-- Every node met by walking the free list is one of its members. -/
theorem free_nodes_subset (m : Mem) : ∀ (fuel : Nat) (F : List Nat) (prev : Nat),
    links m prev F 0 → (∀ x ∈ F, x ≠ 0) →
    ∀ x ∈ free_nodes m fuel (F.headD 0), x ∈ F := by
  intro fuel
  induction fuel with
  | zero => intro F prev _ _ x hx; simp [free_nodes] at hx
  | succ n ih =>
    intro F prev hl h0 x hx
    cases F with
    | nil => simp [free_nodes] at hx
    | cons y F =>
      obtain ⟨-, l2, l3⟩ := hl
      have hy : y ≠ 0 := h0 y (List.mem_cons_self _ _)
      simp only [List.headD_cons, free_nodes, hy, if_false, List.mem_cons] at hx
      rcases hx with hx | hx
      · rw [hx]; exact List.mem_cons_self _ _
      · rw [l2] at hx
        exact List.mem_cons_of_mem _ (ih F y l3 (fun z hz => h0 z (List.mem_cons_of_mem _ hz)) x hx)

/-- Rewriting the tags of a run `M` of blocks into those of `M'`, which fills
the same bytes, keeps the tags of the arena around it. -/
theorem arena_tags_replace (m m' : Mem) (p0 : Nat) (P M M' Q : List (Nat × Nat))
    (hs : span M' = span M) (ht : arena_tags m p0 (P ++ (M ++ Q)))
    (hfr : ∀ a, (a < p0 + 4 + span P ∨ p0 + 4 + span P + span M ≤ a) → m' a = m a)
    (hM : tags m' (p0 + 4 + span P) M') : arena_tags m' p0 (P ++ (M' ++ Q)) := by
  obtain ⟨t0, t1, t2⟩ := ht
  rw [tags_append, tags_append] at t1
  obtain ⟨tP, -, tQ⟩ := t1
  rw [span_append, span_append] at t2
  refine ⟨?_, ?_, ?_⟩
  · rw [← t0]
    unfold GET_ALLOC
    rw [GET_congr m m' p0 (fun a h1 h2 => hfr a (by omega))]
  · rw [tags_append, tags_append, hs]
    refine ⟨tags_frame m m' P _ (fun a h1 h2 => hfr a (by omega)) tP, hM,
      tags_frame m m' Q _ (fun a h1 h2 => hfr a (by omega)) tQ⟩
  · rw [span_append, span_append, hs, ← t2]
    unfold GET_ALLOC
    rw [GET_congr m m' _ (fun a h1 h2 => hfr a (by omega))]

theorem free_list_is_frame (s : Heap) (m' : Mem) (F : List Nat) (h : free_list_is s F)
    (hfr : ∀ x ∈ F, ∀ a, x ≤ a → a < x + 16 → m' a = s.mem a) :
    free_list_is { s with mem := m' } F :=
  ⟨h.1, links_frame s.mem m' F 0 0 hfr h.2⟩

/-- Where the free payloads of `P ++ (M ++ Q)` are. -/
theorem free_addrs_middle (h : Nat) (P M Q : List (Nat × Nat)) (hP : blocks_wf P)
    (hQ : blocks_wf Q) (x : Nat) (hx : x ∈ free_addrs h (P ++ (M ++ Q))) :
    (x ∈ free_addrs h P ∧ h + 4 ≤ x ∧ x + 28 ≤ h + span P) ∨
    x ∈ free_addrs (h + span P) M ∨
    (x ∈ free_addrs (h + span P + span M) Q ∧ h + span P + span M + 4 ≤ x ∧
      x + 28 ≤ h + span P + span M + span Q) := by
  rw [free_addrs_append, free_addrs_append, List.mem_append, List.mem_append] at hx
  rcases hx with hx | hx | hx
  · exact Or.inl ⟨hx, free_addrs_bounds P h hP x hx⟩
  · exact Or.inr (Or.inl hx)
  · have := free_addrs_bounds Q _ hQ x hx
    exact Or.inr (Or.inr ⟨hx, by omega, by omega⟩)

/-- `add` on an arena: the tags survive and the free list gains `bp` in front. -/
theorem add_arena (s : Heap) (p0 bp : Nat) (L : List (Nat × Nat)) (F : List Nat)
    (hwf : blocks_wf L) (ht : arena_tags s.mem p0 L) (hl : free_list_is s F)
    (hok : nodes_ok (bp :: F)) (hsub : ∀ y ∈ bp :: F, y ∈ free_addrs (p0 + 4) L) :
    arena_tags (add s bp).mem p0 L ∧ free_list_is (add s bp) (bp :: F) ∧
    (add s bp).brk = s.brk ∧ (add s bp).heap_lo = s.heap_lo ∧
    (add s bp).max_addr = s.max_addr := by
  obtain ⟨a1, -, -, -, -, a6, a7, a8, a9⟩ := add_spec s bp F hl hok
  refine ⟨arena_tags_links_frame _ _ p0 L hwf ?_ ht, a1, a7, a8, a9⟩
  intro a ha
  apply a6 a
  · have := ha bp (hsub bp (List.mem_cons_self _ _))
    omega
  · cases F with
    | nil => left; exact hl.1
    | cons y F =>
      right
      have e : s.free_list = y := hl.1
      have := ha y (hsub y (List.mem_cons_of_mem _ (List.mem_cons_self _ _)))
      omega

/-- `delete` on an arena: the tags survive and the free list loses `x`. -/
theorem delete_arena (s : Heap) (p0 x : Nat) (L : List (Nat × Nat)) (F1 F2 : List Nat)
    (hwf : blocks_wf L) (ht : arena_tags s.mem p0 L) (hl : free_list_is s (F1 ++ x :: F2))
    (hok : nodes_ok (F1 ++ x :: F2)) (hsub : ∀ y ∈ F1 ++ F2, y ∈ free_addrs (p0 + 4) L) :
    arena_tags (delete s x).mem p0 L ∧ free_list_is (delete s x) (F1 ++ F2) ∧
    (delete s x).brk = s.brk ∧ (delete s x).heap_lo = s.heap_lo ∧
    (delete s x).max_addr = s.max_addr := by
  obtain ⟨d1, d2, d3, d4, d5⟩ := delete_spec s x F1 F2 hl hok
  refine ⟨arena_tags_links_frame _ _ p0 L hwf ?_ ht, d1, d3, d4, d5⟩
  intro a ha
  apply d2 a
  · rcases List.eq_nil_or_concat F1 with h | ⟨G, y, h⟩
    · exact Or.inl h
    · right
      rw [List.concat_eq_append] at h
      subst h
      rw [List.getLastD_concat]
      have := ha y (hsub y (by simp))
      omega
  · cases F2 with
    | nil => exact Or.inl rfl
    | cons y F2 =>
      right
      have := ha y (hsub y (by simp))
      simp only [List.headD_cons]
      omega

/-- Facts about a block of the arena, read off the invariant. -/
theorem heap_inv_block (s : Heap) (p0 : Nat) (P Q : List (Nat × Nat)) (b : Nat × Nat)
    (F : List Nat) (h : heap_inv s p0 (P ++ b :: Q) F) :
    GET s.mem (p0 + 4 + span P) = b.1 + b.2 ∧
    GET s.mem (p0 + 8 + span P + b.1) = b.1 + b.2 ∧
    GET_SIZE s.mem (p0 + 4 + span P) = b.1 ∧
    b.1 % 8 = 0 ∧ 24 ≤ b.1 ∧ b.2 ≤ 1 ∧
    p0 + 16 + span P + b.1 + span Q = s.brk ∧
    blocks_wf P ∧ blocks_wf Q ∧
    GET_ALLOC s.mem (p0 + span P) = last_alloc P ∧
    GET_ALLOC s.mem (p0 + span P + 12 + b.1) = head_alloc Q := by
  have hw := h.wf
  rw [blocks_wf_append, blocks_wf_cons] at hw
  obtain ⟨wP, wb, wQ⟩ := hw
  obtain ⟨n1, n2⟩ := arena_tags_neighbours s.mem p0 P Q b h.tagged h.wf
  obtain ⟨-, t1, -⟩ := h.tagged
  rw [tags_append] at t1
  obtain ⟨-, tb, tf, -⟩ := t1
  have htop := h.top
  rw [span_append] at htop
  simp only [span] at htop
  refine ⟨tb, ?_, GET_SIZE_of_GET _ _ _ _ tb wb.1 (by omega), wb.1, wb.2.1, wb.2.2, by omega,
    wP, wQ, n1, n2⟩
  rw [show p0 + 8 + span P + b.1 = p0 + 4 + span P + 4 + b.1 by omega]
  exact tf

/-- `mm_free` when no neighbour is merged: the block is marked free and
inserted. -/
theorem mm_free_add (s : Heap) (bp hd ft pf nh size : Nat) (e1 : hd + 4 = bp)
    (e2 : ft = bp + size) (e3 : pf + 8 = bp) (e4 : nh = ft + 4)
    (hsz : GET_SIZE s.mem hd = size)
    (hprev : GET_ALLOC s.mem pf = 1) (hnext : GET_ALLOC s.mem nh = 1) :
    mm_free s bp = add { s with mem := PUT (PUT s.mem hd size) ft size } bp := by
  have h8 : size % 8 = 0 := by rw [← hsz]; exact GET_SIZE_mod8 _ _
  have hlt : size < 4294967296 := by rw [← hsz]; exact GET_SIZE_lt _ _
  have ehd : HDRP bp = hd := by unfold HDRP; omega
  have ehd' : bp - 4 = hd := by omega
  rw [mm_free_marks s bp size (by omega) (by rw [ehd]; exact hsz)]
  rw [ehd', ← e2]
  split
  · rw [coalesce_case1 _ bp size]
    · simp only [ehd]
      rw [GET_SIZE_PUT_other _ _ _ _ (by omega), GET_SIZE_PUT_same_free _ _ _ h8 hlt]
    · simp only [show bp - 8 = pf by omega]
      rw [GET_ALLOC_PUT_other _ _ _ _ (by omega), GET_ALLOC_PUT_other _ _ _ _ (by omega), hprev]
    · simp only [show bp + size + 4 = nh by omega]
      rw [GET_ALLOC_PUT_other _ _ _ _ (by omega), GET_ALLOC_PUT_other _ _ _ _ (by omega), hnext]
  · rfl

/-- Marking a block free keeps the arena tiled and the free list intact. -/
theorem mark_free_arena (s : Heap) (p0 size : Nat) (P Q : List (Nat × Nat)) (F : List Nat)
    (h : heap_inv s p0 (P ++ (size, 1) :: Q) F) :
    arena_tags (PUT (PUT s.mem (p0 + 4 + span P) size) (p0 + 8 + span P + size) size) p0
      (P ++ (size, 0) :: Q) ∧
    free_list_is { s with
      mem := PUT (PUT s.mem (p0 + 4 + span P) size) (p0 + 8 + span P + size) size } F := by
  obtain ⟨b1, b2, b3, b4, b5, b6, b7, wP, wQ, -, -⟩ := heap_inv_block s p0 P Q (size, 1) F h
  simp only at b1 b2 b3 b4 b5 b6 b7
  have hcap := h.cap
  have hsmall := h.small
  constructor
  · refine arena_tags_replace s.mem _ p0 P [(size, 1)] [(size, 0)] Q rfl h.tagged ?_ ?_
    · intro a ha
      simp only [span] at ha
      rw [PUT_frame _ _ _ _ (by omega), PUT_frame _ _ _ _ (by omega)]
    · refine ⟨?_, ?_, trivial⟩
      · rw [GET_PUT_other _ _ _ _ (by omega), GET_PUT_same, Nat.mod_eq_of_lt (by omega)]
        rfl
      · rw [GET_PUT_eq _ _ _ _ (by simp only []; omega), Nat.mod_eq_of_lt (by omega)]
        rfl
  · apply free_list_is_frame s _ F h.list
    intro x hx a h1 h2
    rcases free_addrs_middle (p0 + 4) P [(size, 1)] Q wP wQ x (h.perm.subset hx) with
      ⟨-, h3, h4⟩ | hmid | ⟨-, h3, h4⟩
    · rw [PUT_frame _ _ _ _ (by omega), PUT_frame _ _ _ _ (by omega)]
    · simp [free_addrs] at hmid
    · simp only [span] at h3 h4
      rw [PUT_frame _ _ _ _ (by omega), PUT_frame _ _ _ _ (by omega)]

theorem heap_inv_nodes_ok (s : Heap) (p0 : Nat) (L : List (Nat × Nat)) (F : List Nat)
    (h : heap_inv s p0 L F) : nodes_ok F := by
  apply nodes_ok_perm _ _ h.perm
  apply free_addrs_nodes_ok L _ h.wf
  have h1 := h.top
  have h2 := h.cap
  have h3 := h.small
  have h4 := h.addr
  omega

/-- Release of a block between two allocated neighbours (or the arena
markers) keeps the invariant: the block becomes free and is the new first node
of the free list. -/
theorem heap_inv_free_case1 (s : Heap) (p0 size : Nat) (P Q : List (Nat × Nat)) (F : List Nat)
    (h : heap_inv s p0 (P ++ (size, 1) :: Q) F)
    (hl : last_alloc P = 1) (hr : head_alloc Q = 1) :
    heap_inv (mm_free s (p0 + 8 + span P)) p0 (P ++ (size, 0) :: Q) ((p0 + 8 + span P) :: F) := by
  obtain ⟨b1, b2, b3, b4, b5, b6, b7, wP, wQ, n1, n2⟩ := heap_inv_block s p0 P Q (size, 1) F h
  simp only at b1 b2 b3 b4 b5 b6 b7 n2
  obtain ⟨t1, l1⟩ := mark_free_arena s p0 size P Q F h
  have hcap := h.cap
  have hsmall := h.small
  have haddr := h.addr
  have hwf1 : blocks_wf (P ++ (size, 0) :: Q) := by
    rw [blocks_wf_append, blocks_wf_cons]
    exact ⟨wP, ⟨b4, b5, by simp⟩, wQ⟩
  have hperm := h.perm
  rw [free_addrs_append] at hperm
  simp only [free_addrs, one_ne_zero, if_false] at hperm
  have hperm1 : ((p0 + 8 + span P) :: F).Perm (free_addrs (p0 + 4) (P ++ (size, 0) :: Q)) := by
    rw [free_addrs_append]
    simp only [free_addrs, if_true]
    rw [show p0 + 4 + span P + 4 = p0 + 8 + span P by omega]
    exact (hperm.cons _).trans List.perm_middle.symm
  have hspan1 : span (P ++ (size, 0) :: Q) = span P + (size + 8 + span Q) := by
    rw [span_append]
    rfl
  have hok1 : nodes_ok ((p0 + 8 + span P) :: F) := by
    apply nodes_ok_perm _ _ hperm1
    apply free_addrs_nodes_ok _ _ hwf1
    omega
  rw [mm_free_add s (p0 + 8 + span P) (p0 + 4 + span P) (p0 + 8 + span P + size) (p0 + span P)
    (p0 + span P + 12 + size) size (by omega) rfl (by omega) (by omega) b3
    (by rw [n1, hl]) (by rw [n2, hr])]
  obtain ⟨a1, a2, a3, a4, a5⟩ := add_arena _ p0 (p0 + 8 + span P) _ F hwf1 t1 l1 hok1
    (fun y hy => hperm1.subset hy)
  refine ⟨h.aligned, by rw [a4]; exact h.lo, by rw [a3, hspan1]; show _ = s.brk; omega,
    by rw [a3, a5]; exact hcap, by rw [a5]; exact hsmall, haddr, a1, hwf1, ?_, a2, hperm1⟩
  have hn := h.naf
  rw [no_adjacent_free_append] at hn ⊢
  simp only [no_adjacent_free, head_alloc] at hn ⊢
  tauto

theorem heap_inv_list_ne_nil (s : Heap) (p0 : Nat) (L : List (Nat × Nat)) (F : List Nat)
    (h : heap_inv s p0 L F) (x : Nat) (hx : x ∈ free_addrs (p0 + 4) L) : s.free_list ≠ 0 := by
  have hok := heap_inv_nodes_ok s p0 L F h
  have hxF : x ∈ F := h.perm.symm.subset hx
  have hl := h.list.1
  cases F with
  | nil => simp at hxF
  | cons y F =>
    rw [hl]
    exact (hok.1 y (List.mem_cons_self _ _)).1

theorem heap_inv_assoc (s : Heap) (p0 : Nat) (P Q : List (Nat × Nat)) (b c : Nat × Nat)
    (F : List Nat) (h : heap_inv s p0 (P ++ b :: c :: Q) F) :
    heap_inv s p0 ((P ++ [b]) ++ c :: Q) F := by
  rw [List.append_assoc]
  exact h

theorem span_concat (P : List (Nat × Nat)) (b : Nat × Nat) :
    span (P ++ [b]) = span P + b.1 + 8 := by
  rw [span_append]
  simp only [span]
  omega

/-- Release of a block after a free block and before an allocated one keeps
the invariant: the two blocks become one free block and the free list is
unchanged. -/
theorem heap_inv_free_case3 (s : Heap) (p0 size psz : Nat) (P Q : List (Nat × Nat))
    (F : List Nat) (h : heap_inv s p0 (P ++ (psz, 0) :: (size, 1) :: Q) F)
    (hr : head_alloc Q = 1) :
    heap_inv (mm_free s (p0 + 16 + span P + psz)) p0 (P ++ (psz + size + 8, 0) :: Q) F := by
  obtain ⟨c1, c2, c3, c4, c5, -, -, wP, -, -, -⟩ :=
    heap_inv_block s p0 P ((size, 1) :: Q) (psz, 0) F h
  obtain ⟨b1, b2, b3, b4, b5, -, b7, -, wQ, -, n2⟩ :=
    heap_inv_block s p0 (P ++ [(psz, 0)]) Q (size, 1) F (heap_inv_assoc s p0 P Q _ _ F h)
  simp only [span_concat, Nat.add_zero] at c1 c2 c3 c4 c5 b1 b2 b3 b4 b5 b7 n2
  have hcap := h.cap
  have hsmall := h.small
  have haddr := h.addr
  have hfl : s.free_list ≠ 0 := by
    apply heap_inv_list_ne_nil s p0 _ F h (p0 + 4 + span P + 4)
    rw [free_addrs_append]
    simp [free_addrs]
  have hpsz : GET_SIZE s.mem (p0 + 8 + span P + psz) = psz :=
    GET_SIZE_of_GET _ _ _ 0 c2 c4 (by omega)
  have hpal : GET_ALLOC s.mem (p0 + 8 + span P + psz) = 0 :=
    GET_ALLOC_of_GET _ _ _ 0 c2 c4 (by omega)
  rw [mm_free_case3 s (p0 + 16 + span P + psz) (p0 + 12 + span P + psz)
    (p0 + 16 + span P + psz + size) (p0 + 8 + span P + psz) (p0 + 20 + span P + psz + size)
    (p0 + 4 + span P) size psz (by omega) rfl (by omega) (by omega) (by omega)
    (by rw [← b3]; congr 1; omega) hfl hpal hpsz c3
    (by rw [← hr, ← n2]; congr 1; omega) (by omega)]
  have hwf1 : blocks_wf (P ++ (psz + size + 8, 0) :: Q) := by
    rw [blocks_wf_append, blocks_wf_cons]
    exact ⟨wP, ⟨by simp only []; omega, by simp only []; omega, by simp⟩, wQ⟩
  refine ⟨h.aligned, h.lo, ?_, hcap, hsmall, haddr, ?_, hwf1, ?_, ?_, ?_⟩
  · rw [span_append]
    simp only [span]
    show _ = s.brk
    omega
  · refine arena_tags_replace s.mem _ p0 P [(psz, 0), (size, 1)] [(psz + size + 8, 0)] Q
      (by simp only [span]; omega) h.tagged ?_ ?_
    · intro a ha
      simp only [span] at ha
      dsimp only
      rw [PUT_frame _ _ _ _ (by omega), PUT_frame _ _ _ _ (by omega),
        PUT_frame _ _ _ _ (by omega), PUT_frame _ _ _ _ (by omega)]
    · refine ⟨?_, ?_, trivial⟩
      · rw [GET_PUT_other _ _ _ _ (by omega), GET_PUT_same, Nat.mod_eq_of_lt (by omega)]
        simp only []
        omega
      · rw [GET_PUT_eq _ _ _ _ (by simp only []; omega), Nat.mod_eq_of_lt (by omega)]
        simp only []
        omega
  · have hn := h.naf
    rw [no_adjacent_free_append] at hn ⊢
    simp only [no_adjacent_free, head_alloc] at hn ⊢
    tauto
  · apply free_list_is_frame s _ F h.list
    intro x hx a h1 h2
    rcases free_addrs_middle (p0 + 4) P [(psz, 0), (size, 1)] Q wP wQ x (h.perm.subset hx) with
      ⟨-, h3, h4⟩ | hmid | ⟨-, h3, h4⟩
    · rw [PUT_frame _ _ _ _ (by omega), PUT_frame _ _ _ _ (by omega),
        PUT_frame _ _ _ _ (by omega), PUT_frame _ _ _ _ (by omega)]
    · simp [free_addrs] at hmid
      rw [PUT_frame _ _ _ _ (by omega), PUT_frame _ _ _ _ (by omega),
        PUT_frame _ _ _ _ (by omega), PUT_frame _ _ _ _ (by omega)]
    · simp only [span] at h3 h4
      rw [PUT_frame _ _ _ _ (by omega), PUT_frame _ _ _ _ (by omega),
        PUT_frame _ _ _ _ (by omega), PUT_frame _ _ _ _ (by omega)]
  · have hperm := h.perm
    rw [free_addrs_append] at hperm ⊢
    simp only [free_addrs, one_ne_zero, if_false, if_true] at hperm ⊢
    rw [show p0 + 4 + span P + 8 + (psz + size + 8) = p0 + 4 + span P + 8 + psz + 8 + size
      by omega]
    exact hperm

theorem perm_without (F1 F2 A C : List Nat) (x : Nat)
    (h : (F1 ++ x :: F2).Perm (A ++ x :: C)) : (F1 ++ F2).Perm (A ++ C) :=
  (List.perm_middle.symm.trans (h.trans List.perm_middle)).cons_inv

/-- Release of a block after an allocated block and before a free one keeps
the invariant: the two blocks become one free block, which replaces the
successor in the free list and is its new first node. -/
theorem heap_inv_free_case2 (s : Heap) (p0 size nsz : Nat) (P Q : List (Nat × Nat))
    (F1 F2 : List Nat)
    (h : heap_inv s p0 (P ++ (size, 1) :: (nsz, 0) :: Q) (F1 ++ (p0 + 16 + span P + size) :: F2))
    (hl : last_alloc P = 1) :
    heap_inv (mm_free s (p0 + 8 + span P)) p0 (P ++ (size + nsz + 8, 0) :: Q)
      ((p0 + 8 + span P) :: (F1 ++ F2)) := by
  obtain ⟨b1, b2, b3, b4, b5, -, -, wP, -, n1, -⟩ :=
    heap_inv_block s p0 P ((nsz, 0) :: Q) (size, 1) _ h
  obtain ⟨c1, c2, c3, c4, c5, -, c7, -, wQ, -, -⟩ :=
    heap_inv_block s p0 (P ++ [(size, 1)]) Q (nsz, 0) _ (heap_inv_assoc s p0 P Q _ _ _ h)
  simp only [span_concat, Nat.add_zero] at c1 c2 c3 c4 c5 b1 b2 b3 b4 b5 c7
  have hcap := h.cap
  have hsmall := h.small
  have haddr := h.addr
  have hokF := heap_inv_nodes_ok s p0 _ _ h
  have hfl : s.free_list ≠ 0 := by
    apply heap_inv_list_ne_nil s p0 _ _ h (p0 + 4 + span P + 8 + size + 4)
    rw [free_addrs_append]
    simp [free_addrs]
  have hnal : GET_ALLOC s.mem (p0 + 12 + span P + size) = 0 := by
    rw [show p0 + 12 + span P + size = p0 + 4 + (span P + size + 8) by omega]
    exact GET_ALLOC_of_GET _ _ _ 0 c1 c4 (by omega)
  have hnsz : GET_SIZE s.mem (p0 + 12 + span P + size) = nsz := by
    rw [show p0 + 12 + span P + size = p0 + 4 + (span P + size + 8) by omega]
    exact c3
  rw [mm_free_case2 s (p0 + 8 + span P) (p0 + 4 + span P) (p0 + 8 + span P + size)
    (p0 + span P) (p0 + 12 + span P + size) (p0 + 16 + span P + size)
    (p0 + 16 + span P + size + nsz) size nsz (by omega) rfl (by omega) (by omega) (by omega)
    rfl b3 hfl (by rw [n1, hl]) hnal hnsz (by omega)]
  obtain ⟨t1, l1⟩ := mark_free_arena s p0 size P ((nsz, 0) :: Q) _ h
  have hperm := h.perm
  rw [free_addrs_append] at hperm
  simp only [free_addrs, one_ne_zero, if_false, if_true] at hperm
  rw [show p0 + 4 + span P + 8 + size + 4 = p0 + 16 + span P + size by omega] at hperm
  have hperm0 := perm_without _ _ _ _ _ hperm
  have hwf1 : blocks_wf (P ++ (size, 0) :: (nsz, 0) :: Q) := by
    rw [blocks_wf_append, blocks_wf_cons, blocks_wf_cons]
    exact ⟨wP, ⟨b4, b5, by simp⟩, ⟨c4, c5, by simp⟩, wQ⟩
  have hwf2 : blocks_wf (P ++ (size + nsz + 8, 0) :: Q) := by
    rw [blocks_wf_append, blocks_wf_cons]
    exact ⟨wP, ⟨by simp only []; omega, by simp only []; omega, by simp⟩, wQ⟩
  obtain ⟨t2, l2, f1, f2, f3⟩ := delete_arena _ p0 (p0 + 16 + span P + size) _ F1 F2 hwf1 t1 l1
    hokF (by
      intro y hy
      have := hperm0.subset hy
      rw [free_addrs_append]
      simp only [free_addrs, if_true]
      rw [List.mem_append] at this ⊢
      rcases this with h1 | h1
      · exact Or.inl h1
      · right
        right
        right
        exact h1)
  have hperm2 : ((p0 + 8 + span P) :: (F1 ++ F2)).Perm
      (free_addrs (p0 + 4) (P ++ (size + nsz + 8, 0) :: Q)) := by
    rw [free_addrs_append]
    simp only [free_addrs, if_true]
    rw [show p0 + 4 + span P + 4 = p0 + 8 + span P by omega,
      show p0 + 4 + span P + 8 + (size + nsz + 8) = p0 + 4 + span P + 8 + size + 8 + nsz by omega]
    exact (hperm0.cons _).trans List.perm_middle.symm
  have hok2 : nodes_ok ((p0 + 8 + span P) :: (F1 ++ F2)) := by
    apply nodes_ok_perm _ _ hperm2
    apply free_addrs_nodes_ok _ _ hwf2
    rw [span_append]
    simp only [span]
    omega
  have t3 : arena_tags (PUT (PUT
      (delete { s with mem := PUT (PUT s.mem (p0 + 4 + span P) size) (p0 + 8 + span P + size) size }
        (p0 + 16 + span P + size)).mem
      (p0 + 4 + span P) (size + nsz + 8)) (p0 + 16 + span P + size + nsz) (size + nsz + 8)) p0
      (P ++ (size + nsz + 8, 0) :: Q) := by
    refine arena_tags_replace _ _ p0 P [(size, 0), (nsz, 0)] [(size + nsz + 8, 0)] Q
      (by simp only [span]; omega) t2 ?_ ?_
    · intro a ha
      simp only [span] at ha
      rw [PUT_frame _ _ _ _ (by omega), PUT_frame _ _ _ _ (by omega)]
    · refine ⟨?_, ?_, trivial⟩
      · rw [GET_PUT_other _ _ _ _ (by omega), GET_PUT_same, Nat.mod_eq_of_lt (by omega)]
        rfl
      · rw [GET_PUT_eq _ _ _ _ (by simp only []; omega), Nat.mod_eq_of_lt (by omega)]
        rfl
  have l3 := free_list_is_frame _ (PUT (PUT
      (delete { s with mem := PUT (PUT s.mem (p0 + 4 + span P) size) (p0 + 8 + span P + size) size }
        (p0 + 16 + span P + size)).mem
      (p0 + 4 + span P) (size + nsz + 8)) (p0 + 16 + span P + size + nsz) (size + nsz + 8))
    (F1 ++ F2) l2 (by
      intro x hx a h1 h2
      have hxF : x ∈ F1 ++ (p0 + 16 + span P + size) :: F2 := by
        rw [List.mem_append] at hx ⊢
        rcases hx with hx | hx
        · exact Or.inl hx
        · exact Or.inr (List.mem_cons_of_mem _ hx)
      rcases free_addrs_middle (p0 + 4) P [(size, 1), (nsz, 0)] Q wP wQ x (h.perm.subset hxF) with
        ⟨-, h3, h4⟩ | hmid | ⟨-, h3, h4⟩
      · rw [PUT_frame _ _ _ _ (by omega), PUT_frame _ _ _ _ (by omega)]
      · simp [free_addrs] at hmid
        rw [PUT_frame _ _ _ _ (by omega), PUT_frame _ _ _ _ (by omega)]
      · simp only [span] at h3 h4
        rw [PUT_frame _ _ _ _ (by omega), PUT_frame _ _ _ _ (by omega)])
  obtain ⟨a1, a2, a3, a4, a5⟩ := add_arena _ p0 (p0 + 8 + span P) _ (F1 ++ F2) hwf2 t3 l3 hok2
    (fun y hy => hperm2.subset hy)
  refine ⟨h.aligned, ?_, ?_, ?_, ?_, haddr, a1, hwf2, ?_, a2, hperm2⟩
  · rw [a4]
    show (delete _ _).heap_lo ≤ p0
    rw [f2]
    exact h.lo
  · rw [a3]
    show _ = (delete _ _).brk
    rw [f1, span_append]
    simp only [span]
    show _ = s.brk
    omega
  · rw [a3, a5]
    show (delete _ _).brk ≤ (delete _ _).max_addr
    rw [f1, f3]
    exact hcap
  · rw [a5]
    show (delete _ _).max_addr ≤ _
    rw [f3]
    exact hsmall
  · have hn := h.naf
    rw [no_adjacent_free_append] at hn ⊢
    simp only [no_adjacent_free, head_alloc] at hn ⊢
    have : ¬ ((0 : Nat) = 1) := by omega
    tauto

/-- Release of a block between two free blocks keeps the invariant: the three
blocks become one free block at the predecessor's address and the successor
leaves the free list. -/
theorem heap_inv_free_case4 (s : Heap) (p0 size psz nsz : Nat) (P Q : List (Nat × Nat))
    (F1 F2 : List Nat)
    (h : heap_inv s p0 (P ++ (psz, 0) :: (size, 1) :: (nsz, 0) :: Q)
      (F1 ++ (p0 + 24 + span P + psz + size) :: F2)) :
    heap_inv (mm_free s (p0 + 16 + span P + psz)) p0 (P ++ (psz + size + nsz + 16, 0) :: Q)
      (F1 ++ F2) := by
  obtain ⟨d1, d2, d3, d4, d5, -, -, wP, -, -, -⟩ :=
    heap_inv_block s p0 P ((size, 1) :: (nsz, 0) :: Q) (psz, 0) _ h
  obtain ⟨b1, b2, b3, b4, b5, -, -, -, -, -, -⟩ :=
    heap_inv_block s p0 (P ++ [(psz, 0)]) ((nsz, 0) :: Q) (size, 1) _
      (heap_inv_assoc s p0 P _ _ _ _ h)
  obtain ⟨c1, c2, c3, c4, c5, -, c7, -, wQ, -, -⟩ :=
    heap_inv_block s p0 ((P ++ [(psz, 0)]) ++ [(size, 1)]) Q (nsz, 0) _
      (heap_inv_assoc s p0 _ Q _ _ _ (heap_inv_assoc s p0 P _ _ _ _ h))
  simp only [span_concat, Nat.add_zero] at c1 c2 c3 c4 c5 b1 b2 b3 b4 b5 c7 d1 d2 d3 d4 d5
  have hcap := h.cap
  have hsmall := h.small
  have haddr := h.addr
  have hokF := heap_inv_nodes_ok s p0 _ _ h
  have hfl : s.free_list ≠ 0 := by
    apply heap_inv_list_ne_nil s p0 _ _ h (p0 + 4 + span P + 4)
    rw [free_addrs_append]
    simp [free_addrs]
  have hpsz : GET_SIZE s.mem (p0 + 8 + span P + psz) = psz :=
    GET_SIZE_of_GET _ _ _ 0 d2 d4 (by omega)
  have hpal : GET_ALLOC s.mem (p0 + 8 + span P + psz) = 0 :=
    GET_ALLOC_of_GET _ _ _ 0 d2 d4 (by omega)
  have hnal : GET_ALLOC s.mem (p0 + 20 + span P + psz + size) = 0 := by
    rw [show p0 + 20 + span P + psz + size = p0 + 4 + (span P + psz + 8 + size + 8) by omega]
    exact GET_ALLOC_of_GET _ _ _ 0 c1 c4 (by omega)
  have hnsz : GET_SIZE s.mem (p0 + 20 + span P + psz + size) = nsz := by
    rw [show p0 + 20 + span P + psz + size = p0 + 4 + (span P + psz + 8 + size + 8) by omega]
    exact c3
  rw [mm_free_case4 s (p0 + 16 + span P + psz) (p0 + 12 + span P + psz)
    (p0 + 16 + span P + psz + size) (p0 + 8 + span P + psz) (p0 + 20 + span P + psz + size)
    (p0 + 4 + span P) (p0 + 24 + span P + psz + size) (p0 + 24 + span P + psz + size + nsz)
    size psz nsz (by omega) rfl (by omega) (by omega) (by omega) (by omega) rfl
    (by rw [← b3]; congr 1; omega) hfl hpal hpsz d3 hnal hnsz (by omega)]
  have hperm := h.perm
  rw [free_addrs_append] at hperm
  simp only [free_addrs, one_ne_zero, if_false, if_true] at hperm
  rw [show p0 + 4 + span P + 8 + psz + 8 + size + 4 = p0 + 24 + span P + psz + size
    by omega] at hperm
  have hperm0 := perm_without F1 F2 (free_addrs (p0 + 4) P ++ [p0 + 4 + span P + 4]) _ _
    (by rw [List.append_assoc]; exact hperm)
  have hwf2 : blocks_wf (P ++ (psz + size + nsz + 16, 0) :: Q) := by
    rw [blocks_wf_append, blocks_wf_cons]
    exact ⟨wP, ⟨by simp only []; omega, by simp only []; omega, by simp⟩, wQ⟩
  have hperm2 : (F1 ++ F2).Perm
      (free_addrs (p0 + 4) (P ++ (psz + size + nsz + 16, 0) :: Q)) := by
    rw [free_addrs_append]
    simp only [free_addrs, if_true]
    rw [show p0 + 4 + span P + 8 + (psz + size + nsz + 16)
      = p0 + 4 + span P + 8 + psz + 8 + size + 8 + nsz by omega]
    rw [List.append_assoc] at hperm0
    exact hperm0
  have t3 : arena_tags (PUT (PUT (PUT (PUT s.mem (p0 + 12 + span P + psz) size)
      (p0 + 16 + span P + psz + size) size) (p0 + 4 + span P) (size + psz + nsz + 16))
      (p0 + 24 + span P + psz + size + nsz) (size + psz + nsz + 16)) p0
      (P ++ (psz + size + nsz + 16, 0) :: Q) := by
    refine arena_tags_replace _ _ p0 P [(psz, 0), (size, 1), (nsz, 0)]
      [(psz + size + nsz + 16, 0)] Q (by simp only [span]; omega) h.tagged ?_ ?_
    · intro a ha
      simp only [span] at ha
      rw [PUT_frame _ _ _ _ (by omega), PUT_frame _ _ _ _ (by omega),
        PUT_frame _ _ _ _ (by omega), PUT_frame _ _ _ _ (by omega)]
    · refine ⟨?_, ?_, trivial⟩
      · rw [GET_PUT_other _ _ _ _ (by omega), GET_PUT_same, Nat.mod_eq_of_lt (by omega)]
        simp only []
        omega
      · rw [GET_PUT_eq _ _ _ _ (by simp only []; omega), Nat.mod_eq_of_lt (by omega)]
        simp only []
        omega
  have l3 := free_list_is_frame s (PUT (PUT (PUT (PUT s.mem (p0 + 12 + span P + psz) size)
      (p0 + 16 + span P + psz + size) size) (p0 + 4 + span P) (size + psz + nsz + 16))
      (p0 + 24 + span P + psz + size + nsz) (size + psz + nsz + 16)) _ h.list (by
      intro x hx a h1 h2
      rcases free_addrs_middle (p0 + 4) P [(psz, 0), (size, 1), (nsz, 0)] Q wP wQ x
        (h.perm.subset hx) with ⟨-, h3, h4⟩ | hmid | ⟨-, h3, h4⟩
      · rw [PUT_frame _ _ _ _ (by omega), PUT_frame _ _ _ _ (by omega),
          PUT_frame _ _ _ _ (by omega), PUT_frame _ _ _ _ (by omega)]
      · simp [free_addrs] at hmid
        rw [PUT_frame _ _ _ _ (by omega), PUT_frame _ _ _ _ (by omega),
          PUT_frame _ _ _ _ (by omega), PUT_frame _ _ _ _ (by omega)]
      · simp only [span] at h3 h4
        rw [PUT_frame _ _ _ _ (by omega), PUT_frame _ _ _ _ (by omega),
          PUT_frame _ _ _ _ (by omega), PUT_frame _ _ _ _ (by omega)])
  obtain ⟨a1, a2, a3, a4, a5⟩ := delete_arena _ p0 (p0 + 24 + span P + psz + size) _ F1 F2
    hwf2 t3 l3 hokF (fun y hy => hperm2.subset hy)
  refine ⟨h.aligned, ?_, ?_, ?_, ?_, haddr, a1, hwf2, ?_, a2, hperm2⟩
  · rw [a4]
    exact h.lo
  · rw [a3, span_append]
    simp only [span]
    show _ = s.brk
    omega
  · rw [a3, a5]
    exact hcap
  · rw [a5]
    exact hsmall
  · have hn := h.naf
    rw [no_adjacent_free_append] at hn ⊢
    simp only [no_adjacent_free, head_alloc] at hn ⊢
    have : ¬ ((0 : Nat) = 1) := by omega
    tauto

theorem last_alloc_cases (P : List (Nat × Nat)) (hwf : blocks_wf P) :
    last_alloc P = 1 ∨ ∃ P' psz, P = P' ++ [(psz, 0)] := by
  rcases list_nil_or_concat P with h | ⟨P', b, h⟩
  · left
    rw [h]
    rfl
  · subst h
    rw [blocks_wf_append, blocks_wf_cons] at hwf
    rw [last_alloc_concat]
    have hb := hwf.2.1.2.2
    by_cases h1 : b.2 = 1
    · exact Or.inl h1
    · right
      refine ⟨P', b.1, ?_⟩
      have : b.2 = 0 := by omega
      rw [← this]

theorem head_alloc_cases (Q : List (Nat × Nat)) (hwf : blocks_wf Q) :
    head_alloc Q = 1 ∨ ∃ nsz Q', Q = (nsz, 0) :: Q' := by
  cases Q with
  | nil => left; rfl
  | cons b Q =>
    rw [blocks_wf_cons] at hwf
    have hb := hwf.1.2.2
    by_cases h1 : b.2 = 1
    · exact Or.inl h1
    · right
      refine ⟨b.1, Q, ?_⟩
      have : b.2 = 0 := by omega
      rw [← this]

theorem erase_middle (A C : List Nat) (p : Nat) : (A ++ C).Perm ((A ++ p :: C).erase p) := by
  have h1 : (A ++ p :: C).Perm (p :: (A ++ C)) := List.perm_middle
  have h2 := h1.erase p
  rw [List.erase_cons_head] at h2
  exact h2.symm

/-- Release of a live pointer keeps the invariant, and the block of that
pointer is the one that stops being allocated. -/
theorem heap_inv_free (s : Heap) (p0 : Nat) (L : List (Nat × Nat)) (F : List Nat) (p : Nat)
    (h : heap_inv s p0 L F) (hp : p ∈ (live_blocks (p0 + 4) L).map Prod.fst) :
    ∃ L' F', heap_inv (mm_free s p) p0 L' F' ∧
      ((live_blocks (p0 + 4) L').map Prod.fst).Perm
        (((live_blocks (p0 + 4) L).map Prod.fst).erase p) := by
  obtain ⟨P, size, Q, hL, hpe⟩ := live_blocks_split L (p0 + 4) p h.wf hp
  subst hL
  have hw := h.wf
  rw [blocks_wf_append, blocks_wf_cons] at hw
  obtain ⟨wP, -, wQ⟩ := hw
  have hp8 : p = p0 + 8 + span P := by omega
  rcases last_alloc_cases P wP with hl | ⟨P', psz, hP⟩
  · rcases head_alloc_cases Q wQ with hr | ⟨nsz, Q', hQ⟩
    · refine ⟨_, _, by rw [hp8]; exact heap_inv_free_case1 s p0 size P Q F h hl hr, ?_⟩
      rw [live_blocks_append, live_blocks_append]
      simp only [live_blocks, one_ne_zero, if_false, if_true, List.map_append, List.map_cons]
      rw [show p0 + 4 + span P + 4 = p by omega]
      exact erase_middle _ _ p
    · subst hQ
      have hnb : p0 + 16 + span P + size ∈ F := by
        apply h.perm.symm.subset
        rw [free_addrs_append]
        simp only [free_addrs, one_ne_zero, if_false, if_true]
        rw [show p0 + 4 + span P + 8 + size + 4 = p0 + 16 + span P + size by omega]
        simp
      obtain ⟨F1, F2, hF⟩ := List.append_of_mem hnb
      subst hF
      refine ⟨_, _, by rw [hp8]; exact heap_inv_free_case2 s p0 size nsz P Q' F1 F2 h hl, ?_⟩
      rw [live_blocks_append, live_blocks_append]
      simp only [live_blocks, one_ne_zero, if_false, if_true, List.map_append, List.map_cons]
      rw [show p0 + 4 + span P + 4 = p by omega,
        show p0 + 4 + span P + 8 + (size + nsz + 8) = p0 + 4 + span P + 8 + size + 8 + nsz
          by omega]
      exact erase_middle _ _ p
  · subst hP
    rw [span_concat] at hp8
    simp only [] at hp8
    have h' : heap_inv s p0 (P' ++ (psz, 0) :: (size, 1) :: Q) F := by
      rw [List.append_assoc] at h
      exact h
    have hlive : (live_blocks (p0 + 4) (P' ++ [(psz, 0)] ++ (size, 1) :: Q)).map Prod.fst
        = (live_blocks (p0 + 4) P').map Prod.fst ++
          p :: (live_blocks (p0 + 4 + span P' + 8 + psz + 8 + size) Q).map Prod.fst := by
      rw [List.append_assoc, live_blocks_append]
      simp only [List.cons_append, List.nil_append, live_blocks, one_ne_zero, if_false, if_true,
        List.map_append, List.map_cons]
      rw [show p0 + 4 + span P' + 8 + psz + 4 = p by omega]
    rw [hlive]
    rcases head_alloc_cases Q wQ with hr | ⟨nsz, Q', hQ⟩
    · refine ⟨_, _, by
        rw [show p = p0 + 16 + span P' + psz by omega]
        exact heap_inv_free_case3 s p0 size psz P' Q F h' hr, ?_⟩
      rw [live_blocks_append]
      simp only [live_blocks, one_ne_zero, if_false, if_true, List.map_append, List.map_cons]
      rw [show p0 + 4 + span P' + 8 + (psz + size + 8) = p0 + 4 + span P' + 8 + psz + 8 + size
          by omega]
      exact erase_middle _ _ p
    · subst hQ
      have hnb : p0 + 24 + span P' + psz + size ∈ F := by
        apply h'.perm.symm.subset
        rw [free_addrs_append]
        simp only [free_addrs, one_ne_zero, if_false, if_true]
        rw [show p0 + 4 + span P' + 8 + psz + 8 + size + 4 = p0 + 24 + span P' + psz + size
          by omega]
        simp
      obtain ⟨F1, F2, hF⟩ := List.append_of_mem hnb
      subst hF
      refine ⟨_, _, by
        rw [show p = p0 + 16 + span P' + psz by omega]
        exact heap_inv_free_case4 s p0 size psz nsz P' Q' F1 F2 h', ?_⟩
      rw [live_blocks_append]
      simp only [live_blocks, one_ne_zero, if_false, if_true, List.map_append, List.map_cons]
      rw [show p0 + 4 + span P' + 8 + (psz + size + nsz + 16)
          = p0 + 4 + span P' + 8 + psz + 8 + size + 8 + nsz by omega]
      exact erase_middle _ _ p

/-- The growth path of `mm_malloc` keeps the invariant: the new block is
appended to the arena, allocated, and the free list is unchanged. -/
theorem heap_inv_malloc_grow (s : Heap) (p0 : Nat) (L : List (Nat × Nat)) (F : List Nat)
    (size : Nat) (h : heap_inv s p0 L F) (h0 : 0 < size) (hsz : size ≤ 4294967280)
    (hfit : find_fit s (adjusted_size size) = 0)
    (hg : s.brk + (adjusted_size size + 8) ≤ s.max_addr) :
    (mm_malloc s size).1 = p0 + 8 + span L ∧
    heap_inv (mm_malloc s size).2 p0 (L ++ [(adjusted_size size, 1)]) F := by
  have htop := h.top
  have hsmall := h.small
  have haddr := h.addr
  rw [mm_malloc_grow_closed s size (p0 + 4 + span L) h0 hsz hfit (by omega) hg]
  obtain ⟨g1, g2, g3⟩ := adjusted_size_ge size hsz
  have g8 := adjusted_size_mod8 size
  generalize adjusted_size size = asize at hg g1 g2 g3 g8 ⊢
  refine ⟨htop.symm, ?_⟩
  have hwf1 : blocks_wf (L ++ [(asize, 1)]) := by
    rw [blocks_wf_append, blocks_wf_cons]
    exact ⟨h.wf, ⟨g8, by simp only []; omega, by simp⟩, fun b hb => by simp at hb⟩
  obtain ⟨t0, t1, t2⟩ := h.tagged
  have hfr : ∀ a, a < p0 + 4 + span L →
      PUT (PUT (PUT s.mem (p0 + 4 + span L) (asize + 1)) (s.brk + asize) (asize + 1))
        (s.brk + asize + 4) 1 a = s.mem a := by
    intro a ha
    rw [PUT_frame _ _ _ _ (by omega), PUT_frame _ _ _ _ (by omega),
      PUT_frame _ _ _ _ (by omega)]
  refine ⟨h.aligned, h.lo, ?_, hg, hsmall, haddr, ⟨?_, ?_, ?_⟩, hwf1, ?_, ?_, ?_⟩
  · rw [span_concat]
    show _ = s.brk + (asize + 8)
    simp only []
    omega
  · refine Eq.trans ?_ t0
    unfold GET_ALLOC
    dsimp only
    rw [GET_congr s.mem _ p0 (fun a h1 h2 => hfr a (by omega))]
  · rw [tags_append]
    refine ⟨tags_frame s.mem _ L _ (fun a h1 h2 => hfr a (by omega)) t1, ?_, ?_, trivial⟩
    · dsimp only
      rw [GET_PUT_other _ _ _ _ (by omega), GET_PUT_other _ _ _ _ (by omega), GET_PUT_same,
        Nat.mod_eq_of_lt (by omega)]
    · dsimp only
      rw [GET_PUT_other _ _ _ _ (by omega), GET_PUT_eq _ _ _ _ (by omega),
        Nat.mod_eq_of_lt (by omega)]
  · rw [span_concat, GET_ALLOC_eq]
    dsimp only
    rw [GET_PUT_eq _ _ _ _ (by omega)]
  · have hn := h.naf
    rw [no_adjacent_free_append]
    simp only [no_adjacent_free, head_alloc]
    tauto
  · apply free_list_is_frame s _ F h.list
    intro x hx a h1 h2
    have := free_addrs_bounds L (p0 + 4) h.wf x (h.perm.subset hx)
    exact hfr a (by omega)
  · rw [free_addrs_append]
    simp only [free_addrs, one_ne_zero, if_false, List.append_nil]
    exact h.perm

theorem mm_malloc_place (s : Heap) (size : Nat) (h0 : size ≠ 0)
    (hfit : find_fit s (adjusted_size size) ≠ 0) :
    mm_malloc s size = place s (find_fit s (adjusted_size size)) (adjusted_size size) := by
  unfold mm_malloc
  simp only [h0, hfit, if_false, ne_eq, not_false_eq_true, if_true]

/-- The whole-block path of `place` keeps the invariant: the chosen block
becomes allocated and leaves the free list. -/
theorem heap_inv_place_whole (s : Heap) (p0 b asize : Nat) (P Q : List (Nat × Nat))
    (F1 F2 : List Nat)
    (h : heap_inv s p0 (P ++ (b, 0) :: Q) (F1 ++ (p0 + 8 + span P) :: F2))
    (ha : asize < 4294967296) (hb : b < asize + 32) :
    (place s (p0 + 8 + span P) asize).1 = p0 + 8 + span P ∧
    heap_inv (place s (p0 + 8 + span P) asize).2 p0 (P ++ (b, 1) :: Q) (F1 ++ F2) := by
  obtain ⟨b1, b2, b3, b4, b5, -, b7, wP, wQ, -, -⟩ := heap_inv_block s p0 P Q (b, 0) _ h
  simp only [Nat.add_zero] at b1 b2 b3 b4 b5 b7
  have hcap := h.cap
  have hsmall := h.small
  have haddr := h.addr
  have hokF := heap_inv_nodes_ok s p0 _ _ h
  have ehd : HDRP (p0 + 8 + span P) = p0 + 4 + span P := by
    unfold HDRP
    omega
  rw [place_whole_eq s (p0 + 8 + span P) asize ha (by rw [ehd, b3]; exact hb)
    (by rw [ehd, b3]; omega)]
  rw [ehd, b3, show p0 + 8 + span P - 4 = p0 + 4 + span P by omega]
  refine ⟨rfl, ?_⟩
  have hperm := h.perm
  rw [free_addrs_append] at hperm
  simp only [free_addrs, if_true] at hperm
  rw [show p0 + 4 + span P + 4 = p0 + 8 + span P by omega] at hperm
  have hperm0 := perm_without _ _ _ _ _ hperm
  have hsubF : ∀ y ∈ F1 ++ F2, y ∈ F1 ++ (p0 + 8 + span P) :: F2 := by
    intro y hy
    rw [List.mem_append] at hy ⊢
    rcases hy with hy | hy
    · exact Or.inl hy
    · exact Or.inr (List.mem_cons_of_mem _ hy)
  obtain ⟨t2, l2, f1, f2, f3⟩ := delete_arena s p0 (p0 + 8 + span P) _ F1 F2 h.wf h.tagged
    h.list hokF (fun y hy => h.perm.subset (hsubF y hy))
  have hwf2 : blocks_wf (P ++ (b, 1) :: Q) := by
    rw [blocks_wf_append, blocks_wf_cons]
    exact ⟨wP, ⟨b4, b5, by simp⟩, wQ⟩
  have t3 : arena_tags (PUT (PUT (delete s (p0 + 8 + span P)).mem (p0 + 4 + span P) (b + 1))
      (p0 + 8 + span P + b) (b + 1)) p0 (P ++ (b, 1) :: Q) := by
    refine arena_tags_replace _ _ p0 P [(b, 0)] [(b, 1)] Q rfl t2 ?_ ?_
    · intro a ha
      simp only [span] at ha
      rw [PUT_frame _ _ _ _ (by omega), PUT_frame _ _ _ _ (by omega)]
    · refine ⟨?_, ?_, trivial⟩
      · rw [GET_PUT_other _ _ _ _ (by omega), GET_PUT_same, Nat.mod_eq_of_lt (by omega)]
      · rw [GET_PUT_eq _ _ _ _ (by simp only []; omega), Nat.mod_eq_of_lt (by omega)]
  have l3 := free_list_is_frame _ (PUT (PUT (delete s (p0 + 8 + span P)).mem (p0 + 4 + span P)
      (b + 1)) (p0 + 8 + span P + b) (b + 1)) (F1 ++ F2) l2 (by
      intro x hx a h1 h2
      rcases free_addrs_middle (p0 + 4) P [(b, 0)] Q wP wQ x (h.perm.subset (hsubF x hx)) with
        ⟨-, h3, h4⟩ | hmid | ⟨-, h3, h4⟩
      · rw [PUT_frame _ _ _ _ (by omega), PUT_frame _ _ _ _ (by omega)]
      · simp [free_addrs] at hmid
        rw [PUT_frame _ _ _ _ (by omega), PUT_frame _ _ _ _ (by omega)]
      · simp only [span] at h3 h4
        rw [PUT_frame _ _ _ _ (by omega), PUT_frame _ _ _ _ (by omega)])
  refine ⟨h.aligned, ?_, ?_, ?_, ?_, haddr, t3, hwf2, ?_, l3, ?_⟩
  · show (delete _ _).heap_lo ≤ p0
    rw [f2]
    exact h.lo
  · show _ = (delete _ _).brk
    rw [f1, span_append]
    simp only [span]
    omega
  · show (delete _ _).brk ≤ (delete _ _).max_addr
    rw [f1, f3]
    exact hcap
  · show (delete _ _).max_addr ≤ _
    rw [f3]
    exact hsmall
  · have hn := h.naf
    rw [no_adjacent_free_append] at hn ⊢
    simp only [no_adjacent_free, head_alloc] at hn ⊢
    tauto
  · rw [free_addrs_append]
    simp only [free_addrs, one_ne_zero, if_false]
    exact hperm0

/-- The split path of `place` keeps the invariant: the chosen block is divided
into a free remainder, which keeps its place in the free list, and an
allocated block after it. -/
theorem heap_inv_place_split (s : Heap) (p0 b asize : Nat) (P Q : List (Nat × Nat))
    (F : List Nat) (h : heap_inv s p0 (P ++ (b, 0) :: Q) F)
    (h8 : asize % 8 = 0) (h32 : 32 ≤ asize) (hb : asize + 32 ≤ b) :
    (place s (p0 + 8 + span P) asize).1 = p0 + 8 + span P + (b - asize) ∧
    heap_inv (place s (p0 + 8 + span P) asize).2 p0
      (P ++ (b - asize - 8, 0) :: (asize, 1) :: Q) F := by
  obtain ⟨b1, b2, b3, b4, b5, -, b7, wP, wQ, -, -⟩ := heap_inv_block s p0 P Q (b, 0) _ h
  simp only [Nat.add_zero] at b1 b2 b3 b4 b5 b7
  have hcap := h.cap
  have hsmall := h.small
  have haddr := h.addr
  have ehd : HDRP (p0 + 8 + span P) = p0 + 4 + span P := by
    unfold HDRP
    omega
  rw [place_split_eq s (p0 + 8 + span P) asize (by omega) h8 (by rw [ehd, b3]; exact hb)]
  rw [ehd, b3, show p0 + 8 + span P - 4 = p0 + 4 + span P by omega]
  refine ⟨rfl, ?_⟩
  have hwf2 : blocks_wf (P ++ (b - asize - 8, 0) :: (asize, 1) :: Q) := by
    rw [blocks_wf_append, blocks_wf_cons, blocks_wf_cons]
    exact ⟨wP, ⟨by simp only []; omega, by simp only []; omega, by simp⟩,
      ⟨h8, by simp only []; omega, by simp⟩, wQ⟩
  refine ⟨h.aligned, h.lo, ?_, hcap, hsmall, haddr, ?_, hwf2, ?_, ?_, ?_⟩
  · rw [span_append]
    simp only [span]
    show _ = s.brk
    omega
  · refine arena_tags_replace s.mem _ p0 P [(b, 0)] [(b - asize - 8, 0), (asize, 1)] Q
      (by simp only [span]; omega) h.tagged ?_ ?_
    · intro a ha
      simp only [span] at ha
      dsimp only
      rw [PUT_frame _ _ _ _ (by omega), PUT_frame _ _ _ _ (by omega),
        PUT_frame _ _ _ _ (by omega), PUT_frame _ _ _ _ (by omega)]
    · dsimp only
      refine ⟨?_, ?_, ?_, ?_, trivial⟩
      · rw [GET_PUT_other _ _ _ _ (by omega), GET_PUT_other _ _ _ _ (by omega),
          GET_PUT_other _ _ _ _ (by omega), GET_PUT_same, Nat.mod_eq_of_lt (by omega)]
        rfl
      · rw [GET_PUT_other _ _ _ _ (by simp only []; omega),
          GET_PUT_other _ _ _ _ (by simp only []; omega),
          GET_PUT_eq _ _ _ _ (by simp only []; omega), Nat.mod_eq_of_lt (by omega)]
        rfl
      · rw [GET_PUT_other _ _ _ _ (by simp only []; omega),
          GET_PUT_eq _ _ _ _ (by simp only []; omega), Nat.mod_eq_of_lt (by omega)]
      · rw [GET_PUT_eq _ _ _ _ (by simp only []; omega), Nat.mod_eq_of_lt (by omega)]
  · have hn := h.naf
    rw [no_adjacent_free_append] at hn ⊢
    simp only [no_adjacent_free, head_alloc] at hn ⊢
    tauto
  · apply free_list_is_frame s _ F h.list
    intro x hx a h1 h2
    rcases free_addrs_middle (p0 + 4) P [(b, 0)] Q wP wQ x (h.perm.subset hx) with
      ⟨-, h3, h4⟩ | hmid | ⟨-, h3, h4⟩
    · rw [PUT_frame _ _ _ _ (by omega), PUT_frame _ _ _ _ (by omega),
        PUT_frame _ _ _ _ (by omega), PUT_frame _ _ _ _ (by omega)]
    · simp [free_addrs] at hmid
      rw [PUT_frame _ _ _ _ (by omega), PUT_frame _ _ _ _ (by omega),
        PUT_frame _ _ _ _ (by omega), PUT_frame _ _ _ _ (by omega)]
    · simp only [span] at h3 h4
      rw [PUT_frame _ _ _ _ (by omega), PUT_frame _ _ _ _ (by omega),
        PUT_frame _ _ _ _ (by omega), PUT_frame _ _ _ _ (by omega)]
  · have hperm := h.perm
    rw [free_addrs_append] at hperm ⊢
    simp only [free_addrs, one_ne_zero, if_false, if_true] at hperm ⊢
    rw [show p0 + 4 + span P + 8 + (b - asize - 8) + 8 + asize = p0 + 4 + span P + 8 + b
      by omega]
    exact hperm

/-- The block that `find_fit` returns is a free block of the arena that is
larger than the adjusted size. -/
theorem find_fit_block (s : Heap) (p0 : Nat) (L : List (Nat × Nat)) (F : List Nat)
    (asize : Nat) (h : heap_inv s p0 L F) (hfit : find_fit s asize ≠ 0) :
    ∃ P b Q, L = P ++ (b, 0) :: Q ∧ find_fit s asize = p0 + 8 + span P ∧ asize < b ∧
      find_fit s asize ∈ F := by
  have hok := heap_inv_nodes_ok s p0 L F h
  rcases find_fit_loop_spec s.mem asize 500 s.free_list with ⟨h1, -⟩ | ⟨pre, post, h1, -, h3, -⟩
  · exact absurd h1 hfit
  · have hmem : find_fit s asize ∈ F := by
      apply free_nodes_subset s.mem 500 F 0 h.list.2 (fun x hx => (hok.1 x hx).1)
      rw [← h.list.1]
      show find_fit_loop s.mem asize 500 s.free_list ∈ _
      rw [h1]
      simp
    obtain ⟨P, b, Q, hL, hx⟩ := free_addrs_split L (p0 + 4) _ (h.perm.subset hmem)
    subst hL
    obtain ⟨-, -, b3, -⟩ := heap_inv_block s p0 P Q (b, 0) F h
    refine ⟨P, b, Q, rfl, by omega, ?_, hmem⟩
    have e : HDRP (find_fit_loop s.mem asize 500 s.free_list) = p0 + 4 + span P := by
      show HDRP (find_fit s asize) = _
      unfold HDRP
      omega
    rw [e, b3] at h3
    exact h3

/-- A request of at most `4294967280` bytes keeps the invariant: either
`mm_malloc` returns `NULL` and changes nothing, or it returns the payload
address of a block that was not allocated before, is allocated now and holds at
least the adjusted size, all other allocated blocks being as before. -/
theorem heap_inv_malloc (s : Heap) (p0 : Nat) (L : List (Nat × Nat)) (F : List Nat)
    (size : Nat) (h : heap_inv s p0 L F) (hsz : size ≤ 4294967280) :
    ((mm_malloc s size).1 = 0 ∧ (mm_malloc s size).2 = s) ∨
    ((mm_malloc s size).1 ≠ 0 ∧ ∃ L' F', heap_inv (mm_malloc s size).2 p0 L' F' ∧
      ((live_blocks (p0 + 4) L').map Prod.fst).Perm
        ((mm_malloc s size).1 :: (live_blocks (p0 + 4) L).map Prod.fst) ∧
      ∃ sz, adjusted_size size ≤ sz ∧ ((mm_malloc s size).1, sz) ∈ live_blocks (p0 + 4) L') := by
  by_cases h0 : size = 0
  · left
    unfold mm_malloc
    simp [h0]
  obtain ⟨g1, g2, g3⟩ := adjusted_size_ge size hsz
  have g8 := adjusted_size_mod8 size
  by_cases hfit : find_fit s (adjusted_size size) = 0
  · by_cases hg : s.brk + (adjusted_size size + 8) ≤ s.max_addr
    · right
      obtain ⟨r1, r2⟩ := heap_inv_malloc_grow s p0 L F size h (by omega) hsz hfit hg
      refine ⟨by rw [r1]; omega, _, _, r2, ?_, adjusted_size size, Nat.le_refl _, ?_⟩
      · rw [r1, live_blocks_append]
        simp only [live_blocks, one_ne_zero, if_false, List.map_append, List.map_cons,
          List.map_nil]
        rw [show p0 + 4 + span L + 4 = p0 + 8 + span L by omega]
        exact List.perm_append_singleton _ _
      · rw [r1, live_blocks_append]
        simp only [live_blocks, one_ne_zero, if_false]
        rw [show p0 + 4 + span L + 4 = p0 + 8 + span L by omega]
        simp
    · left
      rw [mm_malloc_grow_fail s size h0 hfit (by rw [Nat.mod_eq_of_lt (by omega)]; exact hg)]
      exact ⟨rfl, rfl⟩
  · right
    obtain ⟨P, b, Q, hL, hx, hlt, hmem⟩ := find_fit_block s p0 L F _ h hfit
    subst hL
    rw [mm_malloc_place s size h0 hfit, hx]
    by_cases hb : adjusted_size size + 32 ≤ b
    · obtain ⟨r1, r2⟩ := heap_inv_place_split s p0 b (adjusted_size size) P Q F h g8 g1 hb
      refine ⟨by rw [r1]; omega, _, _, r2, ?_, adjusted_size size, Nat.le_refl _, ?_⟩
      · rw [r1, live_blocks_append, live_blocks_append]
        simp only [live_blocks, one_ne_zero, if_false, if_true, List.map_append, List.map_cons]
        rw [show p0 + 4 + span P + 8 + (b - adjusted_size size - 8) + 4
            = p0 + 8 + span P + (b - adjusted_size size) by omega,
          show p0 + 4 + span P + 8 + (b - adjusted_size size - 8) + 8 + adjusted_size size
            = p0 + 4 + span P + 8 + b by omega]
        exact List.perm_middle
      · rw [r1, live_blocks_append]
        simp only [live_blocks, one_ne_zero, if_false, if_true]
        rw [show p0 + 4 + span P + 8 + (b - adjusted_size size - 8) + 4
            = p0 + 8 + span P + (b - adjusted_size size) by omega]
        simp
    · obtain ⟨F1, F2, hF⟩ := List.append_of_mem hmem
      rw [hx] at hF
      subst hF
      obtain ⟨r1, r2⟩ := heap_inv_place_whole s p0 b (adjusted_size size) P Q F1 F2 h
        (by omega) (by omega)
      refine ⟨by rw [r1]; omega, _, _, r2, ?_, b, by omega, ?_⟩
      · rw [r1, live_blocks_append, live_blocks_append]
        simp only [live_blocks, one_ne_zero, if_false, if_true, List.map_append, List.map_cons]
        rw [show p0 + 4 + span P + 4 = p0 + 8 + span P by omega]
        exact List.perm_middle
      · rw [r1, live_blocks_append]
        simp only [live_blocks, one_ne_zero, if_false, if_true]
        rw [show p0 + 4 + span P + 4 = p0 + 8 + span P by omega]
        simp

/-- After `mm_init` the invariant holds with no block at all. -/
theorem heap_inv_init (s0 : Heap) (h : arena_ok s0) :
    (mm_init s0).1 = 0 ∧ heap_inv (mm_init s0).2 s0.brk [] [] := by
  obtain ⟨h8, hlo, hg, hsmall, haddr⟩ := h
  constructor
  · unfold mm_init mem_sbrk
    simp [hg]
  · rw [mm_init_closed s0 hg]
    refine ⟨h8, hlo, rfl, hg, hsmall, haddr, ⟨?_, trivial, ?_⟩, fun b hb => by simp at hb,
      trivial, ⟨rfl, trivial⟩, List.Perm.refl _⟩
    · rw [GET_ALLOC_eq]
      dsimp only
      rw [GET_PUT_other _ _ _ _ (by omega), GET_PUT_same]
    · rw [GET_ALLOC_eq]
      dsimp only [span]
      rw [GET_PUT_eq _ _ _ _ (by omega)]

/-- What the tags say about each allocated block: its header holds its size,
it lies inside the span of the sequence, and it is 8-byte aligned when the
sequence starts 4 bytes after a multiple of 8. -/
theorem live_blocks_spec (m : Mem) : ∀ (L : List (Nat × Nat)) (h : Nat), blocks_wf L →
    tags m h L → ∀ x ∈ live_blocks h L,
      GET_SIZE m (HDRP x.1) = x.2 ∧ h + 4 ≤ x.1 ∧ x.1 + x.2 + 4 ≤ h + span L ∧
      (h % 8 = 4 → x.1 % 8 = 0) := by
  intro L
  induction L with
  | nil => intro h _ _ x hx; simp [live_blocks] at hx
  | cons b R ih =>
    intro h hwf ht x hx
    rw [blocks_wf_cons] at hwf
    obtain ⟨t1, -, t3⟩ := ht
    simp only [span]
    have hrec : x ∈ live_blocks (h + 8 + b.1) R →
        GET_SIZE m (HDRP x.1) = x.2 ∧ h + 4 ≤ x.1 ∧ x.1 + x.2 + 4 ≤ h + (b.1 + 8 + span R) ∧
        (h % 8 = 4 → x.1 % 8 = 0) := by
      intro hm
      obtain ⟨r1, r2, r3, r4⟩ := ih _ hwf.2 t3 x hm
      refine ⟨r1, by omega, by omega, ?_⟩
      intro h4
      apply r4
      omega
    simp only [live_blocks] at hx
    split at hx
    · exact hrec hx
    · rw [List.mem_cons] at hx
      rcases hx with hx | hx
      · subst hx
        refine ⟨?_, by simp, by simp only []; omega, ?_⟩
        · have e : HDRP (h + 4) = h := by
            unfold HDRP
            omega
          simp only [e]
          exact GET_SIZE_of_GET _ _ _ _ t1 hwf.1.1 (by omega)
        · intro h4
          simp only []
          omega
      · exact hrec hx

/-- Allocated blocks follow one another in address order without sharing a
byte. -/
theorem live_blocks_sorted : ∀ (L : List (Nat × Nat)) (h : Nat), blocks_wf L →
    (live_blocks h L).Pairwise (fun a b => a.1 + a.2 + 8 ≤ b.1) := by
  intro L
  induction L with
  | nil => intro h _; simp [live_blocks]
  | cons b R ih =>
    intro h hwf
    rw [blocks_wf_cons] at hwf
    simp only [live_blocks]
    split
    · exact ih _ hwf.2
    · rw [List.pairwise_cons]
      refine ⟨?_, ih _ hwf.2⟩
      intro y hy
      have hb : ∀ (L : List (Nat × Nat)) (k : Nat), ∀ z ∈ live_blocks k L, k + 4 ≤ z.1 := by
        intro L
        induction L with
        | nil => intro k z hz; simp [live_blocks] at hz
        | cons c L ih2 =>
          intro k z hz
          simp only [live_blocks] at hz
          split at hz
          · have := ih2 _ z hz
            omega
          · rw [List.mem_cons] at hz
            rcases hz with hz | hz
            · subst hz
              simp
            · have := ih2 _ z hz
              omega
      have := hb R _ y hy
      simp only []
      omega

/-- The invariant of a run: the heap invariant holds for some tiling of the
arena, and the live pointers are exactly the payload addresses of its
allocated blocks. -/
theorem run_step_inv (p0 : Nat) (st : Heap × List Nat) (c : Call)
    (h : ∃ L F, heap_inv st.1 p0 L F ∧ st.2.Perm ((live_blocks (p0 + 4) L).map Prod.fst))
    (hc : call_ok st.2 c) :
    ∃ L F, heap_inv (run_step st c).1 p0 L F ∧
      (run_step st c).2.Perm ((live_blocks (p0 + 4) L).map Prod.fst) := by
  obtain ⟨L, F, hinv, hlive⟩ := h
  cases c with
  | allocate size =>
    simp only [run_step]
    rcases heap_inv_malloc st.1 p0 L F size hinv hc with ⟨e1, e2⟩ | ⟨e1, L', F', e2, e3, -⟩
    · rw [e2]
      simp only [e1, if_true]
      exact ⟨L, F, hinv, hlive⟩
    · simp only [e1, if_false]
      exact ⟨L', F', e2, (e3.trans (hlive.symm.cons _)).symm⟩
  | release p =>
    simp only [run_step]
    rcases hc with hc | hc
    · subst hc
      have e : mm_free st.1 0 = st.1 := by
        unfold mm_free
        simp
      rw [e]
      refine ⟨L, F, hinv, ?_⟩
      rw [List.erase_of_not_mem]
      · exact hlive
      · intro hmem
        have := hlive.subset hmem
        rw [List.mem_map] at this
        obtain ⟨x, hx, hx0⟩ := this
        obtain ⟨-, r2, -, -⟩ := live_blocks_spec st.1.mem L _ hinv.wf hinv.tagged.2.1 x hx
        omega
    · obtain ⟨L', F', e2, e3⟩ := heap_inv_free st.1 p0 L F p hinv (hlive.subset hc)
      exact ⟨L', F', e2, (e3.trans (hlive.erase p).symm).symm⟩

theorem run_inv (p0 : Nat) : ∀ (cs : List Call) (st : Heap × List Nat),
    (∃ L F, heap_inv st.1 p0 L F ∧ st.2.Perm ((live_blocks (p0 + 4) L).map Prod.fst)) →
    run_ok st cs →
    ∃ L F, heap_inv (run st cs).1 p0 L F ∧
      (run st cs).2.Perm ((live_blocks (p0 + 4) L).map Prod.fst) := by
  intro cs
  induction cs with
  | nil => intro st h _; exact h
  | cons c cs ih =>
    intro st h hok
    obtain ⟨hc, hrest⟩ := hok
    exact ih (run_step st c) (run_step_inv p0 st c h hc) hrest

/-- Every run of in-range calls from `mm_init` on an in-range arena keeps the
heap invariant, and its live pointers are exactly the allocated blocks. -/
theorem in_range_runs_keep_invariant (s0 : Heap) (cs : List Call) (h : arena_ok s0)
    (hok : run_ok ((mm_init s0).2, []) cs) :
    ∃ L F, heap_inv (run ((mm_init s0).2, []) cs).1 s0.brk L F ∧
      (run ((mm_init s0).2, []) cs).2.Perm ((live_blocks (s0.brk + 4) L).map Prod.fst) := by
  apply run_inv s0.brk cs _ _ hok
  exact ⟨[], [], (heap_inv_init s0 h).2, List.Perm.refl _⟩

/-- Supporting C1 and C3: after any run of in-range calls from `mm_init` on an
in-range arena, every live pointer is 8-byte aligned and its block lies inside
the arena, and the blocks of two distinct live pointers share no byte. -/
theorem in_range_live_blocks_disjoint (s0 : Heap) (cs : List Call) (h : arena_ok s0)
    (hok : run_ok ((mm_init s0).2, []) cs) :
    (∀ p ∈ (run ((mm_init s0).2, []) cs).2,
      p % 8 = 0 ∧ (run ((mm_init s0).2, []) cs).1.heap_lo ≤ p ∧
      p + GET_SIZE (run ((mm_init s0).2, []) cs).1.mem (HDRP p)
        ≤ (run ((mm_init s0).2, []) cs).1.brk) ∧
    (∀ p ∈ (run ((mm_init s0).2, []) cs).2, ∀ q ∈ (run ((mm_init s0).2, []) cs).2, p ≠ q →
      p + GET_SIZE (run ((mm_init s0).2, []) cs).1.mem (HDRP p) ≤ q ∨
      q + GET_SIZE (run ((mm_init s0).2, []) cs).1.mem (HDRP q) ≤ p) := by
  obtain ⟨L, F, hinv, hlive⟩ := in_range_runs_keep_invariant s0 cs h hok
  generalize run ((mm_init s0).2, []) cs = st at hinv hlive ⊢
  have hspec := live_blocks_spec st.1.mem L _ hinv.wf hinv.tagged.2.1
  have hsorted := live_blocks_sorted L (s0.brk + 4) hinv.wf
  have h8 := hinv.aligned
  have hlo := hinv.lo
  have htop := hinv.top
  have hget : ∀ p ∈ st.2, ∃ x ∈ live_blocks (s0.brk + 4) L, x.1 = p := by
    intro p hp
    have := hlive.subset hp
    rw [List.mem_map] at this
    exact this
  constructor
  · intro p hp
    obtain ⟨x, hx, hxp⟩ := hget p hp
    obtain ⟨r1, r2, r3, r4⟩ := hspec x hx
    rw [← hxp, r1]
    exact ⟨r4 (by omega), by omega, by omega⟩
  · intro p hp q hq hpq
    obtain ⟨x, hx, hxp⟩ := hget p hp
    obtain ⟨y, hy, hyq⟩ := hget q hq
    obtain ⟨r1, -⟩ := hspec x hx
    obtain ⟨s1, -⟩ := hspec y hy
    have hxy : x ≠ y := by
      intro e
      apply hpq
      rw [← hxp, ← hyq, e]
    have hsym : (live_blocks (s0.brk + 4) L).Pairwise
        (fun a b => a.1 + a.2 + 8 ≤ b.1 ∨ b.1 + b.2 + 8 ≤ a.1) :=
      hsorted.imp (fun hab => Or.inl hab)
    have := hsym.forall (fun a b hab => hab.symm) hx hy hxy
    rw [← hxp, ← hyq, r1, s1]
    omega

/-- Supporting C3 and C4: in any state reached by in-range calls from
`mm_init` on an in-range arena, a request of at most `4294967280` bytes that
succeeds returns an 8-byte aligned pointer to a block whose encoded size is at
least the adjusted size, hence a multiple of 8, at least 32 and at least the
request. -/
theorem in_range_results_aligned (s0 : Heap) (cs : List Call) (size : Nat) (h : arena_ok s0)
    (hok : run_ok ((mm_init s0).2, []) cs) (hsz : size ≤ 4294967280)
    (hp : (mm_malloc (run ((mm_init s0).2, []) cs).1 size).1 ≠ 0) :
    (mm_malloc (run ((mm_init s0).2, []) cs).1 size).1 % 8 = 0 ∧
    GET_SIZE (mm_malloc (run ((mm_init s0).2, []) cs).1 size).2.mem
      (HDRP (mm_malloc (run ((mm_init s0).2, []) cs).1 size).1) % 8 = 0 ∧
    32 ≤ GET_SIZE (mm_malloc (run ((mm_init s0).2, []) cs).1 size).2.mem
      (HDRP (mm_malloc (run ((mm_init s0).2, []) cs).1 size).1) ∧
    size ≤ GET_SIZE (mm_malloc (run ((mm_init s0).2, []) cs).1 size).2.mem
      (HDRP (mm_malloc (run ((mm_init s0).2, []) cs).1 size).1) := by
  obtain ⟨L, F, hinv, -⟩ := in_range_runs_keep_invariant s0 cs h hok
  generalize run ((mm_init s0).2, []) cs = st at hinv hp ⊢
  obtain ⟨g1, g2, -⟩ := adjusted_size_ge size hsz
  rcases heap_inv_malloc st.1 s0.brk L F size hinv hsz with ⟨e1, -⟩ | ⟨-, L', F', e2, -, sz, e4, e5⟩
  · exact absurd e1 hp
  · obtain ⟨r1, -, -, r4⟩ := live_blocks_spec _ L' _ e2.wf e2.tagged.2.1 _ e5
    have h8 := e2.aligned
    simp only [] at r1 r4
    refine ⟨r4 (by omega), GET_SIZE_mod8 _ _, ?_, ?_⟩
    · rw [r1]
      omega
    · rw [r1]
      omega

/-- The in-range theorem at a concrete run: a fresh 1 MiB arena at address 4096
and the calls of Scenario A followed by a larger request. -/
theorem in_range_runs_witness :
    arena_ok (fresh 4096 1048576) ∧
    run_ok ((mm_init (fresh 4096 1048576)).2, [])
      [Call.allocate 16, Call.allocate 16, Call.release 4104, Call.allocate 100] ∧
    ∀ p ∈ (run ((mm_init (fresh 4096 1048576)).2, [])
        [Call.allocate 16, Call.allocate 16, Call.release 4104, Call.allocate 100]).2,
      p % 8 = 0 ∧
      (run ((mm_init (fresh 4096 1048576)).2, [])
        [Call.allocate 16, Call.allocate 16, Call.release 4104, Call.allocate 100]).1.heap_lo ≤ p ∧
      p + GET_SIZE (run ((mm_init (fresh 4096 1048576)).2, [])
        [Call.allocate 16, Call.allocate 16, Call.release 4104, Call.allocate 100]).1.mem (HDRP p)
        ≤ (run ((mm_init (fresh 4096 1048576)).2, [])
        [Call.allocate 16, Call.allocate 16, Call.release 4104, Call.allocate 100]).1.brk :=
  have h1 : arena_ok (fresh 4096 1048576) := by
    unfold arena_ok
    decide
  have h2 : run_ok ((mm_init (fresh 4096 1048576)).2, [])
      [Call.allocate 16, Call.allocate 16, Call.release 4104, Call.allocate 100] := by
    refine ⟨?_, ?_, ?_, ?_, trivial⟩
    · show (16 : Nat) ≤ 4294967280
      decide
    · show (16 : Nat) ≤ 4294967280
      decide
    · right
      decide
    · show (100 : Nat) ≤ 4294967280
      decide
  ⟨h1, h2, (in_range_live_blocks_disjoint _ _ h1 h2).1⟩

/-! ## The checker and the reachable invariants at failing inputs -/

/-- C11. On a heap with two adjacent free blocks, both in the free list
(`adjacent_free_heap`, free list `[4104, 4144]`), `mm_check` returns 1: its
fourth check prints its line for both nodes but leaves `consistent` alone. By
the boundary tags the node 4104 has a free successor (4144), so it does not
satisfy the four properties that the result is said to reflect. -/
theorem C11_check_returns_one_on_adjacent_free :
    free_nodes adjacent_free_heap.mem 500 adjacent_free_heap.free_list = [4104, 4144] ∧
    mm_check adjacent_free_heap 3 = some (1, [Diag.contiguous_free, Diag.contiguous_free]) ∧
    GET_ALLOC adjacent_free_heap.mem (HDRP 4104) = 0 ∧
    NEXT_BLKP adjacent_free_heap.mem 4104 = 4144 ∧
    GET_ALLOC adjacent_free_heap.mem (HDRP 4144) = 0 ∧
    ¬ node_consistent adjacent_free_heap 4104 := by
  unfold node_consistent neighbours_allocated
  decide

/-- The first check of `mm_check` reads the word at the node, not its boundary
tag: a free-list node whose header and footer are marked allocated
(`marked_allocated_heap`) is not reported and the result is 1. -/
theorem check_misses_allocated_node :
    free_nodes marked_allocated_heap.mem 500 marked_allocated_heap.free_list = [4144] ∧
    GET_ALLOC marked_allocated_heap.mem (HDRP 4144) = 1 ∧
    GET_ALLOC marked_allocated_heap.mem (FTRP marked_allocated_heap.mem 4144) = 1 ∧
    mm_check marked_allocated_heap 2 = some (1, [Diag.contiguous_free]) := by
  decide

/-- C12. Scenario C with three requests of 16 bytes on a fresh arena: the free
list has exactly one node, the middle block, and `mm_check` returns 1, but it
prints "ERROR: Two or more contiguous blocks are free.": the fourth check
reads the first payload word of the two allocated neighbours, which is 0. -/
theorem C12_scenarioC_reports_contiguous :
    (scenarioC.1, scenarioC.2.1, scenarioC.2.2.1) = (4104, 4144, 4184) ∧
    free_nodes scenarioC.2.2.2.mem 500 scenarioC.2.2.2.free_list = [4144] ∧
    GET_ALLOC scenarioC.2.2.2.mem (HDRP 4104) = 1 ∧
    GET_ALLOC scenarioC.2.2.2.mem (HDRP 4184) = 1 ∧
    NEXT_BLKP scenarioC.2.2.2.mem 4144 = 4184 ∧
    PREV_BLKP scenarioC.2.2.2.mem 4144 = 4104 ∧
    mm_check scenarioC.2.2.2 2 = some (1, [Diag.contiguous_free]) := by
  decide

/-- C13. After `mm_init(); a = mm_malloc(1); b = mm_malloc(4294967296);
c = mm_malloc(1); mm_free(b)` the free list is `[b]`, but the boundary-tag
traversal of the arena meets the live block `c` with its allocation bit clear:
`b` has size 0, and storing its links overwrote the header of `c`. The free
list does not hold every block whose allocation bit is clear. -/
theorem C13_free_block_not_in_list :
    (three_blocks.1, three_blocks.2.1, three_blocks.2.2.1) = (4104, 4144, 4152) ∧
    free_nodes zero_block_released.mem 500 zero_block_released.free_list = [4144] ∧
    arena_blocks zero_block_released 500 = [4104, 4144, 4152, 4160, 4168, 4176, 4184] ∧
    GET_ALLOC zero_block_released.mem (HDRP 4152) = 0 ∧
    4152 ∉ free_nodes zero_block_released.mem 500 zero_block_released.free_list := by
  decide

/-- C14. In the same state the free block `b` (4144) is followed by a block
whose header has the allocation bit clear: both `b` and its immediate
successor are free by their boundary tags. -/
theorem C14_adjacent_blocks_both_clear :
    GET_ALLOC zero_block_released.mem (HDRP 4144) = 0 ∧
    GET_ALLOC zero_block_released.mem (FTRP zero_block_released.mem 4144) = 0 ∧
    NEXT_BLKP zero_block_released.mem 4144 = 4152 ∧
    GET_ALLOC zero_block_released.mem (FTRP zero_block_released.mem 4144 + 4) = 0 ∧
    GET_ALLOC zero_block_released.mem (HDRP (NEXT_BLKP zero_block_released.mem 4144)) = 0 := by
  decide

/-- C17. After `mm_init(); a = mm_malloc(1); b = mm_malloc(4294967296);
c = mm_malloc(1); mm_free(b); mm_free(a); a2 = mm_malloc(1)` the free list is
empty and `a2` (4104) is live, but the header that follows its block has the
allocation bit clear. `mm_free(a2)` inserts the block with size 40, whereas
the variant that always coalesces merges it with its successor and leaves the
size 48: the two resulting states differ. -/
theorem C17_skipping_coalesce_differs :
    zero_block_reused.1 = 4104 ∧ zero_block_reused.2.free_list = 0 ∧
    GET_ALLOC zero_block_reused.2.mem (FTRP zero_block_reused.2.mem 4104 + 4) = 0 ∧
    GET (mm_free zero_block_reused.2 4104).mem (HDRP 4104) = 40 ∧
    GET (mm_free_always_coalesce zero_block_reused.2 4104).mem (HDRP 4104) = 48 := by
  decide

/-! ## The list primitives and the tag layout -/

theorem nodes_ok_nodup (F : List Nat) (h : nodes_ok F) : F.Nodup := by
  refine h.2.imp ?_
  intro a b hab
  omega

/-- C18. `delete` unlinks exactly the given node. On a well-formed doubly
linked free list `F` (nodes linked in both directions, first node without
predecessor, nodes not overlapping) and a member `x`, the list after
`delete(x)` is `F` with `x` erased: walking from the root by next references
yields exactly that sequence, which keeps the order of the remaining nodes and
is again well formed; in particular the new root has no predecessor, and when
`x` was the root the root becomes the former next of `x`. -/
theorem C18_delete_unlinks (s : Heap) (x : Nat) (F : List Nat) (h : free_list_is s F)
    (hok : nodes_ok F) (hx : x ∈ F) :
    free_list_is (delete s x) (F.erase x) ∧
    free_nodes (delete s x).mem F.length (delete s x).free_list = F.erase x ∧
    (F.erase x).Sublist F ∧ x ∉ F.erase x ∧ nodes_ok (F.erase x) ∧
    ((delete s x).free_list ≠ 0 →
      GET_PREV_FREE (delete s x).mem (delete s x).free_list = 0) ∧
    (s.free_list = x → (delete s x).free_list = GET_NEXT_FREE s.mem x) := by
  have hnd := nodes_ok_nodup F hok
  obtain ⟨F1, F2, hF⟩ := List.append_of_mem hx
  subst hF
  have hx1 : x ∉ F1 := by
    intro hm
    have := List.nodup_append.1 hnd
    exact this.2.2 hm (List.mem_cons_self _ _)
  have hx2 : x ∉ F2 := by
    have := List.nodup_append.1 hnd
    exact (List.nodup_cons.1 this.2.1).1
  have he : (F1 ++ x :: F2).erase x = F1 ++ F2 := by
    rw [List.erase_append_right _ hx1, List.erase_cons_head]
  obtain ⟨d1, -, -, -, -⟩ := delete_spec s x F1 F2 h hok
  have hok' : nodes_ok (F1 ++ F2) := by
    refine ⟨fun y hy => hok.1 y ?_, ?_⟩
    · rw [List.mem_append] at hy ⊢
      rcases hy with hy | hy
      · exact Or.inl hy
      · exact Or.inr (List.mem_cons_of_mem _ hy)
    · have hp := hok.2
      rw [List.pairwise_append] at hp ⊢
      refine ⟨hp.1, (List.pairwise_cons.1 hp.2.1).2, ?_⟩
      intro a ha b hb
      exact hp.2.2 a ha b (List.mem_cons_of_mem _ hb)
  rw [he]
  refine ⟨d1, ?_, ?_, ?_, hok', ?_, ?_⟩
  · rw [d1.1]
    apply free_nodes_of_links _ _ 0 _ d1.2 (fun y hy => (hok'.1 y hy).1)
    simp
  · rw [← he]
    exact List.erase_sublist _ _
  · intro hm
    rw [List.mem_append] at hm
    rcases hm with hm | hm
    · exact hx1 hm
    · exact hx2 hm
  · intro h0
    have hl := d1.2
    rw [d1.1] at h0 ⊢
    cases hF : F1 ++ F2 with
    | nil => rw [hF] at h0; exact absurd rfl h0
    | cons y G =>
      rw [hF] at hl
      exact hl.1
  · intro hroot
    have hl := h.1
    cases F1 with
    | nil =>
      rw [d1.1]
      have := h.2
      simp only [List.nil_append, links] at this ⊢
      rw [this.2.1]
    | cons y G =>
      exfalso
      apply hx1
      rw [← hroot, hl]
      simp

/-- C19. `add` prepends. On a well-formed doubly linked free list `F` and a
block `bp` that is not a member (and does not overlap a member), after
`add(bp)` the root is `bp`, its previous reference is `NULL`, its next
reference is the former root (`NULL` when `F` was empty), the former root's
previous reference is `bp`, and walking from the root yields `bp` followed by
`F`. -/
theorem C19_add_prepends (s : Heap) (bp : Nat) (F : List Nat) (h : free_list_is s F)
    (hok : nodes_ok (bp :: F)) :
    (add s bp).free_list = bp ∧
    GET_PREV_FREE (add s bp).mem bp = 0 ∧
    GET_NEXT_FREE (add s bp).mem bp = s.free_list ∧
    (F = [] → GET_NEXT_FREE (add s bp).mem bp = 0) ∧
    (s.free_list ≠ 0 → GET_PREV_FREE (add s bp).mem s.free_list = bp) ∧
    free_list_is (add s bp) (bp :: F) ∧
    free_nodes (add s bp).mem (F.length + 2) (add s bp).free_list = bp :: F := by
  obtain ⟨a1, a2, a3, a4, a5, -, -, -, -⟩ := add_spec s bp F h hok
  refine ⟨a2, a3, a4, ?_, a5, a1, ?_⟩
  · intro hF
    rw [a4, h.1, hF]
    rfl
  · rw [a2]
    exact free_nodes_of_links _ (bp :: F) 0 _ a1.2 (fun y hy => (hok.1 y hy).1) (by simp)

/-- C20 as stated fails: for the block that `mm_malloc(16)` returns on the
fresh arena, the encoded size is 32 and the footer is not at the header
address plus the size; the word there is not the copy of the header. -/
theorem C20_counterexample :
    (mm_malloc heap0 16).1 = 4104 ∧
    GET_SIZE (mm_malloc heap0 16).2.mem (HDRP 4104) = 32 ∧
    FTRP (mm_malloc heap0 16).2.mem 4104 ≠ HDRP 4104 + 32 ∧
    GET (mm_malloc heap0 16).2.mem (HDRP 4104) = 33 ∧
    GET (mm_malloc heap0 16).2.mem (HDRP 4104 + 32) = 0 ∧
    GET (mm_malloc heap0 16).2.mem (FTRP (mm_malloc heap0 16).2.mem 4104) = 33 := by
  decide

/-- C20, amended. For a block with payload pointer `bp` and encoded size `sz`
the header address is `bp - 4` and the footer address is the payload pointer
plus the size, which is the header address plus the size plus 4; the next
block starts 8 bytes after the footer address. -/
theorem C20_footer_at_payload_plus_size (m : Mem) (bp sz : Nat) (h4 : 4 ≤ bp)
    (hsz : GET_SIZE m (HDRP bp) = sz) :
    HDRP bp = bp - 4 ∧ HDRP bp + 4 = bp ∧ FTRP m bp = bp + sz ∧
    FTRP m bp = HDRP bp + sz + 4 ∧ FTRP m bp ≠ HDRP bp + sz ∧
    NEXT_BLKP m bp = FTRP m bp + 8 := by
  unfold FTRP NEXT_BLKP
  rw [hsz]
  unfold HDRP
  omega

/-- Witness for C20: the block returned by `mm_malloc(16)` on the fresh arena. -/
theorem C20_footer_at_payload_plus_size_witness :
    FTRP (mm_malloc heap0 16).2.mem 4104 = HDRP 4104 + 32 + 4 :=
  (C20_footer_at_payload_plus_size (mm_malloc heap0 16).2.mem 4104 32 (by decide)
    (by decide)).2.2.2.1

/-- Witness for C18: deleting the root of the two-node free list of
`adjacent_free_heap`. -/
theorem C18_delete_unlinks_witness :
    free_nodes (delete adjacent_free_heap 4104).mem 2 (delete adjacent_free_heap 4104).free_list
      = [4104, 4144].erase 4104 :=
  (C18_delete_unlinks adjacent_free_heap 4104 [4104, 4144]
    ⟨by decide, by decide, by decide, by decide, by decide, trivial⟩
    (by unfold nodes_ok; decide) (by decide)).2.1

/-- Witness for C19: inserting the block at 4104 in the one-node free list of
Scenario C. -/
theorem C19_add_prepends_witness :
    free_nodes (add scenarioC.2.2.2 4104).mem 3 (add scenarioC.2.2.2 4104).free_list
      = [4104, 4144] :=
  (C19_add_prepends scenarioC.2.2.2 4104 [4144]
    ⟨by decide, by decide, by decide, trivial⟩
    (by unfold nodes_ok; decide)).2.2.2.2.2.2

/-! ## Merging on release -/

/-- The four tag stores of case 3 of `coalesce` (after the marking step of
`mm_free`): the words read back, and the bytes left alone. Here `ph`, `hd` and
`ft` are the addresses of the predecessor's header and of the header and the
footer of the released block. -/
theorem case3_memory (m : Mem) (ph hd ft size psz : Nat) (e1 : ph + psz + 8 = hd)
    (e2 : ft = hd + 4 + size) (hlt : size + psz + 8 < 4294967296) :
    GET (PUT (PUT (PUT (PUT m hd size) ft size) ph (size + psz + 8)) ft (size + psz + 8)) ph
      = psz + size + 8 ∧
    GET (PUT (PUT (PUT (PUT m hd size) ft size) ph (size + psz + 8)) ft (size + psz + 8)) ft
      = psz + size + 8 ∧
    ∀ a, ¬ (hd ≤ a ∧ a < hd + 4) → ¬ (ft ≤ a ∧ a < ft + 4) → ¬ (ph ≤ a ∧ a < ph + 4) →
      PUT (PUT (PUT (PUT m hd size) ft size) ph (size + psz + 8)) ft (size + psz + 8) a = m a := by
  refine ⟨?_, ?_, ?_⟩
  · rw [GET_PUT_other _ _ _ _ (by omega), GET_PUT_same, Nat.mod_eq_of_lt hlt]
    omega
  · rw [GET_PUT_same, Nat.mod_eq_of_lt hlt]
    omega
  · intro a h1 h2 h3
    rw [PUT_frame _ _ _ _ (by omega), PUT_frame _ _ _ _ (by omega),
      PUT_frame _ _ _ _ (by omega), PUT_frame _ _ _ _ (by omega)]

/-- Case 3 of `coalesce` on a heap that satisfies the invariant: the memory
after `mm_free` in closed form, and the sizes involved. -/
theorem mm_free_case3_inv (s : Heap) (p0 size psz : Nat) (P Q : List (Nat × Nat))
    (F : List Nat) (h : heap_inv s p0 (P ++ (psz, 0) :: (size, 1) :: Q) F)
    (hr : head_alloc Q = 1) :
    mm_free s (p0 + 16 + span P + psz) = { s with
      mem := PUT (PUT (PUT (PUT s.mem (p0 + 12 + span P + psz) size)
        (p0 + 16 + span P + psz + size) size) (p0 + 4 + span P) (size + psz + 8))
        (p0 + 16 + span P + psz + size) (size + psz + 8) } ∧
    GET_SIZE s.mem (p0 + 8 + span P + psz) = psz ∧
    GET_SIZE s.mem (p0 + 4 + span P) = psz ∧
    GET_SIZE s.mem (p0 + 12 + span P + psz) = size ∧
    size + psz + 8 < 4294967296 ∧ 24 ≤ psz ∧ 24 ≤ size ∧ psz % 8 = 0 ∧ size % 8 = 0 ∧
    blocks_wf P ∧ blocks_wf Q ∧ s.free_list ≠ 0 := by
  obtain ⟨c1, c2, c3, c4, c5, -, -, wP, -, -, -⟩ :=
    heap_inv_block s p0 P ((size, 1) :: Q) (psz, 0) F h
  obtain ⟨b1, b2, b3, b4, b5, -, b7, -, wQ, -, n2⟩ :=
    heap_inv_block s p0 (P ++ [(psz, 0)]) Q (size, 1) F (heap_inv_assoc s p0 P Q _ _ F h)
  simp only [span_concat, Nat.add_zero] at c1 c2 c3 c4 c5 b1 b2 b3 b4 b5 b7 n2
  have hcap := h.cap
  have hsmall := h.small
  have haddr := h.addr
  have hfl : s.free_list ≠ 0 := by
    apply heap_inv_list_ne_nil s p0 _ F h (p0 + 4 + span P + 4)
    rw [free_addrs_append]
    simp [free_addrs]
  have hpsz : GET_SIZE s.mem (p0 + 8 + span P + psz) = psz :=
    GET_SIZE_of_GET _ _ _ 0 c2 c4 (by omega)
  have hpal : GET_ALLOC s.mem (p0 + 8 + span P + psz) = 0 :=
    GET_ALLOC_of_GET _ _ _ 0 c2 c4 (by omega)
  have hsz : GET_SIZE s.mem (p0 + 12 + span P + psz) = size := by
    rw [← b3]
    congr 1
    omega
  refine ⟨?_, hpsz, c3, hsz, by omega, c5, b5, c4, b4, wP, wQ, hfl⟩
  exact mm_free_case3 s (p0 + 16 + span P + psz) (p0 + 12 + span P + psz)
    (p0 + 16 + span P + psz + size) (p0 + 8 + span P + psz) (p0 + 20 + span P + psz + size)
    (p0 + 4 + span P) size psz (by omega) rfl (by omega) (by omega) (by omega)
    hsz hfl hpal hpsz c3
    (by rw [← hr, ← n2]; congr 1; omega) (by omega)

/-- The link fields of the free-list nodes lie outside the three tag words
that case 3 of `coalesce` writes. -/
theorem case3_nodes_apart (s : Heap) (p0 size psz : Nat) (P Q : List (Nat × Nat))
    (F : List Nat) (h : heap_inv s p0 (P ++ (psz, 0) :: (size, 1) :: Q) F) :
    ∀ x ∈ F, ∀ a, x ≤ a → a < x + 16 →
      ¬ (p0 + 12 + span P + psz ≤ a ∧ a < p0 + 12 + span P + psz + 4) ∧
      ¬ (p0 + 16 + span P + psz + size ≤ a ∧ a < p0 + 16 + span P + psz + size + 4) ∧
      ¬ (p0 + 4 + span P ≤ a ∧ a < p0 + 4 + span P + 4) := by
  obtain ⟨-, -, -, c4, c5, -, -, wP, -, -, -⟩ :=
    heap_inv_block s p0 P ((size, 1) :: Q) (psz, 0) F h
  obtain ⟨-, -, -, b4, b5, -, -, -, wQ, -, -⟩ :=
    heap_inv_block s p0 (P ++ [(psz, 0)]) Q (size, 1) F (heap_inv_assoc s p0 P Q _ _ F h)
  simp only [] at c4 c5 b4 b5
  intro x hx a h1 h2
  rcases free_addrs_middle (p0 + 4) P [(psz, 0), (size, 1)] Q wP wQ x (h.perm.subset hx) with
    ⟨-, h3, h4⟩ | hmid | ⟨-, h3, h4⟩
  · omega
  · simp [free_addrs] at hmid
    omega
  · simp only [span] at h3 h4
    omega

/-- Supporting C16: coalescing into a free predecessor performs no list
operation when the sizes fit their tags. On a heap that satisfies the
invariant, which bounds the arena by 2 GiB, when `mm_free(p)` is called for a
live `p`
whose predecessor is free and whose successor is allocated (so the free list
is not empty), the free-list root and the two references stored in every
free-list node are the same before and after the call, hence so is the list;
the only bytes that change are those of the header and the footer of the
released block and of the header of the predecessor; and the predecessor's
header and its new footer, which is the footer word of the released block,
both encode the sum of the two sizes plus 8, free. -/
theorem merge_into_predecessor_in_range (s : Heap) (p0 : Nat) (L : List (Nat × Nat))
    (F : List Nat) (p : Nat) (h : heap_inv s p0 L F)
    (hp : p ∈ (live_blocks (p0 + 4) L).map Prod.fst)
    (hprev : GET_ALLOC s.mem (p - 8) = 0)
    (hnext : GET_ALLOC s.mem (FTRP s.mem p + 4) ≠ 0) :
    s.free_list ≠ 0 ∧
    (mm_free s p).free_list = s.free_list ∧
    (∀ x ∈ F, GET_PREV_FREE (mm_free s p).mem x = GET_PREV_FREE s.mem x ∧
      GET_NEXT_FREE (mm_free s p).mem x = GET_NEXT_FREE s.mem x) ∧
    free_list_is s F ∧ free_list_is (mm_free s p) F ∧
    (∀ a, ¬ (HDRP p ≤ a ∧ a < HDRP p + 4) →
      ¬ (FTRP s.mem p ≤ a ∧ a < FTRP s.mem p + 4) →
      ¬ (HDRP (PREV_BLKP s.mem p) ≤ a ∧ a < HDRP (PREV_BLKP s.mem p) + 4) →
      (mm_free s p).mem a = s.mem a) ∧
    GET (mm_free s p).mem (HDRP (PREV_BLKP s.mem p)) =
      PACK (GET_SIZE s.mem (HDRP (PREV_BLKP s.mem p)) + GET_SIZE s.mem (HDRP p) + 8) 0 ∧
    FTRP (mm_free s p).mem (PREV_BLKP s.mem p) = FTRP s.mem p ∧
    GET (mm_free s p).mem (FTRP (mm_free s p).mem (PREV_BLKP s.mem p)) =
      PACK (GET_SIZE s.mem (HDRP (PREV_BLKP s.mem p)) + GET_SIZE s.mem (HDRP p) + 8) 0 := by
  obtain ⟨P, size, Q, hL, hpe⟩ := live_blocks_split L (p0 + 4) p h.wf hp
  subst hL
  obtain ⟨-, -, b3, -, -, -, -, wP, wQ, n1, n2⟩ := heap_inv_block s p0 P Q (size, 1) F h
  simp only [] at b3 n2
  have ehd0 : HDRP p = p0 + 4 + span P := by
    unfold HDRP
    omega
  have eft0 : FTRP s.mem p = p + size := by
    unfold FTRP
    rw [ehd0, b3]
  rw [show p - 8 = p0 + span P by omega, n1] at hprev
  rw [eft0, show p + size + 4 = p0 + span P + 12 + size by omega, n2] at hnext
  rcases last_alloc_cases P wP with hl | ⟨P', psz, hP⟩
  · omega
  subst hP
  rcases head_alloc_cases Q wQ with hr | ⟨nsz, Q', hQ⟩
  swap
  · subst hQ
    exact absurd rfl hnext
  have h' : heap_inv s p0 (P' ++ (psz, 0) :: (size, 1) :: Q) F := by
    rw [List.append_assoc] at h
    exact h
  rw [span_concat] at hpe ehd0
  simp only [] at hpe ehd0
  obtain ⟨hcl, hpsz, hphd, hsz, hlt, hp24, hs24, hp8, hs8, -, -, hfl⟩ :=
    mm_free_case3_inv s p0 size psz P' Q F h' hr
  have hinv := heap_inv_free_case3 s p0 size psz P' Q F h' hr
  have hapart := case3_nodes_apart s p0 size psz P' Q F h'
  obtain ⟨m1, m2, m3⟩ := case3_memory s.mem (p0 + 4 + span P') (p0 + 12 + span P' + psz)
    (p0 + 16 + span P' + psz + size) size psz (by omega) (by omega) hlt
  have ep : p = p0 + 16 + span P' + psz := by omega
  have epb : PREV_BLKP s.mem p = p0 + 8 + span P' := by
    unfold PREV_BLKP
    rw [show p - 8 = p0 + 8 + span P' + psz by omega, hpsz]
    omega
  have eph : HDRP (PREV_BLKP s.mem p) = p0 + 4 + span P' := by
    rw [epb]
    unfold HDRP
    omega
  have ehd : HDRP p = p0 + 12 + span P' + psz := by omega
  have eft : FTRP s.mem p = p0 + 16 + span P' + psz + size := by omega
  have hsz' : GET_SIZE s.mem (HDRP p) = size := by rw [ehd]; exact hsz
  have hpsz' : GET_SIZE s.mem (HDRP (PREV_BLKP s.mem p)) = psz := by rw [eph]; exact hphd
  have hl' := hinv.list
  clear hinv h' hp
  generalize PUT (PUT (PUT (PUT s.mem (p0 + 12 + span P' + psz) size)
      (p0 + 16 + span P' + psz + size) size) (p0 + 4 + span P') (size + psz + 8))
      (p0 + 16 + span P' + psz + size) (size + psz + 8) = m' at hcl m1 m2 m3
  rw [← ep] at hcl hl'
  generalize mm_free s p = s' at hcl hl' ⊢
  subst hcl
  rw [hsz', hpsz', PACK_free, eph, eft, ehd, epb]
  have hft' : FTRP m' (p0 + 8 + span P') = p0 + 16 + span P' + psz + size := by
    unfold FTRP
    rw [show HDRP (p0 + 8 + span P') = p0 + 4 + span P' by unfold HDRP; omega,
      GET_SIZE_of_GET _ _ (psz + size + 8) 0 m1 (by omega) (by omega)]
    omega
  refine ⟨hfl, rfl, ?_, h.list, hl', ?_, m1, hft', ?_⟩
  · intro x hx
    constructor
    · unfold GET_PREV_FREE
      apply GET_PTR_congr
      intro a h1 h2
      obtain ⟨a1, a2, a3⟩ := hapart x hx a h1 (by omega)
      exact m3 a a1 a2 a3
    · unfold GET_NEXT_FREE
      apply GET_PTR_congr
      intro a h1 h2
      obtain ⟨a1, a2, a3⟩ := hapart x hx a (by omega) (by omega)
      exact m3 a a1 a2 a3
  · intro a h1 h2 h3
    exact m3 a h1 h2 h3
  · show GET m' (FTRP m' (p0 + 8 + span P')) = _
    rw [hft']
    exact m2

/-- The invariant holds in `first_released`, with the tiling free, allocated,
allocated and the free list `[4104]`. -/
theorem first_released_inv :
    heap_inv first_released 4096 [(32, 0), (32, 1), (32, 1)] [4104] := by
  have h0 : heap_inv heap0 4096 [] [] :=
    (heap_inv_init (fresh 4096 1048576) (by unfold arena_ok; decide)).2
  have h1 := (heap_inv_malloc_grow heap0 4096 [] [] 16 h0 (by decide) (by decide) (by decide)
    (by decide)).2
  have h2 := (heap_inv_malloc_grow _ 4096 _ [] 16 h1 (by decide) (by decide) (by decide)
    (by decide)).2
  have h3 := (heap_inv_malloc_grow _ 4096 _ [] 16 h2 (by decide) (by decide) (by decide)
    (by decide)).2
  exact heap_inv_free_case1 _ 4096 32 [] [(32, 1), (32, 1)] [] h3 rfl rfl

/-- An instance: releasing the middle block of `first_released`, whose
predecessor is free and whose successor is allocated. -/
theorem merge_into_predecessor_in_range_witness :
    (mm_free first_released 4144).free_list = first_released.free_list ∧
    GET (mm_free first_released 4144).mem (HDRP (PREV_BLKP first_released.mem 4144)) =
      PACK (GET_SIZE first_released.mem (HDRP (PREV_BLKP first_released.mem 4144)) +
        GET_SIZE first_released.mem (HDRP 4144) + 8) 0 :=
  have h := merge_into_predecessor_in_range first_released 4096 [(32, 0), (32, 1), (32, 1)]
    [4104] 4144 first_released_inv (by decide) (by decide) (by decide)
  ⟨h.2.1, h.2.2.2.2.2.2.1⟩

/-- What `mm_free(p)` reads about the block at `p`, on a heap that satisfies
the invariant. -/
theorem release_reads (s : Heap) (p0 size p : Nat) (P Q : List (Nat × Nat)) (F : List Nat)
    (h : heap_inv s p0 (P ++ (size, 1) :: Q) F) (hp : p = p0 + 8 + span P) :
    GET_SIZE s.mem (HDRP p) = size ∧ GET_ALLOC s.mem (p - 8) = last_alloc P ∧
    GET_ALLOC s.mem (FTRP s.mem p + 4) = head_alloc Q ∧ FTRP s.mem p = p + size ∧
    NEXT_BLKP s.mem p = p + size + 8 := by
  obtain ⟨-, -, b3, -, -, -, -, -, -, n1, n2⟩ := heap_inv_block s p0 P Q (size, 1) F h
  simp only [] at b3 n2
  have ehd : HDRP p = p0 + 4 + span P := by
    unfold HDRP
    omega
  have e1 : GET_SIZE s.mem (HDRP p) = size := by rw [ehd]; exact b3
  refine ⟨e1, ?_, ?_, ?_, ?_⟩
  · rw [show p - 8 = p0 + span P by omega]
    exact n1
  · unfold FTRP
    rw [e1, show p + size + 4 = p0 + span P + 12 + size by omega]
    exact n2
  · unfold FTRP
    rw [e1]
  · unfold NEXT_BLKP
    rw [e1]

/-- What `coalesce` reads about the predecessor of the block at `p`. -/
theorem pred_reads (s : Heap) (p0 size psz al p : Nat) (P Q : List (Nat × Nat)) (F : List Nat)
    (h : heap_inv s p0 (P ++ (psz, al) :: (size, 1) :: Q) F)
    (hp : p = p0 + 16 + span P + psz) :
    PREV_BLKP s.mem p = p0 + 8 + span P ∧ GET_SIZE s.mem (HDRP (PREV_BLKP s.mem p)) = psz := by
  obtain ⟨-, c2, c3, c4, -, c6, -, -, -, -, -⟩ :=
    heap_inv_block s p0 P ((size, 1) :: Q) (psz, al) F h
  simp only [] at c2 c3 c4 c6
  have e1 : GET_SIZE s.mem (p - 8) = psz := by
    rw [show p - 8 = p0 + 8 + span P + psz by omega]
    exact GET_SIZE_of_GET _ _ _ _ c2 c4 (by omega)
  have e2 : PREV_BLKP s.mem p = p0 + 8 + span P := by
    unfold PREV_BLKP
    rw [e1]
    omega
  refine ⟨e2, ?_⟩
  rw [e2, show HDRP (p0 + 8 + span P) = p0 + 4 + span P by unfold HDRP; omega]
  exact c3

/-- What `coalesce` reads about the successor of the block at `p`. -/
theorem succ_reads (s : Heap) (p0 size nsz al p : Nat) (P Q : List (Nat × Nat)) (F : List Nat)
    (h : heap_inv s p0 (P ++ (size, 1) :: (nsz, al) :: Q) F) (hp : p = p0 + 8 + span P) :
    GET_SIZE s.mem (HDRP (NEXT_BLKP s.mem p)) = nsz := by
  obtain ⟨-, -, -, -, e5⟩ := release_reads s p0 size p P ((nsz, al) :: Q) F h hp
  obtain ⟨-, -, c3, -⟩ :=
    heap_inv_block s p0 (P ++ [(size, 1)]) Q (nsz, al) F (heap_inv_assoc s p0 P Q _ _ F h)
  rw [span_concat] at c3
  simp only [] at c3
  rw [e5, show HDRP (p + size + 8) = p0 + 4 + (span P + size + 8) by unfold HDRP; omega]
  exact c3

/-- A free block of a heap that satisfies the invariant: its header and footer
encode its size, it is a member of the free list exactly once, and no address
inside it is a member. -/
theorem free_block_facts (s : Heap) (p0 msz : Nat) (P Q : List (Nat × Nat)) (F : List Nat)
    (h : heap_inv s p0 (P ++ (msz, 0) :: Q) F) :
    GET s.mem (HDRP (p0 + 8 + span P)) = PACK msz 0 ∧
    GET s.mem (FTRP s.mem (p0 + 8 + span P)) = PACK msz 0 ∧
    F.count (p0 + 8 + span P) = 1 ∧
    ∀ y, p0 + 8 + span P < y → y < p0 + 16 + span P + msz → y ∉ F := by
  obtain ⟨b1, b2, b3, -, -, -, -, wP, wQ, -, -⟩ := heap_inv_block s p0 P Q (msz, 0) F h
  simp only [Nat.add_zero] at b1 b2 b3
  have ehd : HDRP (p0 + 8 + span P) = p0 + 4 + span P := by
    unfold HDRP
    omega
  have hnd := nodes_ok_nodup F (heap_inv_nodes_ok s p0 _ F h)
  rw [PACK_free]
  refine ⟨by rw [ehd]; exact b1, ?_, ?_, ?_⟩
  · unfold FTRP
    rw [ehd, b3]
    exact b2
  · apply List.count_eq_one_of_mem hnd
    apply h.perm.symm.subset
    rw [free_addrs_append]
    simp only [free_addrs, if_true]
    rw [show p0 + 4 + span P + 4 = p0 + 8 + span P by omega]
    simp
  · intro y h1 h2 hy
    rcases free_addrs_middle (p0 + 4) P [(msz, 0)] Q wP wQ y (h.perm.subset hy) with
      ⟨-, h3, h4⟩ | hmid | ⟨-, h3, h4⟩
    · omega
    · simp [free_addrs] at hmid
      omega
    · simp only [span] at h3 h4
      omega

/-- Supporting C15: every merge survives as the lowest-address block of the
merged span with the exact combined size when the sizes fit their tags. On a
heap that satisfies the invariant, which bounds the arena by 2 GiB, let `p` be
live and let M be its block together with those of its two neighbours whose
allocation bit is clear. After `mm_free(p)` the invariant still holds, the
lowest block of M has header and footer both encoding the sum of the sizes in
M plus 8 for every neighbour merged, free; that block is a member of the free
list exactly once, and neither `p` (when the predecessor was merged) nor the
successor (when it was merged) is a member. -/
theorem merge_survives_lowest_in_range (s : Heap) (p0 : Nat) (L : List (Nat × Nat))
    (F : List Nat) (p : Nat) (h : heap_inv s p0 L F)
    (hp : p ∈ (live_blocks (p0 + 4) L).map Prod.fst) :
    ∃ L' F', heap_inv (mm_free s p) p0 L' F' ∧
      GET (mm_free s p).mem (HDRP (merged_lowest s p)) = PACK (merged_size s p) 0 ∧
      GET (mm_free s p).mem (FTRP (mm_free s p).mem (merged_lowest s p))
        = PACK (merged_size s p) 0 ∧
      F'.count (merged_lowest s p) = 1 ∧
      (GET_ALLOC s.mem (p - 8) = 0 → p ∉ F') ∧
      (GET_ALLOC s.mem (FTRP s.mem p + 4) = 0 → NEXT_BLKP s.mem p ∉ F') := by
  obtain ⟨P, size, Q, hL, hpe⟩ := live_blocks_split L (p0 + 4) p h.wf hp
  subst hL
  have hw := h.wf
  rw [blocks_wf_append, blocks_wf_cons] at hw
  obtain ⟨wP, ⟨-, hs24, -⟩, wQ⟩ := hw
  simp only [] at hs24
  have hp8 : p = p0 + 8 + span P := by omega
  obtain ⟨e1, e2, e3, -, e5⟩ := release_reads s p0 size p P Q F h hp8
  unfold merged_lowest merged_size
  rw [e1, e2, e3, e5]
  rcases last_alloc_cases P wP with hl | ⟨P', psz, hP⟩
  · rcases head_alloc_cases Q wQ with hr | ⟨nsz, Q', hQ⟩
    · have hinv := heap_inv_free_case1 s p0 size P Q F h hl hr
      obtain ⟨f1, f2, f3, -⟩ := free_block_facts _ p0 size P Q _ hinv
      rw [← hp8] at hinv f1 f2 f3
      refine ⟨_, _, hinv, ?_⟩
      simp only [hl, hr, one_ne_zero, if_false, Nat.add_zero, false_implies, and_true]
      exact ⟨f1, f2, f3⟩
    · subst hQ
      have hnb : p0 + 16 + span P + size ∈ F := by
        apply h.perm.symm.subset
        rw [free_addrs_append]
        simp only [free_addrs, one_ne_zero, if_false, if_true]
        rw [show p0 + 4 + span P + 8 + size + 4 = p0 + 16 + span P + size by omega]
        simp
      obtain ⟨F1, F2, hF⟩ := List.append_of_mem hnb
      subst hF
      have hn := succ_reads s p0 size nsz 0 p P Q' _ h hp8
      rw [e5] at hn
      have hinv := heap_inv_free_case2 s p0 size nsz P Q' F1 F2 h hl
      obtain ⟨f1, f2, f3, f4⟩ := free_block_facts _ p0 (size + nsz + 8) P Q' _ hinv
      rw [← hp8] at hinv f1 f2 f3 f4
      refine ⟨_, _, hinv, ?_⟩
      simp only [hl, hn, head_alloc, one_ne_zero, if_false, if_true, Nat.add_zero,
        false_implies, true_implies, true_and]
      rw [show size + (nsz + 8) = size + nsz + 8 by omega]
      exact ⟨f1, f2, f3, f4 _ (by omega) (by omega)⟩
  · subst hP
    rw [span_concat] at hp8
    simp only [] at hp8
    have h' : heap_inv s p0 (P' ++ (psz, 0) :: (size, 1) :: Q) F := by
      rw [List.append_assoc] at h
      exact h
    have hp16 : p = p0 + 16 + span P' + psz := by omega
    obtain ⟨g1, g2⟩ := pred_reads s p0 size psz 0 p P' Q F h' hp16
    rw [g1] at g2
    have hw' := h'.wf
    rw [blocks_wf_append, blocks_wf_cons] at hw'
    obtain ⟨-, ⟨-, hp24, -⟩, -⟩ := hw'
    simp only [] at hp24
    rw [last_alloc_concat]
    dsimp only
    rcases head_alloc_cases Q wQ with hr | ⟨nsz, Q', hQ⟩
    · have hinv := heap_inv_free_case3 s p0 size psz P' Q F h' hr
      obtain ⟨f1, f2, f3, f4⟩ := free_block_facts _ p0 (psz + size + 8) P' Q _ hinv
      rw [← hp16] at hinv f1 f2
      refine ⟨_, _, hinv, ?_⟩
      simp only [hr, g1, g2, one_ne_zero, if_false, if_true, Nat.add_zero,
        false_implies, true_implies, and_true]
      rw [show size + (psz + 8) = psz + size + 8 by omega]
      exact ⟨f1, f2, f3, f4 _ (by omega) (by omega)⟩
    · subst hQ
      have hnb : p0 + 24 + span P' + psz + size ∈ F := by
        apply h'.perm.symm.subset
        rw [free_addrs_append]
        simp only [free_addrs, one_ne_zero, if_false, if_true]
        rw [show p0 + 4 + span P' + 8 + psz + 8 + size + 4 = p0 + 24 + span P' + psz + size
          by omega]
        simp
      obtain ⟨F1, F2, hF⟩ := List.append_of_mem hnb
      subst hF
      have hn := succ_reads s p0 size nsz 0 p (P' ++ [(psz, 0)]) Q' _ h
        (by rw [span_concat]; simp only []; omega)
      rw [e5] at hn
      have hinv := heap_inv_free_case4 s p0 size psz nsz P' Q' F1 F2 h'
      obtain ⟨f1, f2, f3, f4⟩ := free_block_facts _ p0 (psz + size + nsz + 16) P' Q' _ hinv
      rw [← hp16] at hinv f1 f2
      refine ⟨_, _, hinv, ?_⟩
      simp only [hn, g1, g2, head_alloc, if_true, true_implies]
      rw [show size + (psz + 8) + (nsz + 8) = psz + size + nsz + 16 by omega]
      exact ⟨f1, f2, f3, f4 _ (by omega) (by omega), f4 _ (by omega) (by omega)⟩

/-- An instance: releasing the middle block of `first_released`, whose
predecessor is free: the merged block starts at the predecessor. -/
theorem merge_survives_lowest_in_range_witness :
    merged_lowest first_released 4144 = 4104 ∧ merged_size first_released 4144 = 72 ∧
    ∃ L' F', heap_inv (mm_free first_released 4144) 4096 L' F' ∧
      GET (mm_free first_released 4144).mem (HDRP (merged_lowest first_released 4144))
        = PACK (merged_size first_released 4144) 0 ∧
      GET (mm_free first_released 4144).mem
          (FTRP (mm_free first_released 4144).mem (merged_lowest first_released 4144))
        = PACK (merged_size first_released 4144) 0 ∧
      F'.count (merged_lowest first_released 4144) = 1 ∧
      (GET_ALLOC first_released.mem (4144 - 8) = 0 → 4144 ∉ F') ∧
      (GET_ALLOC first_released.mem (FTRP first_released.mem 4144 + 4) = 0 →
        NEXT_BLKP first_released.mem 4144 ∉ F') :=
  ⟨by decide, by decide,
    merge_survives_lowest_in_range first_released 4096 [(32, 0), (32, 1), (32, 1)] [4104] 4144
      first_released_inv (by decide)⟩

/-! ## Release on an empty free list -/

theorem mm_free_always_coalesce_marks (s : Heap) (bp size : Nat) (h4 : 4 ≤ bp)
    (hsz : GET_SIZE s.mem (HDRP bp) = size) :
    mm_free_always_coalesce s bp =
      coalesce { s with mem := PUT (PUT s.mem (bp - 4) size) (bp + size) size } bp := by
  have h0 : bp ≠ 0 := by omega
  have h8 : size % 8 = 0 := by rw [← hsz]; exact GET_SIZE_mod8 _ _
  have hlt : size < 4294967296 := by rw [← hsz]; exact GET_SIZE_lt _ _
  unfold mm_free_always_coalesce
  simp only [h0, if_false, hsz, PACK_free]
  have hd : HDRP bp = bp - 4 := rfl
  rw [FTRP_eq _ bp size (by rw [hd]; exact GET_SIZE_PUT_same_free _ _ _ h8 hlt), hd]

/-- When both neighbours of the released block are allocated, `mm_free` and
the variant that always coalesces produce the same state, whether or not the
free list is empty. -/
theorem mm_free_eq_always_coalesce (s : Heap) (bp size : Nat) (h8 : 8 ≤ bp)
    (hsz : GET_SIZE s.mem (HDRP bp) = size)
    (hprev : GET_ALLOC s.mem (bp - 8) = 1) (hnext : GET_ALLOC s.mem (bp + size + 4) = 1) :
    mm_free s bp = mm_free_always_coalesce s bp := by
  have hs8 : size % 8 = 0 := by rw [← hsz]; exact GET_SIZE_mod8 _ _
  have hlt : size < 4294967296 := by rw [← hsz]; exact GET_SIZE_lt _ _
  have hd : HDRP bp = bp - 4 := rfl
  have hc : coalesce { s with mem := PUT (PUT s.mem (bp - 4) size) (bp + size) size } bp
      = add { s with mem := PUT (PUT s.mem (bp - 4) size) (bp + size) size } bp := by
    apply coalesce_case1 _ bp size
    · simp only [hd]
      rw [GET_SIZE_PUT_other _ _ _ _ (by omega), GET_SIZE_PUT_same_free _ _ _ hs8 hlt]
    · simp only []
      rw [GET_ALLOC_PUT_other _ _ _ _ (by omega), GET_ALLOC_PUT_other _ _ _ _ (by omega), hprev]
    · simp only []
      rw [GET_ALLOC_PUT_other _ _ _ _ (by omega), GET_ALLOC_PUT_other _ _ _ _ (by omega), hnext]
  rw [mm_free_marks s bp size (by omega) hsz, mm_free_always_coalesce_marks s bp size (by omega) hsz,
    hc]
  split <;> rfl

theorem free_list_nil_of_root_null (s : Heap) (F : List Nat) (h : free_list_is s F)
    (hok : nodes_ok F) (h0 : s.free_list = 0) : F = [] := by
  cases F with
  | nil => rfl
  | cons x F =>
    exfalso
    have := (hok.1 x (List.mem_cons_self _ _)).1
    apply this
    rw [← h0, h.1]
    rfl

/-- In a sequence without free blocks, every block has allocated neighbours. -/
theorem no_free_neighbours (h : Nat) (P Q : List (Nat × Nat)) (b : Nat × Nat)
    (hwf : blocks_wf (P ++ b :: Q)) (hnil : free_addrs h (P ++ b :: Q) = []) :
    last_alloc P = 1 ∧ head_alloc Q = 1 := by
  rw [blocks_wf_append, blocks_wf_cons] at hwf
  obtain ⟨wP, -, wQ⟩ := hwf
  constructor
  · rcases last_alloc_cases P wP with hl | ⟨P', psz, hP⟩
    · exact hl
    · exfalso
      subst hP
      rw [List.append_assoc, free_addrs_append] at hnil
      simp [free_addrs] at hnil
  · rcases head_alloc_cases Q wQ with hr | ⟨nsz, Q', hQ⟩
    · exact hr
    · exfalso
      subst hQ
      rw [free_addrs_append] at hnil
      simp only [free_addrs] at hnil
      split at hnil <;> simp at hnil

/-- Supporting C17: on a heap that satisfies the invariant and whose free list
is empty, both neighbours of every live block are allocated, and `mm_free`
produces the same state as the variant that always coalesces. -/
theorem skip_coalesce_eq (s : Heap) (p0 : Nat) (L : List (Nat × Nat)) (F : List Nat) (p : Nat)
    (h : heap_inv s p0 L F) (h0 : s.free_list = 0)
    (hp : p ∈ (live_blocks (p0 + 4) L).map Prod.fst) :
    GET_ALLOC s.mem (p - 8) = 1 ∧ GET_ALLOC s.mem (FTRP s.mem p + 4) = 1 ∧
    mm_free s p = mm_free_always_coalesce s p := by
  have hF := free_list_nil_of_root_null s F h.list (heap_inv_nodes_ok s p0 L F h) h0
  subst hF
  obtain ⟨P, size, Q, hL, hpe⟩ := live_blocks_split L (p0 + 4) p h.wf hp
  subst hL
  have hnil : free_addrs (p0 + 4) (P ++ (size, 1) :: Q) = [] := (List.Perm.nil_eq h.perm).symm
  obtain ⟨hl, hr⟩ := no_free_neighbours (p0 + 4) P Q (size, 1) h.wf hnil
  obtain ⟨e1, e2, e3, e4, -⟩ := release_reads s p0 size p P Q [] h (by omega)
  rw [hl] at e2
  rw [hr] at e3
  refine ⟨e2, e3, ?_⟩
  apply mm_free_eq_always_coalesce s p size (by omega) e1 e2
  rw [e4] at e3
  exact e3

/-- Supporting C17: after any run of in-range calls from `mm_init` on an
in-range arena, if the free list is empty then `mm_free` of any live pointer
gives the same state as the variant that always coalesces, both neighbours of
its block being allocated. -/
theorem in_range_skip_coalesce (s0 : Heap) (cs : List Call) (h : arena_ok s0)
    (hok : run_ok ((mm_init s0).2, []) cs)
    (h0 : (run ((mm_init s0).2, []) cs).1.free_list = 0) :
    ∀ p ∈ (run ((mm_init s0).2, []) cs).2,
      GET_ALLOC (run ((mm_init s0).2, []) cs).1.mem (p - 8) = 1 ∧
      GET_ALLOC (run ((mm_init s0).2, []) cs).1.mem
        (FTRP (run ((mm_init s0).2, []) cs).1.mem p + 4) = 1 ∧
      mm_free (run ((mm_init s0).2, []) cs).1 p
        = mm_free_always_coalesce (run ((mm_init s0).2, []) cs).1 p := by
  obtain ⟨L, F, hinv, hlive⟩ := in_range_runs_keep_invariant s0 cs h hok
  intro p hp
  exact skip_coalesce_eq _ s0.brk L F p hinv h0 (hlive.subset hp)

/-! ## Boundary-tag traversal of a tiled arena -/

/-- The traversal meets only blocks of the tiling. -/
theorem heap_blocks_sound (m : Mem) : ∀ (L : List (Nat × Nat)) (h fuel : Nat), blocks_wf L →
    tags m h L → ∀ bp ∈ heap_blocks m (h + 4 + span L) fuel (h + 4),
      ∃ P b Q, L = P ++ b :: Q ∧ bp = h + 4 + span P := by
  intro L
  induction L with
  | nil =>
    intro h fuel _ _ bp hbp
    cases fuel with
    | zero => simp [heap_blocks] at hbp
    | succ n => simp [heap_blocks, span] at hbp
  | cons b R ih =>
    intro h fuel hwf ht bp hbp
    rw [blocks_wf_cons] at hwf
    obtain ⟨t1, -, t3⟩ := ht
    cases fuel with
    | zero => simp [heap_blocks] at hbp
    | succ n =>
      have hnext : NEXT_BLKP m (h + 4) = h + 8 + b.1 + 4 := by
        unfold NEXT_BLKP
        rw [show HDRP (h + 4) = h by unfold HDRP; omega,
          GET_SIZE_of_GET _ _ _ _ t1 hwf.1.1 (by omega)]
        omega
      simp only [heap_blocks, span] at hbp
      rw [if_neg (by omega), List.mem_cons, hnext,
        show h + 4 + (b.1 + 8 + span R) = h + 8 + b.1 + 4 + span R by omega] at hbp
      rcases hbp with hbp | hbp
      · exact ⟨[], b, R, rfl, by simp [span, hbp]⟩
      · obtain ⟨P, c, Q, e1, e2⟩ := ih (h + 8 + b.1) n hwf.2 t3 bp hbp
        refine ⟨b :: P, c, Q, by rw [e1]; rfl, ?_⟩
        simp only [span]
        omega

/-- With enough fuel the traversal meets every block of the tiling. -/
theorem heap_blocks_complete (m : Mem) : ∀ (L : List (Nat × Nat)) (h fuel : Nat),
    blocks_wf L → tags m h L → L.length ≤ fuel →
    ∀ P b Q, L = P ++ b :: Q → h + 4 + span P ∈ heap_blocks m (h + 4 + span L) fuel (h + 4) := by
  intro L
  induction L with
  | nil =>
    intro h fuel _ _ _ P b Q hL
    simp at hL
  | cons c R ih =>
    intro h fuel hwf ht hfuel P b Q hL
    rw [blocks_wf_cons] at hwf
    obtain ⟨t1, -, t3⟩ := ht
    cases fuel with
    | zero => simp at hfuel
    | succ n =>
      have hnext : NEXT_BLKP m (h + 4) = h + 8 + c.1 + 4 := by
        unfold NEXT_BLKP
        rw [show HDRP (h + 4) = h by unfold HDRP; omega,
          GET_SIZE_of_GET _ _ _ _ t1 hwf.1.1 (by omega)]
        omega
      simp only [heap_blocks, span]
      rw [if_neg (by omega), List.mem_cons, hnext,
        show h + 4 + (c.1 + 8 + span R) = h + 8 + c.1 + 4 + span R by omega]
      cases P with
      | nil => left; simp [span]
      | cons d P =>
        right
        rw [List.cons_append, List.cons.injEq] at hL
        obtain ⟨hd, hR⟩ := hL
        subst hd
        have := ih (h + 8 + c.1) n hwf.2 t3 (by simp at hfuel; omega) P b Q hR
        simp only [span]
        rw [show h + 4 + (c.1 + 8 + span P) = h + 8 + c.1 + 4 + span P by omega]
        exact this

/-- On a heap that satisfies the invariant the free list is exactly the set of
free blocks: walking it ends and yields a sequence without repetition, whose
members have header and footer marked free, and every block that the
boundary-tag traversal meets with its allocation bit clear is a member. The
traversal with enough fuel meets every member. -/
theorem free_list_exact (s : Heap) (p0 : Nat) (L : List (Nat × Nat)) (F : List Nat)
    (h : heap_inv s p0 L F) :
    free_nodes s.mem (F.length + 1) s.free_list = F ∧ F.Nodup ∧
    (∀ x ∈ F, GET_ALLOC s.mem (HDRP x) = 0 ∧ GET_ALLOC s.mem (FTRP s.mem x) = 0) ∧
    (∀ fuel, ∀ bp ∈ heap_blocks s.mem s.brk fuel (p0 + 8),
      GET_ALLOC s.mem (HDRP bp) = 0 → bp ∈ F) ∧
    (∀ x ∈ F, x ∈ heap_blocks s.mem s.brk L.length (p0 + 8)) := by
  have hok := heap_inv_nodes_ok s p0 L F h
  have htop := h.top
  have hbrk : s.brk = p0 + 4 + 4 + span L := by omega
  refine ⟨?_, nodes_ok_nodup F hok, ?_, ?_, ?_⟩
  · rw [h.list.1]
    exact free_nodes_of_links _ F 0 _ h.list.2 (fun y hy => (hok.1 y hy).1) (by omega)
  · intro x hx
    obtain ⟨P, b, Q, hL, hxe⟩ := free_addrs_split L (p0 + 4) x (h.perm.subset hx)
    subst hL
    obtain ⟨f1, f2, -, -⟩ := free_block_facts s p0 b P Q F h
    rw [PACK_free] at f1 f2
    obtain ⟨-, -, -, b4, -⟩ := heap_inv_block s p0 P Q (b, 0) F h
    simp only [] at b4
    rw [show x = p0 + 8 + span P by omega]
    exact ⟨GET_ALLOC_of_GET _ _ b 0 f1 b4 (by omega), GET_ALLOC_of_GET _ _ b 0 f2 b4 (by omega)⟩
  · intro fuel bp hbp hfree
    rw [hbrk, show p0 + 8 = p0 + 4 + 4 by omega] at hbp
    obtain ⟨P, b, Q, hL, hbe⟩ := heap_blocks_sound s.mem L (p0 + 4) fuel h.wf h.tagged.2.1 bp hbp
    subst hL
    obtain ⟨b1, -, -, b4, -, b6, -⟩ := heap_inv_block s p0 P Q b F h
    have e : HDRP bp = p0 + 4 + span P := by
      unfold HDRP
      omega
    rw [e, GET_ALLOC_of_GET _ _ _ _ b1 b4 (by omega)] at hfree
    apply h.perm.symm.subset
    rw [free_addrs_append]
    simp only [free_addrs, hfree, if_true]
    rw [hbe, List.mem_append, List.mem_cons]
    right
    left
    omega
  · intro x hx
    obtain ⟨P, b, Q, hL, hxe⟩ := free_addrs_split L (p0 + 4) x (h.perm.subset hx)
    rw [hbrk, show p0 + 8 = p0 + 4 + 4 by omega, hxe]
    exact heap_blocks_complete s.mem L (p0 + 4) L.length h.wf h.tagged.2.1 (Nat.le_refl _) P _ Q hL

/-- On a heap that satisfies the invariant no two neighbouring blocks are both
free: every block that the boundary-tag traversal meets with its allocation
bit clear has the footer before its header and the header after its footer
marked allocated. -/
theorem no_adjacent_free_blocks (s : Heap) (p0 : Nat) (L : List (Nat × Nat)) (F : List Nat)
    (h : heap_inv s p0 L F) :
    ∀ fuel, ∀ bp ∈ heap_blocks s.mem s.brk fuel (p0 + 8), GET_ALLOC s.mem (HDRP bp) = 0 →
      GET_ALLOC s.mem (bp - 8) = 1 ∧ GET_ALLOC s.mem (FTRP s.mem bp + 4) = 1 := by
  intro fuel bp hbp hfree
  have htop := h.top
  rw [show s.brk = p0 + 4 + 4 + span L by omega, show p0 + 8 = p0 + 4 + 4 by omega] at hbp
  obtain ⟨P, b, Q, hL, hbe⟩ := heap_blocks_sound s.mem L (p0 + 4) fuel h.wf h.tagged.2.1 bp hbp
  subst hL
  obtain ⟨b1, -, b3, b4, -, b6, -, -, -, n1, n2⟩ := heap_inv_block s p0 P Q b F h
  have e : HDRP bp = p0 + 4 + span P := by
    unfold HDRP
    omega
  rw [e, GET_ALLOC_of_GET _ _ _ _ b1 b4 (by omega)] at hfree
  have hn := h.naf
  rw [no_adjacent_free_append] at hn
  obtain ⟨-, hn2, hn3⟩ := hn
  simp only [no_adjacent_free] at hn2
  have hl : last_alloc P = 1 := by
    rcases hn3 with hn3 | hn3
    · exact hn3
    · simp only [head_alloc] at hn3
      omega
  have hr : head_alloc Q = 1 := by
    rcases hn2.1 with hn2 | hn2
    · omega
    · exact hn2
  constructor
  · rw [show bp - 8 = p0 + span P by omega, n1, hl]
  · unfold FTRP
    rw [e, b3, show bp + b.1 + 4 = p0 + span P + 12 + b.1 by omega, n2, hr]

/-- Supporting C13: after any run of in-range calls from `mm_init` on an
in-range arena, free-list membership is exactly the set of free blocks, without
duplicates. The traversal starts at the first block, 8 bytes after the address
at which `mm_init` placed its two marker words. -/
theorem in_range_free_list_exact (s0 : Heap) (cs : List Call) (h : arena_ok s0)
    (hok : run_ok ((mm_init s0).2, []) cs) :
    ∃ F L, free_nodes (run ((mm_init s0).2, []) cs).1.mem (F.length + 1)
        (run ((mm_init s0).2, []) cs).1.free_list = F ∧ F.Nodup ∧
      (∀ x ∈ F, GET_ALLOC (run ((mm_init s0).2, []) cs).1.mem (HDRP x) = 0 ∧
        GET_ALLOC (run ((mm_init s0).2, []) cs).1.mem
          (FTRP (run ((mm_init s0).2, []) cs).1.mem x) = 0) ∧
      (∀ fuel, ∀ bp ∈ heap_blocks (run ((mm_init s0).2, []) cs).1.mem
          (run ((mm_init s0).2, []) cs).1.brk fuel (s0.brk + 8),
        GET_ALLOC (run ((mm_init s0).2, []) cs).1.mem (HDRP bp) = 0 → bp ∈ F) ∧
      (∀ x ∈ F, x ∈ heap_blocks (run ((mm_init s0).2, []) cs).1.mem
          (run ((mm_init s0).2, []) cs).1.brk L (s0.brk + 8)) := by
  obtain ⟨L, F, hinv, -⟩ := in_range_runs_keep_invariant s0 cs h hok
  exact ⟨F, L.length, free_list_exact _ s0.brk L F hinv⟩

/-- Supporting C14: after any run of in-range calls from `mm_init` on an
in-range arena, every block with its allocation bit clear has an allocated
predecessor and an allocated successor. -/
theorem in_range_no_adjacent_free (s0 : Heap) (cs : List Call) (h : arena_ok s0)
    (hok : run_ok ((mm_init s0).2, []) cs) :
    ∀ fuel, ∀ bp ∈ heap_blocks (run ((mm_init s0).2, []) cs).1.mem
        (run ((mm_init s0).2, []) cs).1.brk fuel (s0.brk + 8),
      GET_ALLOC (run ((mm_init s0).2, []) cs).1.mem (HDRP bp) = 0 →
      GET_ALLOC (run ((mm_init s0).2, []) cs).1.mem (bp - 8) = 1 ∧
      GET_ALLOC (run ((mm_init s0).2, []) cs).1.mem
        (FTRP (run ((mm_init s0).2, []) cs).1.mem bp + 4) = 1 := by
  obtain ⟨L, F, hinv, -⟩ := in_range_runs_keep_invariant s0 cs h hok
  exact no_adjacent_free_blocks _ s0.brk L F hinv

/-! ## What `mm_check` computes -/

theorem check_node_fst (s : Heap) (x : Nat) (st : Nat × List Diag) :
    (node_passes s x → (check_node s x st).1 = st.1) ∧
    (¬ node_passes s x → (check_node s x st).1 = 0) := by
  unfold node_passes check_node
  by_cases h1 : GET_ALLOC s.mem x = 0 <;>
    by_cases h2 : (x ≤ mem_heap_hi s ∧ mem_heap_lo s ≤ x) <;>
    by_cases h3 : ALIGN x = x <;>
    by_cases h4 : (GET_ALLOC s.mem (NEXT_BLKP s.mem x) ≠ 1 ∨
      GET_ALLOC s.mem (PREV_BLKP s.mem x) ≠ 1) <;>
    simp [h1, h2, h3, h4]

/-- The fourth check prints its line exactly when one of the two words it
reads, at the payload addresses of the neighbouring blocks, does not have the
value 1 in its low bit; it never changes the result. -/
theorem check_node_contiguous (s : Heap) (x : Nat) (st : Nat × List Diag) :
    (Diag.contiguous_free ∈ (check_node s x st).2 ↔
      Diag.contiguous_free ∈ st.2 ∨ GET_ALLOC s.mem (NEXT_BLKP s.mem x) ≠ 1 ∨
        GET_ALLOC s.mem (PREV_BLKP s.mem x) ≠ 1) := by
  unfold check_node
  by_cases h1 : GET_ALLOC s.mem x = 0 <;>
    by_cases h2 : (x ≤ mem_heap_hi s ∧ mem_heap_lo s ≤ x) <;>
    by_cases h3 : ALIGN x = x <;>
    by_cases h4 : (GET_ALLOC s.mem (NEXT_BLKP s.mem x) ≠ 1 ∨
      GET_ALLOC s.mem (PREV_BLKP s.mem x) ≠ 1) <;>
    simp [h1, h2, h3, h4]

/-- On a free list that is a finite sequence the loop of `mm_check` ends, and
its outcome is the loop body applied to the nodes in order. -/
theorem mm_check_loop_spec (s : Heap) : ∀ (F : List Nat) (prev fuel : Nat)
    (st : Nat × List Diag), links s.mem prev F 0 → (∀ x ∈ F, x ≠ 0) → F.length < fuel →
    mm_check_loop s fuel (F.headD 0) st = some (F.foldl (fun r x => check_node s x r) st) := by
  intro F
  induction F with
  | nil =>
    intro prev fuel st _ _ hf
    cases fuel with
    | zero => simp at hf
    | succ n => simp [mm_check_loop]
  | cons x F ih =>
    intro prev fuel st hl h0 hf
    obtain ⟨-, l2, l3⟩ := hl
    cases fuel with
    | zero => simp at hf
    | succ n =>
      have hx : x ≠ 0 := h0 x (List.mem_cons_self _ _)
      simp only [List.headD_cons, mm_check_loop, hx, if_false, List.foldl_cons]
      rw [l2]
      exact ih x n _ l3 (fun y hy => h0 y (List.mem_cons_of_mem _ hy))
        (by simp at hf; omega)

theorem foldl_check_fst (s : Heap) : ∀ (F : List Nat) (st : Nat × List Diag),
    ((F.foldl (fun r x => check_node s x r) st).1 = 1 ↔
      st.1 = 1 ∧ ∀ x ∈ F, node_passes s x) := by
  intro F
  induction F with
  | nil => intro st; simp
  | cons x F ih =>
    intro st
    rw [List.foldl_cons, ih]
    obtain ⟨c1, c2⟩ := check_node_fst s x st
    by_cases hp : node_passes s x
    · rw [c1 hp]
      simp [hp]
    · rw [c2 hp]
      simp [hp]

/-- The result of `mm_check`. On a free list that is the finite sequence `F`
the call returns, and its result is 1 exactly when every node passes the
first three tests (`node_passes`): the fourth test has no part in it. -/
theorem mm_check_result (s : Heap) (F : List Nat) (fuel : Nat) (h : free_list_is s F)
    (h0 : ∀ x ∈ F, x ≠ 0) (hf : F.length < fuel) :
    ∃ r, mm_check s fuel = some r ∧ (r.1 = 1 ↔ ∀ x ∈ F, node_passes s x) := by
  refine ⟨F.foldl (fun r x => check_node s x r) (1, []), ?_, ?_⟩
  · unfold mm_check
    rw [h.1]
    exact mm_check_loop_spec s F 0 fuel (1, []) h.2 h0 hf
  · rw [foldl_check_fst]
    simp

theorem GET_of_GET_PTR (m : Mem) (p : Nat) : GET m p = GET_PTR m p % 4294967296 := by
  unfold GET_PTR
  have := GET_lt m p
  omega

theorem span_mod8 : ∀ (L : List (Nat × Nat)), blocks_wf L → span L % 8 = 0 := by
  intro L
  induction L with
  | nil => intro _; rfl
  | cons b R ih =>
    intro hwf
    rw [blocks_wf_cons] at hwf
    have := ih hwf.2
    simp only [span]
    omega

theorem free_addrs_aligned (h : Nat) (L : List (Nat × Nat)) (hwf : blocks_wf L)
    (h4 : h % 8 = 4) : ∀ x ∈ free_addrs h L, x % 8 = 0 := by
  intro x hx
  obtain ⟨P, b, Q, hL, hxe⟩ := free_addrs_split L h x hx
  subst hL
  rw [blocks_wf_append] at hwf
  have := span_mod8 P hwf.1
  omega

theorem links_prev_mem (m : Mem) : ∀ (F : List Nat) (prev nxt : Nat), links m prev F nxt →
    ∀ x ∈ F, GET_PREV_FREE m x = prev ∨ GET_PREV_FREE m x ∈ F := by
  intro F
  induction F with
  | nil => intro prev nxt _ x hx; simp at hx
  | cons y F ih =>
    intro prev nxt hl x hx
    obtain ⟨l1, -, l3⟩ := hl
    rw [List.mem_cons] at hx
    rcases hx with hx | hx
    · left
      rw [hx]
      exact l1
    · right
      rcases ih y nxt l3 x hx with h1 | h1
      · rw [h1]
        exact List.mem_cons_self _ _
      · exact List.mem_cons_of_mem _ h1

/-- On a heap that satisfies the invariant every free-list node passes the
three tests that count, so `mm_check` returns 1. -/
theorem check_accepts_invariant (s : Heap) (p0 : Nat) (L : List (Nat × Nat)) (F : List Nat)
    (fuel : Nat) (h : heap_inv s p0 L F) (hf : F.length < fuel) :
    (∀ x ∈ F, node_passes s x) ∧ ∃ out, mm_check s fuel = some (1, out) := by
  have hok := heap_inv_nodes_ok s p0 L F h
  have hal := free_addrs_aligned (p0 + 4) L h.wf (by have := h.aligned; omega)
  have hb := free_addrs_bounds L (p0 + 4) h.wf
  have htop := h.top
  have hlo := h.lo
  have hcap := h.cap
  have hsmall := h.small
  have haddr := h.addr
  have hpass : ∀ x ∈ F, node_passes s x := by
    intro x hx
    have hx8 := hal x (h.perm.subset hx)
    have hxb := hb x (h.perm.subset hx)
    refine ⟨?_, ⟨?_, ?_⟩, ?_⟩
    · rw [GET_ALLOC_eq, GET_of_GET_PTR]
      have hprev : GET_PREV_FREE s.mem x % 8 = 0 := by
        rcases links_prev_mem s.mem F 0 0 h.list.2 x hx with h1 | h1
        · rw [h1]
        · exact hal _ (h.perm.subset h1)
      unfold GET_PREV_FREE at hprev
      omega
    · unfold mem_heap_hi
      omega
    · unfold mem_heap_lo
      omega
    · rw [ALIGN_eq x (by omega)]
      omega
  refine ⟨hpass, ?_⟩
  obtain ⟨r, hr1, hr2⟩ := mm_check_result s F fuel h.list (fun x hx => (hok.1 x hx).1) hf
  refine ⟨r.2, ?_⟩
  rw [hr1, ← hr2.2 hpass]

/-- Supporting C11 and C12: after any run of in-range calls from `mm_init` on
an in-range arena, `mm_check` returns 1 once the fuel exceeds the length of the
free list. -/
theorem in_range_check_returns_one (s0 : Heap) (cs : List Call) (h : arena_ok s0)
    (hok : run_ok ((mm_init s0).2, []) cs) :
    ∃ n, ∀ fuel, n < fuel →
      ∃ out, mm_check (run ((mm_init s0).2, []) cs).1 fuel = some (1, out) := by
  obtain ⟨L, F, hinv, -⟩ := in_range_runs_keep_invariant s0 cs h hok
  exact ⟨F.length, fun fuel hf => (check_accepts_invariant _ s0.brk L F fuel hinv hf).2⟩

/-- An allocation that succeeds on a heap with an empty free list takes the
growth path: the new block is appended to the arena. -/
theorem heap_inv_grow_step (s : Heap) (p0 : Nat) (L : List (Nat × Nat)) (n : Nat)
    (h : heap_inv s p0 L []) (h0 : 0 < n) (hn : n ≤ 4294967280)
    (hr : (mm_malloc s n).1 ≠ 0) :
    (mm_malloc s n).1 = p0 + 8 + span L ∧
    heap_inv (mm_malloc s n).2 p0 (L ++ [(adjusted_size n, 1)]) [] := by
  have hfit : find_fit s (adjusted_size n) = 0 := find_fit_nil s _ h.list.1
  obtain ⟨-, -, g3⟩ := adjusted_size_ge n hn
  have hg : s.brk + (adjusted_size n + 8) ≤ s.max_addr := by
    by_contra hc
    apply hr
    rw [mm_malloc_grow_fail s n (by omega) hfit
      (by rw [Nat.mod_eq_of_lt (by omega)]; exact hc)]
  exact heap_inv_malloc_grow s p0 L [] n h h0 hn hfit hg

/-- Supporting C12: Scenario C for any three in-range request sizes whose
allocations succeed on an in-range arena. After the release of the middle
block the free list has exactly one node, the middle block, and `mm_check`
returns 1; it prints its fourth line unless the first payload word of each of
the two allocated neighbours happens to be odd. -/
theorem scenarioC_in_range (s0 : Heap) (n1 n2 n3 : Nat) (h : arena_ok s0)
    (h1 : 0 < n1 ∧ n1 ≤ 4294967280) (h2 : 0 < n2 ∧ n2 ≤ 4294967280)
    (h3 : 0 < n3 ∧ n3 ≤ 4294967280)
    (ha : (init_and_three s0 n1 n2 n3).1 ≠ 0) (hb : (init_and_three s0 n1 n2 n3).2.1 ≠ 0)
    (hc : (init_and_three s0 n1 n2 n3).2.2.1 ≠ 0) :
    free_nodes (mm_free (init_and_three s0 n1 n2 n3).2.2.2 (init_and_three s0 n1 n2 n3).2.1).mem
        2 (mm_free (init_and_three s0 n1 n2 n3).2.2.2 (init_and_three s0 n1 n2 n3).2.1).free_list
      = [(init_and_three s0 n1 n2 n3).2.1] ∧
    ∃ out, mm_check (mm_free (init_and_three s0 n1 n2 n3).2.2.2
        (init_and_three s0 n1 n2 n3).2.1) 2 = some (1, out) ∧
      (Diag.contiguous_free ∈ out ↔
        GET_ALLOC (mm_free (init_and_three s0 n1 n2 n3).2.2.2
          (init_and_three s0 n1 n2 n3).2.1).mem (init_and_three s0 n1 n2 n3).2.2.1 ≠ 1 ∨
        GET_ALLOC (mm_free (init_and_three s0 n1 n2 n3).2.2.2
          (init_and_three s0 n1 n2 n3).2.1).mem (init_and_three s0 n1 n2 n3).1 ≠ 1) := by
  unfold init_and_three at ha hb hc ⊢
  simp only [] at ha hb hc ⊢
  obtain ⟨-, i0⟩ := heap_inv_init s0 h
  obtain ⟨e1, i1⟩ := heap_inv_grow_step _ s0.brk [] n1 i0 h1.1 h1.2 ha
  obtain ⟨e2, i2⟩ := heap_inv_grow_step _ s0.brk _ n2 i1 h2.1 h2.2 hb
  obtain ⟨e3, i3⟩ := heap_inv_grow_step _ s0.brk _ n3 i2 h3.1 h3.2 hc
  rw [e1, e2, e3]
  generalize (mm_malloc (mm_malloc (mm_malloc (mm_init s0).2 n1).2 n2).2 n3).2 = s3 at i3 ⊢
  have i4 := heap_inv_free_case1 s3 s0.brk (adjusted_size n2) [(adjusted_size n1, 1)]
    [(adjusted_size n3, 1)] [] i3 rfl rfl
  have ea : s0.brk + 8 + span [] = s0.brk + 8 := rfl
  have eb : s0.brk + 8 + span ([] ++ [(adjusted_size n1, 1)])
      = s0.brk + 16 + adjusted_size n1 := by
    simp only [List.nil_append, span]
    omega
  have ec : s0.brk + 8 + span ([] ++ [(adjusted_size n1, 1)] ++ [(adjusted_size n2, 1)])
      = s0.brk + 24 + adjusted_size n1 + adjusted_size n2 := by
    simp only [List.nil_append, List.cons_append, span]
    omega
  have eb' : s0.brk + 8 + span [(adjusted_size n1, 1)] = s0.brk + 16 + adjusted_size n1 := by
    simp only [span]
    omega
  rw [ea, eb, ec]
  rw [eb'] at i4
  generalize mm_free s3 (s0.brk + 16 + adjusted_size n1) = s4 at i4 ⊢
  obtain ⟨hpass, -⟩ := check_accepts_invariant s4 s0.brk _ _ 2 i4 (by simp)
  have hok := heap_inv_nodes_ok s4 s0.brk _ _ i4
  have hchk : mm_check s4 2 = some (check_node s4 (s0.brk + 16 + adjusted_size n1) (1, [])) := by
    unfold mm_check
    rw [i4.list.1]
    exact mm_check_loop_spec s4 [s0.brk + 16 + adjusted_size n1] 0 2 (1, []) i4.list.2
      (fun x hx => (hok.1 x hx).1) (by simp)
  have h1' := (check_node_fst s4 (s0.brk + 16 + adjusted_size n1) (1, [])).1
    (hpass _ (List.mem_cons_self _ _))
  have hcont := check_node_contiguous s4 (s0.brk + 16 + adjusted_size n1) (1, [])
  obtain ⟨-, -, b3, -⟩ := heap_inv_block s4 s0.brk [(adjusted_size n1, 1)]
    [(adjusted_size n3, 1)] (adjusted_size n2, 0) _ i4
  obtain ⟨-, c2, -, c4, -⟩ := heap_inv_block s4 s0.brk [] [(adjusted_size n2, 0),
    (adjusted_size n3, 1)] (adjusted_size n1, 1) _ i4
  simp only [span, Nat.add_zero] at b3 c2 c4
  have hnext : NEXT_BLKP s4.mem (s0.brk + 16 + adjusted_size n1)
      = s0.brk + 24 + adjusted_size n1 + adjusted_size n2 := by
    unfold NEXT_BLKP
    rw [show HDRP (s0.brk + 16 + adjusted_size n1) = s0.brk + 4 + (adjusted_size n1 + 8)
      by unfold HDRP; omega, b3]
    omega
  have hprev : PREV_BLKP s4.mem (s0.brk + 16 + adjusted_size n1) = s0.brk + 8 := by
    unfold PREV_BLKP
    rw [show s0.brk + 16 + adjusted_size n1 - 8 = s0.brk + 8 + adjusted_size n1 by omega,
      GET_SIZE_of_GET _ _ _ 1 c2 c4 (by omega)]
    omega
  rw [hnext, hprev] at hcont
  refine ⟨(free_list_exact s4 s0.brk _ _ i4).1,
    (check_node s4 (s0.brk + 16 + adjusted_size n1) (1, [])).2, ?_, ?_⟩
  · rw [hchk]
    have hone : (check_node s4 (s0.brk + 16 + adjusted_size n1) (1, [])).1 = 1 := h1'
    exact congrArg some (Prod.ext hone rfl)
  · rw [hcont]
    simp


/-! ## Merges whose combined size does not fit a tag -/

/-- C15. After `mm_init(); a = mm_malloc(1073741824); b = mm_malloc(1073741824);
c = mm_malloc(2147483632); mm_free(a); mm_free(b)` on the 8 GiB arena the free
list is `[a]`, the arena holds the free block at `a` (size 2147483656 in header
and footer) followed by the live block `c` (size 2147483632, successor
allocated). For `mm_free(c)` the merged span is that of the two blocks: its
lowest block is `a` and the combined size is 4294967296. After the call `a` is
in the free list once, but its header reads 0, the footer that `FTRP` finds for
it is the word at `a` itself, and the last word of the span holds the size of
`c` alone: neither tag encodes the combined size, which does not fit the
32-bit word that `PUT` stores. -/
theorem C15_merged_size_truncated :
    (wide_blocks.1, wide_blocks.2.1, wide_blocks.2.2.1) = (4104, 1073745936, 2147487768) ∧
    free_nodes wide_blocks.2.2.2.mem 500 wide_blocks.2.2.2.free_list = [4104] ∧
    arena_blocks wide_blocks.2.2.2 500 = [4104, 2147487768] ∧
    GET wide_blocks.2.2.2.mem (HDRP 4104) = 2147483656 ∧
    GET wide_blocks.2.2.2.mem (FTRP wide_blocks.2.2.2.mem 4104) = 2147483656 ∧
    GET wide_blocks.2.2.2.mem (HDRP 2147487768) = 2147483633 ∧
    GET wide_blocks.2.2.2.mem (FTRP wide_blocks.2.2.2.mem 2147487768) = 2147483633 ∧
    FTRP wide_blocks.2.2.2.mem 2147487768 = 4294971400 ∧
    GET_ALLOC wide_blocks.2.2.2.mem (FTRP wide_blocks.2.2.2.mem 2147487768 + 4) = 1 ∧
    merged_lowest wide_blocks.2.2.2 2147487768 = 4104 ∧
    merged_size wide_blocks.2.2.2 2147487768 = 4294967296 ∧
    free_nodes (mm_free wide_blocks.2.2.2 2147487768).mem 500
      (mm_free wide_blocks.2.2.2 2147487768).free_list = [4104] ∧
    GET (mm_free wide_blocks.2.2.2 2147487768).mem (HDRP 4104) = 0 ∧
    GET (mm_free wide_blocks.2.2.2 2147487768).mem (HDRP 4104)
      ≠ PACK (merged_size wide_blocks.2.2.2 2147487768) 0 ∧
    FTRP (mm_free wide_blocks.2.2.2 2147487768).mem 4104 = 4104 ∧
    GET (mm_free wide_blocks.2.2.2 2147487768).mem 4294971400 = 2147483632 := by
  decide

/-- C16. After `mm_init(); d = mm_malloc(16); e = mm_malloc(16);
a = mm_malloc(1073741824); b = mm_malloc(1073741824);
c = mm_malloc(2147483632); mm_free(a); mm_free(b); mm_free(d)` on the 8 GiB
arena the free list is `[d, a]`, the block at `a` is free with size 2147483656
and is the immediate predecessor of the live block `c` (size 2147483632),
whose successor is allocated: `mm_free(c)` is case 3. The combined size
4294967296 is stored as 0 in the predecessor's header, so the footer store of
`coalesce` goes to `FTRP(a) = a`, the place of the previous reference of the
node `a`: that reference was `d` before the call and is `NULL` after it, a
byte outside the three tag words has changed, and neither the predecessor's
header nor the last word of the merged span encodes the combined size. -/
theorem C16_merge_overwrites_link :
    (wide_blocks_linked.1, wide_blocks_linked.2.1, wide_blocks_linked.2.2.1)
      = (4104, 4184, 2147487848) ∧
    free_nodes wide_blocks_linked.2.2.2.mem 500 wide_blocks_linked.2.2.2.free_list
      = [4104, 4184] ∧
    arena_blocks wide_blocks_linked.2.2.2 500 = [4104, 4144, 4184, 2147487848] ∧
    GET_ALLOC wide_blocks_linked.2.2.2.mem (2147487848 - 8) = 0 ∧
    GET_ALLOC wide_blocks_linked.2.2.2.mem
      (FTRP wide_blocks_linked.2.2.2.mem 2147487848 + 4) = 1 ∧
    PREV_BLKP wide_blocks_linked.2.2.2.mem 2147487848 = 4184 ∧
    GET wide_blocks_linked.2.2.2.mem (HDRP 4184) = 2147483656 ∧
    GET wide_blocks_linked.2.2.2.mem (FTRP wide_blocks_linked.2.2.2.mem 4184) = 2147483656 ∧
    GET wide_blocks_linked.2.2.2.mem (HDRP 2147487848) = 2147483633 ∧
    FTRP wide_blocks_linked.2.2.2.mem 2147487848 = 4294971480 ∧
    PACK (GET_SIZE wide_blocks_linked.2.2.2.mem (HDRP 4184)
      + GET_SIZE wide_blocks_linked.2.2.2.mem (HDRP 2147487848) + 8) 0 = 4294967296 ∧
    (mm_free wide_blocks_linked.2.2.2 2147487848).free_list = 4104 ∧
    GET_PREV_FREE wide_blocks_linked.2.2.2.mem 4184 = 4104 ∧
    GET_PREV_FREE (mm_free wide_blocks_linked.2.2.2 2147487848).mem 4184 = 0 ∧
    (mm_free wide_blocks_linked.2.2.2 2147487848).mem 4184
      ≠ wide_blocks_linked.2.2.2.mem 4184 ∧
    GET (mm_free wide_blocks_linked.2.2.2 2147487848).mem (HDRP 4184) = 0 ∧
    FTRP (mm_free wide_blocks_linked.2.2.2 2147487848).mem 4184 = 4184 ∧
    GET (mm_free wide_blocks_linked.2.2.2 2147487848).mem 4294971480 = 2147483632 := by
  decide


theorem heap_inv_limit (s : Heap) (p0 : Nat) (L : List (Nat × Nat)) (F : List Nat)
    (h : heap_inv s p0 L F) : heap_inv { s with max_addr := s.brk } p0 L F :=
  ⟨h.aligned, h.lo, h.top, Nat.le_refl _, Nat.le_trans h.cap h.small, h.addr, h.tagged, h.wf,
    h.naf, h.list, h.perm⟩


theorem add_limit (s : Heap) (p k : Nat) :
    add { s with max_addr := k } p = { add s p with max_addr := k } := rfl

theorem delete_limit (s : Heap) (p k : Nat) :
    delete { s with max_addr := k } p = { delete s p with max_addr := k } := by
  unfold delete
  dsimp only
  split_ifs <;> rfl

theorem coalesce_limit (s : Heap) (p k : Nat) :
    coalesce { s with max_addr := k } p = { coalesce s p with max_addr := k } := by
  unfold coalesce
  dsimp only
  split_ifs
  · rfl
  · rw [delete_limit]
    rfl
  · rfl
  · rw [← delete_limit]

/-- `mm_free` neither reads nor writes the limit of the arena. -/
theorem mm_free_limit (s : Heap) (p k : Nat) :
    mm_free { s with max_addr := k } p = { mm_free s p with max_addr := k } := by
  unfold mm_free
  dsimp only
  split_ifs
  · rfl
  · rw [← coalesce_limit]
  · rfl


/-- Supporting C15, whatever the limit of the arena: when the heap satisfies
the invariant with its current end taken as the limit (so its extent is at
most 2 GiB), `mm_free(p)` of a live `p` leaves the lowest block of the merged
span with header and footer encoding the combined size, free, and that block
alone of the span is in the free list, once. -/
theorem merge_survives_lowest_any_limit (s : Heap) (p0 : Nat) (L : List (Nat × Nat))
    (F : List Nat) (p : Nat) (h : heap_inv { s with max_addr := s.brk } p0 L F)
    (hp : p ∈ (live_blocks (p0 + 4) L).map Prod.fst) :
    ∃ L' F', heap_inv { mm_free s p with max_addr := s.brk } p0 L' F' ∧
      GET (mm_free s p).mem (HDRP (merged_lowest s p)) = PACK (merged_size s p) 0 ∧
      GET (mm_free s p).mem (FTRP (mm_free s p).mem (merged_lowest s p))
        = PACK (merged_size s p) 0 ∧
      F'.count (merged_lowest s p) = 1 ∧
      (GET_ALLOC s.mem (p - 8) = 0 → p ∉ F') ∧
      (GET_ALLOC s.mem (FTRP s.mem p + 4) = 0 → NEXT_BLKP s.mem p ∉ F') := by
  have h1 := merge_survives_lowest_in_range { s with max_addr := s.brk } p0 L F p h hp
  rw [mm_free_limit] at h1
  exact h1

/-- Supporting C16, whatever the limit of the arena: when the heap satisfies
the invariant with its current end taken as the limit (so its extent is at
most 2 GiB), case 3 of `mm_free(p)` leaves the root and every reference of the
free list as they were, changes only the three tag words, and leaves the
predecessor's header and new footer encoding the combined size, free. -/
theorem merge_into_predecessor_any_limit (s : Heap) (p0 : Nat) (L : List (Nat × Nat))
    (F : List Nat) (p : Nat) (h : heap_inv { s with max_addr := s.brk } p0 L F)
    (hp : p ∈ (live_blocks (p0 + 4) L).map Prod.fst)
    (hprev : GET_ALLOC s.mem (p - 8) = 0)
    (hnext : GET_ALLOC s.mem (FTRP s.mem p + 4) ≠ 0) :
    s.free_list ≠ 0 ∧
    (mm_free s p).free_list = s.free_list ∧
    (∀ x ∈ F, GET_PREV_FREE (mm_free s p).mem x = GET_PREV_FREE s.mem x ∧
      GET_NEXT_FREE (mm_free s p).mem x = GET_NEXT_FREE s.mem x) ∧
    free_list_is s F ∧ free_list_is (mm_free s p) F ∧
    (∀ a, ¬ (HDRP p ≤ a ∧ a < HDRP p + 4) →
      ¬ (FTRP s.mem p ≤ a ∧ a < FTRP s.mem p + 4) →
      ¬ (HDRP (PREV_BLKP s.mem p) ≤ a ∧ a < HDRP (PREV_BLKP s.mem p) + 4) →
      (mm_free s p).mem a = s.mem a) ∧
    GET (mm_free s p).mem (HDRP (PREV_BLKP s.mem p)) =
      PACK (GET_SIZE s.mem (HDRP (PREV_BLKP s.mem p)) + GET_SIZE s.mem (HDRP p) + 8) 0 ∧
    FTRP (mm_free s p).mem (PREV_BLKP s.mem p) = FTRP s.mem p ∧
    GET (mm_free s p).mem (FTRP (mm_free s p).mem (PREV_BLKP s.mem p)) =
      PACK (GET_SIZE s.mem (HDRP (PREV_BLKP s.mem p)) + GET_SIZE s.mem (HDRP p) + 8) 0 := by
  have h1 := merge_into_predecessor_in_range { s with max_addr := s.brk } p0 L F p h hp
    hprev hnext
  rw [mm_free_limit] at h1
  exact h1

end MM
